import Mathlib

/-!
# chessdrill: drill session engine and statistics aggregator

A shallow embedding of the Go packages `internal/model`, `internal/repository`
and `internal/service` of `abdul-hamid-achik/chessdrill`, followed by theorems
about it.

Modelling conventions.

* A Go `string` is a Lean `String` (a sequence of Unicode code points, i.e. a
  valid UTF-8 string); string indexing `s[i]` reads the `i`-th byte of its
  UTF-8 encoding and is `none` where Go panics.
* `bson.ObjectID` and `time.Time` are natural numbers; the values that the
  environment supplies (`time.Now()`, the identifier generated on insert, the
  outcome of a `crypto/rand` draw, a driver failure) are explicit arguments.
* The MongoDB collections are lists of documents in insertion order; every
  driver round trip takes a `fault : Option Error` argument, `some e` meaning
  that the driver reported `e`.
* Go `int` values are `Int`; counts produced by the database are `Nat`.
* A Go function that may panic returns an `Option`, `none` being the panic.
-/

namespace ChessDrill

/-! ## Strings (Go packages `strings`, `unicode`, `fmt`) -/

/-- Go `unicode.IsSpace`: the Unicode White_Space property. -/
def isSpace (c : Char) : Bool :=
  let n := c.toNat
  n == 0x20 || (0x09 ≤ n && n ≤ 0x0D) || n == 0x85 || n == 0xA0 || n == 0x1680 ||
    (0x2000 ≤ n && n ≤ 0x200A) || n == 0x2028 || n == 0x2029 || n == 0x202F ||
    n == 0x205F || n == 0x3000

/-- Go `strings.TrimSpace`: all leading and trailing white space removed. -/
def TrimSpace (s : String) : String :=
  String.mk ((s.data.dropWhile isSpace).reverse.dropWhile isSpace).reverse

/-- Go `unicode.ToLower`. Runes up to `MaxASCII` are handled as in the library;
for the other runes the library consults its `CaseRanges` table, which is the
argument `caseRanges`. -/
def toLowerRune (caseRanges : Char → Char) (c : Char) : Char :=
  if c.toNat ≤ 0x7F then
    if 'A'.toNat ≤ c.toNat ∧ c.toNat ≤ 'Z'.toNat then Char.ofNat (c.toNat + ('a'.toNat - 'A'.toNat))
    else c
  else caseRanges c

/-- Go `strings.ToLower`: every rune mapped by `unicode.ToLower`. -/
def ToLower (caseRanges : Char → Char) (s : String) : String :=
  String.mk (s.data.map (toLowerRune caseRanges))

/-- The bytes of a Go string. -/
def goBytes (s : String) : List Nat :=
  s.data.flatMap (fun c => (String.utf8EncodeChar c).map (fun b => b.toNat))

/-- Go `s[i]` on a string: the byte at index `i`, `none` when out of range. -/
def byteAt (s : String) (i : Nat) : Option Nat := (goBytes s).get? i

/-- Go `fmt.Sprintf("%d", n)` for a non-negative `n`. -/
def sprintfD (n : Nat) : String := toString n

/-! ## Data model (`internal/model`) -/

abbrev ObjectID := Nat
abbrev Time := Nat
abbrev DrillType := String
abbrev InputMethod := String

def DrillTypeNameSquare : DrillType := "name_square"
def DrillTypeFindSquare : DrillType := "find_square"
def DrillTypePieceMovement : DrillType := "piece_movement"
def DrillTypeMoveNotation : DrillType := "move_notation"

/-- The errors the core can return: the sentinel of the drill-session
repository, and any error reported by the database driver. -/
inductive Error where
  | ErrDrillSessionNotFound
  | driver (msg : String)
  deriving DecidableEq, Repr

structure DrillSessionSummary where
  TotalAttempts : Int
  Correct : Int
  AvgResponseMs : Int
  StreakBest : Int
  deriving DecidableEq, Repr

structure DrillSession where
  ID : ObjectID
  UserID : ObjectID
  DrillType : DrillType
  InputMethod : InputMethod
  Perspective : String
  StartedAt : Time
  EndedAt : Option Time
  Summary : DrillSessionSummary
  deriving DecidableEq, Repr

structure AttemptMetadata where
  PieceType : String
  FromSquare : String
  FEN : String
  deriving DecidableEq, Repr

structure Attempt where
  ID : ObjectID
  SessionID : ObjectID
  UserID : ObjectID
  DrillType : DrillType
  Question : String
  CorrectAnswer : String
  UserAnswer : String
  Correct : Bool
  ResponseMs : Int
  AnsweredAt : Time
  Metadata : AttemptMetadata
  deriving DecidableEq, Repr

/-- `model.NewAttempt`; `now` is the value of `time.Now()`. -/
def NewAttempt (sessionID userID : ObjectID) (drillType : DrillType)
    (question correctAnswer userAnswer : String) (responseMs : Int) (now : Time) : Attempt :=
  { ID := 0
    SessionID := sessionID
    UserID := userID
    DrillType := drillType
    Question := question
    CorrectAnswer := correctAnswer
    UserAnswer := userAnswer
    Correct := correctAnswer == userAnswer
    ResponseMs := responseMs
    AnsweredAt := now
    Metadata := ⟨"", "", ""⟩ }

/-- `model.Question` (its field `Type` is `Typ` here); the `Metadata` map is an
association list, `[]` for nil. -/
structure Question where
  Typ : DrillType
  Target : String
  Prompt : String
  FEN : String
  Metadata : List (String × String)
  deriving DecidableEq, Repr

/-! ## Persistence: the two collections the core writes -/

/-- The database: the `attempts` and `drill_sessions` collections. -/
structure Store where
  attempts : List Attempt
  drillSessions : List DrillSession
  deriving DecidableEq, Repr

/-- `AttemptRepository.Create`: `InsertOne`, then the generated identifier is
written back into the attempt. Returns the attempt as the caller sees it
afterwards, the store, and the error. -/
def AttemptRepository.Create (db : Store) (attempt : Attempt) (fault : Option Error)
    (newID : ObjectID) : Store × Attempt × Option Error :=
  match fault with
  | some err => (db, attempt, some err)
  | none =>
    let stored := { attempt with ID := newID }
    ({ db with attempts := db.attempts ++ [stored] }, stored, none)

/-! ## Question generator (`internal/service/drill.go`) -/

def files : List String := ["a", "b", "c", "d", "e", "f", "g", "h"]
def ranks : List String := ["1", "2", "3", "4", "5", "6", "7", "8"]

/-- The outcomes of the `crypto/rand` draws of one question: `rand.Int` with
bound 8 (file, rank) and with bound 5 (piece kind). -/
structure Draws where
  pieceIdx : Fin 5
  fileIdx : Fin 8
  rankIdx : Fin 8
  deriving DecidableEq, Repr

/-- `DrillService.RandomSquare`. -/
def RandomSquare (fileIdx rankIdx : Fin 8) : String :=
  files.get (Fin.cast (by decide) fileIdx) ++ ranks.get (Fin.cast (by decide) rankIdx)

def emptyBoardFEN : String := "8/8/8/8/8/8/8/8 w - - 0 1"

/-- `DrillService.generateNameSquareQuestion`. -/
def generateNameSquareQuestion (d : Draws) : Question :=
  let target := RandomSquare d.fileIdx d.rankIdx
  { Typ := DrillTypeNameSquare, Target := target, Prompt := "", FEN := emptyBoardFEN,
    Metadata := [] }

/-- `DrillService.generateFindSquareQuestion`. -/
def generateFindSquareQuestion (d : Draws) : Question :=
  let target := RandomSquare d.fileIdx d.rankIdx
  { Typ := DrillTypeFindSquare, Target := target, Prompt := target, FEN := emptyBoardFEN,
    Metadata := [] }

/-- The `pieceMap` of `generateSinglePieceFEN`; a missing key reads as the zero
rune. -/
def pieceMap (pieceType : String) : Char :=
  if pieceType = "knight" then 'N'
  else if pieceType = "bishop" then 'B'
  else if pieceType = "rook" then 'R'
  else if pieceType = "queen" then 'Q'
  else if pieceType = "king" then 'K'
  else if pieceType = "pawn" then 'P'
  else Char.ofNat 0

/-- One row of the occupied rank. -/
def fenRow (piece : Char) (file : Nat) : String :=
  let row := ""
  let row := if file > 0 then row ++ sprintfD file else row
  let row := row ++ String.singleton piece
  let row := if file < 7 then row ++ sprintfD (7 - file) else row
  row

/-- The loop `for r := 7; r >= 0; r--` of `generateSinglePieceFEN`: the first
argument is `r + 1`, the last the rows appended so far. -/
def fenRowsLoop (piece : Char) (file rank : Nat) : Nat → List String → List String
  | 0, fenRows => fenRows
  | r + 1, fenRows =>
    fenRowsLoop piece file rank r
      (if r = rank then fenRows ++ [fenRow piece file] else fenRows ++ ["8"])

/-- `DrillService.generateSinglePieceFEN`. `square[0] - 'a'` and
`square[1] - '1'` are byte subtractions (modulo 256). -/
def generateSinglePieceFEN (pieceType square : String) : Option String :=
  let piece := pieceMap pieceType
  let piece := if piece = Char.ofNat 0 then 'N' else piece
  match byteAt square 0, byteAt square 1 with
  | some b0, some b1 =>
    let file := (b0 + 256 - 97) % 256
    let rank := (b1 + 256 - 49) % 256
    let fenRows := fenRowsLoop piece file rank 8 []
    some (String.intercalate "/" fenRows ++ " w - - 0 1")
  | _, _ => none

def pieceTypes : List String := ["knight", "bishop", "rook", "queen", "king"]

/-- `DrillService.generatePieceMovementQuestion`. -/
def generatePieceMovementQuestion (d : Draws) (pieceType : String) : Option Question :=
  let pieceType :=
    if pieceType = "" then pieceTypes.get (Fin.cast (by decide) d.pieceIdx) else pieceType
  let square := RandomSquare d.fileIdx d.rankIdx
  match generateSinglePieceFEN pieceType square with
  | none => none
  | some fen =>
    some { Typ := DrillTypePieceMovement, Target := square,
           Prompt := "Where can the " ++ pieceType ++ " move?", FEN := fen,
           Metadata := [("piece_type", pieceType)] }

/-- `DrillService.generateMoveNotationQuestion`. -/
def generateMoveNotationQuestion (d : Draws) : Option Question :=
  generatePieceMovementQuestion d "knight"

/-- `DrillService.GenerateQuestion`. -/
def GenerateQuestion (d : Draws) (drillType : DrillType) (pieceType : String) :
    Option Question :=
  if drillType = DrillTypeNameSquare then some (generateNameSquareQuestion d)
  else if drillType = DrillTypeFindSquare then some (generateFindSquareQuestion d)
  else if drillType = DrillTypePieceMovement then generatePieceMovementQuestion d pieceType
  else if drillType = DrillTypeMoveNotation then generateMoveNotationQuestion d
  else some (generateNameSquareQuestion d)

/-! ## Reading a board encoding back

The decoder below is not part of the repository: it is the reading of a
placement string that the specification describes (digits are runs of empty
squares, ranks are listed from 8 down to 1, files from a to h). -/

/-- The placement part of a board encoding: what precedes the first blank. -/
def placementPart (fen : String) : List Char := fen.data.takeWhile (fun c => c ≠ ' ')

/-- The rank fields of a placement, separated by `/`. -/
def splitRanks : List Char → List (List Char)
  | [] => [[]]
  | c :: cs =>
    if c = '/' then [] :: splitRanks cs
    else
      match splitRanks cs with
      | [] => [[c]]
      | row :: rows => (c :: row) :: rows

/-- The squares of one rank field, file a first: a digit `k` stands for `k`
empty squares, any other character for a piece. -/
def decodeRank (row : List Char) : List (Option Char) :=
  row.flatMap (fun c => if c.isDigit then List.replicate (c.toNat - '0'.toNat) none else [some c])

/-- The board of a placement: its ranks, rank 8 first. -/
def decodePlacement (placement : List Char) : List (List (Option Char)) :=
  (splitRanks placement).map decodeRank

/-- The number of piece letters of a placement. -/
def pieceLetterCount (placement : List Char) : Nat := placement.countP Char.isAlpha

/-- The 8 by 8 board, rank 8 first and file a first, whose only occupied square
is the one with file index `file` and rank index `rank`, holding `piece`. -/
def singlePieceBoard (piece : Char) (file rank : Nat) : List (List (Option Char)) :=
  (List.range 8).map (fun i =>
    (List.range 8).map (fun j => if 7 - i = rank ∧ j = file then some piece else none))

/-! ## Answer evaluator (`DrillService.CheckAnswer`) -/

/-- What a call of `CheckAnswer` returns: the triple `(bool, *Question, error)`. -/
structure CheckAnswerReturn where
  correct : Bool
  nextQuestion : Option Question
  err : Option Error
  deriving DecidableEq, Repr

/-- The local variable `attempt` of `CheckAnswer`: the record handed to the
attempt repository. -/
def CheckAnswer.attempt (caseRanges : Char → Char) (now : Time) (sessionID userID : ObjectID)
    (drillType : DrillType) (question correctAnswer userAnswer : String) (responseMs : Int) :
    Attempt :=
  let correctAnswer := ToLower caseRanges (TrimSpace correctAnswer)
  let userAnswer := ToLower caseRanges (TrimSpace userAnswer)
  NewAttempt sessionID userID drillType question correctAnswer userAnswer responseMs now

/-- `DrillService.CheckAnswer`. The result is the store afterwards and what the
call returns (`none` if it panics). -/
def CheckAnswer (caseRanges : Char → Char) (db : Store) (fault : Option Error)
    (newID : ObjectID) (now : Time) (d : Draws) (sessionID userID : ObjectID)
    (drillType : DrillType) (question correctAnswer userAnswer : String) (responseMs : Int) :
    Store × Option CheckAnswerReturn :=
  let attempt :=
    CheckAnswer.attempt caseRanges now sessionID userID drillType question correctAnswer
      userAnswer responseMs
  match AttemptRepository.Create db attempt fault newID with
  | (db1, _, some err) => (db1, some ⟨false, none, some err⟩)
  | (db1, attempt1, none) =>
    match GenerateQuestion d drillType "" with
    | none => (db1, none)
    | some nextQuestion => (db1, some ⟨attempt1.Correct, some nextQuestion, none⟩)

/-! ## Floating point (`float64`)

The finite values of a `float64` are rational numbers; the model keeps the
rounding of every operation (to the nearest binary64 value, ties to the even
significand), overflow to an infinity and the invalid operations giving NaN. It
does not distinguish the two zeros. -/

/-- A `float64` value. -/
inductive F64 where
  | finite (q : ℚ)
  | inf (negative : Bool)
  | nan
  deriving DecidableEq, Repr

/-- The integer nearest to `x`, the even one of the two when `x` is half way. -/
def roundHalfEven (x : ℚ) : ℤ :=
  let f := ⌊x⌋
  let d := x - f
  if d < 1 / 2 then f else if 1 / 2 < d then f + 1 else if f % 2 = 0 then f else f + 1

/-- The exponent of the unit in the last place of the binary64 values around
`q ≠ 0`: 52 below the binary exponent of `q`, which is at least `-1022`. -/
def F64.ulpExp (q : ℚ) : ℤ := max (Int.log 2 |q|) (-1022) - 52

/-- Rounding of an exact result to `float64`: a 53-bit significand, and an
infinity from `2 ^ 1024` on. -/
def F64.round (q : ℚ) : F64 :=
  if q = 0 then .finite 0
  else
    let e := F64.ulpExp q
    let r : ℚ := (roundHalfEven (q / 2 ^ e) : ℚ) * 2 ^ e
    if (2 : ℚ) ^ (1024 : ℕ) ≤ |r| then .inf (decide (q < 0)) else .finite r

/-- Go `float64(n)` for an integer `n`. -/
def F64.ofInt (n : ℤ) : F64 := F64.round n

/-- Division of two `float64` values. -/
def F64.div : F64 → F64 → F64
  | .nan, _ => .nan
  | _, .nan => .nan
  | .inf _, .inf _ => .nan
  | .inf s, .finite b => .inf (s != decide (b < 0))
  | .finite _, .inf _ => .finite 0
  | .finite a, .finite b =>
    if b = 0 then (if a = 0 then .nan else .inf (decide (a < 0))) else F64.round (a / b)

/-- Multiplication of two `float64` values. -/
def F64.mul : F64 → F64 → F64
  | .nan, _ => .nan
  | _, .nan => .nan
  | .inf s, .inf t => .inf (s != t)
  | .inf s, .finite b => if b = 0 then .nan else .inf (s != decide (b < 0))
  | .finite a, .inf t => if a = 0 then .nan else .inf (decide (a < 0) != t)
  | .finite a, .finite b => F64.round (a * b)

/-- The integer part of a rational number (truncation toward zero). -/
def truncQ (q : ℚ) : ℤ := if 0 ≤ q then ⌊q⌋ else -⌊-q⌋

/-- Go `int(f)` for a `float64`: the fraction is discarded. Where the value
does not fit the 64-bit `int` the language leaves the result to the
implementation; the model returns what amd64 returns, `-2 ^ 63`. -/
def F64.toInt : F64 → ℤ
  | .finite q =>
    let t := truncQ q
    if -(2 : ℤ) ^ (63 : ℕ) ≤ t ∧ t < (2 : ℤ) ^ (63 : ℕ) then t else -(2 : ℤ) ^ (63 : ℕ)
  | _ => -(2 : ℤ) ^ (63 : ℕ)

/-! ## Statistics records (`internal/model/stats.go`) -/

structure SquareAccuracy where
  Square : String
  Total : Int
  Correct : Int
  Accuracy : F64
  deriving DecidableEq, Repr

structure DrillStats where
  DrillType : String
  TotalAttempts : Int
  CorrectAttempts : Int
  Accuracy : F64
  AvgResponseMs : Int
  BestStreak : Int
  CurrentStreak : Int
  deriving DecidableEq, Repr

structure OverallStats where
  TotalSessions : Int
  TotalAttempts : Int
  OverallAccuracy : F64
  AvgResponseMs : Int
  BestStreak : Int
  DrillStats : List DrillStats
  deriving DecidableEq, Repr

structure HeatmapData where
  Squares : List SquareAccuracy
  deriving DecidableEq, Repr

/-! ## The database driver: queries and aggregation pipelines -/

/-- One round trip to the database (the call and the draining of its cursor):
it fails with the reported error or delivers the rows. -/
def driverCall {α : Type} (fault : Option Error) (rows : List α) : Except Error (List α) :=
  match fault with
  | some err => .error err
  | none => .ok rows

/-- The `$avg` accumulator over integer values: the sum, converted to a double,
divided by the number of values. -/
def mongoAvg (values : List Int) : F64 :=
  F64.div (F64.ofInt values.sum) (F64.ofInt values.length)

/-- A row decoded from the `$group` stage with `_id: nil`. -/
structure GroupTotals where
  TotalAttempts : Int
  Correct : Int
  AvgResponseMs : F64
  deriving DecidableEq, Repr

/-- The stage `$group` with `_id: nil`, `$sum: 1`, `$sum` of `$cond: [$correct, 1, 0]`
and `$avg: $response_ms`: one row for a non-empty input, no row for an empty
one. -/
def groupTotals (docs : List Attempt) : List GroupTotals :=
  match docs with
  | [] => []
  | _ :: _ =>
    [{ TotalAttempts := docs.length
       Correct := docs.countP (fun a => a.Correct)
       AvgResponseMs := mongoAvg (docs.map (fun a => a.ResponseMs)) }]

/-- A row decoded from the `$group` stage with `_id: $correct_answer`. -/
structure SquareTotals where
  Square : String
  Total : Int
  Correct : Int
  deriving DecidableEq, Repr

/-- The stage `$group` with `_id: $correct_answer`: one row for each distinct
expected answer. The database does not specify the order of the rows; the
model lists the keys in the order of their last occurrence. -/
def groupBySquare (docs : List Attempt) : List SquareTotals :=
  (docs.map (fun a => a.CorrectAnswer)).dedup.map (fun key =>
    { Square := key
      Total := docs.countP (fun a => a.CorrectAnswer = key)
      Correct := docs.countP (fun a => a.CorrectAnswer = key ∧ a.Correct = true) })

/-! ## Attempt repository (`internal/repository/attempt.go`) -/

/-- The scan of `calculateBestStreak`; the arguments after the list are
`bestStreak` and `currentStreak`. -/
def streakLoop : List Attempt → Int → Int → Int
  | [], bestStreak, _ => bestStreak
  | attempt :: rest, bestStreak, currentStreak =>
    if attempt.Correct then
      let currentStreak := currentStreak + 1
      streakLoop rest (if currentStreak > bestStreak then currentStreak else bestStreak)
        currentStreak
    else streakLoop rest bestStreak 0

/-- `AttemptRepository.calculateBestStreak`. -/
def AttemptRepository.calculateBestStreak (db : Store) (fault : Option Error)
    (sessionID : ObjectID) : Int :=
  match driverCall fault (db.attempts.filter (fun a => a.SessionID = sessionID)) with
  | .error _ => 0
  | .ok attempts => streakLoop attempts 0 0

/-- `AttemptRepository.GetSessionSummary`; `fault` is the failure of the
aggregation, `streakFault` of the query of `calculateBestStreak`. -/
def AttemptRepository.GetSessionSummary (db : Store) (fault streakFault : Option Error)
    (sessionID : ObjectID) : Except Error DrillSessionSummary :=
  match driverCall fault (groupTotals (db.attempts.filter (fun a => a.SessionID = sessionID))) with
  | .error err => .error err
  | .ok [] => .ok { TotalAttempts := 0, Correct := 0, AvgResponseMs := 0, StreakBest := 0 }
  | .ok (row :: _) =>
    let bestStreak := AttemptRepository.calculateBestStreak db streakFault sessionID
    .ok { TotalAttempts := row.TotalAttempts
          Correct := row.Correct
          AvgResponseMs := row.AvgResponseMs.toInt
          StreakBest := bestStreak }

/-- `AttemptRepository.GetSquareAccuracy`. -/
def AttemptRepository.GetSquareAccuracy (db : Store) (fault : Option Error)
    (userID : ObjectID) : Except Error (List SquareAccuracy) :=
  match driverCall fault (groupBySquare (db.attempts.filter (fun a => a.UserID = userID))) with
  | .error err => .error err
  | .ok results =>
    .ok (results.map (fun r =>
      let accuracy : F64 :=
        if r.Total > 0 then
          F64.mul (F64.div (F64.ofInt r.Correct) (F64.ofInt r.Total)) (.finite 100)
        else .finite 0
      { Square := r.Square, Total := r.Total, Correct := r.Correct, Accuracy := accuracy }))

/-- `AttemptRepository.GetDrillStats`. -/
def AttemptRepository.GetDrillStats (db : Store) (fault : Option Error) (userID : ObjectID)
    (drillType : DrillType) : Except Error DrillStats :=
  match driverCall fault (groupTotals
      (db.attempts.filter (fun a => a.UserID = userID ∧ a.DrillType = drillType))) with
  | .error err => .error err
  | .ok [] =>
    .ok { DrillType := drillType, TotalAttempts := 0, CorrectAttempts := 0,
          Accuracy := .finite 0, AvgResponseMs := 0, BestStreak := 0, CurrentStreak := 0 }
  | .ok (row :: _) =>
    let accuracy : F64 :=
      if row.TotalAttempts > 0 then
        F64.mul (F64.div (F64.ofInt row.Correct) (F64.ofInt row.TotalAttempts)) (.finite 100)
      else .finite 0
    .ok { DrillType := drillType, TotalAttempts := row.TotalAttempts,
          CorrectAttempts := row.Correct, Accuracy := accuracy,
          AvgResponseMs := row.AvgResponseMs.toInt, BestStreak := 0, CurrentStreak := 0 }

/-- `AttemptRepository.GetOverallStats`. -/
def AttemptRepository.GetOverallStats (db : Store) (fault : Option Error)
    (userID : ObjectID) : Except Error OverallStats :=
  match driverCall fault (groupTotals (db.attempts.filter (fun a => a.UserID = userID))) with
  | .error err => .error err
  | .ok results =>
    let stats : OverallStats :=
      { TotalSessions := 0, TotalAttempts := 0, OverallAccuracy := .finite 0,
        AvgResponseMs := 0, BestStreak := 0, DrillStats := [] }
    match results with
    | [] => .ok stats
    | row :: _ =>
      let stats : OverallStats := { stats with TotalAttempts := row.TotalAttempts }
      let stats : OverallStats :=
        if stats.TotalAttempts > 0 then
          { stats with
            OverallAccuracy :=
              F64.mul (F64.div (F64.ofInt row.Correct) (F64.ofInt stats.TotalAttempts))
                (.finite 100) }
        else stats
      .ok { stats with AvgResponseMs := row.AvgResponseMs.toInt }

/-! ## Statistics service (`internal/service/stats.go`) -/

/-- The two nested loops of `GetHeatmapData` over the file and rank labels;
`allSquares` holds the keys of the map of that name. -/
def fillMissingSquares (allSquares : List String) (accuracies : List SquareAccuracy) :
    List SquareAccuracy :=
  ["a", "b", "c", "d", "e", "f", "g", "h"].foldl (fun accuracies file =>
    ["1", "2", "3", "4", "5", "6", "7", "8"].foldl (fun accuracies rank =>
      let square := file ++ rank
      if ¬ (square ∈ allSquares) then
        accuracies ++ [{ Square := square, Total := 0, Correct := 0, Accuracy := .finite 0 }]
      else accuracies) accuracies) accuracies

/-- `StatsService.GetHeatmapData`. -/
def StatsService.GetHeatmapData (db : Store) (fault : Option Error) (userID : ObjectID) :
    Except Error HeatmapData :=
  match AttemptRepository.GetSquareAccuracy db fault userID with
  | .error err => .error err
  | .ok accuracies =>
    let allSquares := accuracies.map (fun acc => acc.Square)
    .ok { Squares := fillMissingSquares allSquares accuracies }

/-- The names of the 64 squares, file-major: `a1, a2, ..., h8`. -/
def boardSquares : List String :=
  ["a", "b", "c", "d", "e", "f", "g", "h"].flatMap (fun file =>
    ["1", "2", "3", "4", "5", "6", "7", "8"].map (fun rank => file ++ rank))

/-! ## Drill-session repository (`internal/repository/drill_session.go`) -/

/-- `model.NewDrillSession`; `now` is the value of `time.Now()`. -/
def NewDrillSession (userID : ObjectID) (drillType : DrillType) (inputMethod : InputMethod)
    (perspective : String) (now : Time) : DrillSession :=
  { ID := 0
    UserID := userID
    DrillType := drillType
    InputMethod := inputMethod
    Perspective := perspective
    StartedAt := now
    EndedAt := none
    Summary := { TotalAttempts := 0, Correct := 0, AvgResponseMs := 0, StreakBest := 0 } }

/-- `DrillSessionRepository.Create`: `InsertOne`, then the generated identifier
is written back into the session. Returns the store, the session as the caller
sees it afterwards, and the error. -/
def DrillSessionRepository.Create (db : Store) (session : DrillSession) (fault : Option Error)
    (newID : ObjectID) : Store × DrillSession × Option Error :=
  match fault with
  | some err => (db, session, some err)
  | none =>
    let stored := { session with ID := newID }
    ({ db with drillSessions := db.drillSessions ++ [stored] }, stored, none)

/-- The driver call `UpdateByID(id, {$set: {ended_at, summary}})` on the
collection: the first document whose `_id` is `id` gets the two fields; the
result is the collection and the number of matched documents. -/
def updateByID (id : ObjectID) (endedAt : Time) (summary : DrillSessionSummary) :
    List DrillSession → List DrillSession × Nat
  | [] => ([], 0)
  | s :: rest =>
    if s.ID = id then ({ s with EndedAt := some endedAt, Summary := summary } :: rest, 1)
    else ((s :: (updateByID id endedAt summary rest).1), (updateByID id endedAt summary rest).2)

/-- `DrillSessionRepository.EndSession`; `now` is the value of `time.Now()`. -/
def DrillSessionRepository.EndSession (db : Store) (fault : Option Error) (now : Time)
    (id : ObjectID) (summary : DrillSessionSummary) : Store × Option Error :=
  match fault with
  | some err => (db, some err)
  | none =>
    let result := updateByID id now summary db.drillSessions
    let db1 : Store := { db with drillSessions := result.1 }
    if result.2 = 0 then (db1, some Error.ErrDrillSessionNotFound) else (db1, none)

/-- `DrillSessionRepository.CountByUserID`: `CountDocuments` with the filter
`user_id`. -/
def DrillSessionRepository.CountByUserID (db : Store) (fault : Option Error)
    (userID : ObjectID) : Except Error Int :=
  match fault with
  | some err => .error err
  | none => .ok (db.drillSessions.countP (fun s => s.UserID = userID))

/-! ## Session manager (`DrillService.StartSession`, `DrillService.EndSession`) -/

/-- What a call of `StartSession` returns: the triple
`(*DrillSession, *Question, error)`. -/
structure StartSessionReturn where
  session : Option DrillSession
  question : Option Question
  err : Option Error
  deriving DecidableEq, Repr

/-- `DrillService.StartSession`. The result is the store afterwards and what the
call returns (`none` if it panics). -/
def StartSession (db : Store) (fault : Option Error) (newID : ObjectID) (now : Time)
    (d : Draws) (userID : ObjectID) (drillType : DrillType) (inputMethod : InputMethod)
    (perspective : String) : Store × Option StartSessionReturn :=
  let session := NewDrillSession userID drillType inputMethod perspective now
  match DrillSessionRepository.Create db session fault newID with
  | (db1, _, some err) => (db1, some ⟨none, none, some err⟩)
  | (db1, session1, none) =>
    match GenerateQuestion d drillType "" with
    | none => (db1, none)
    | some question => (db1, some ⟨some session1, some question, none⟩)

/-- `DrillService.EndSession`: `fault` and `streakFault` are the failures of the
two queries of `GetSessionSummary`, `updateFault` the failure of the update,
`now` the value of `time.Now()` in the repository. The result is the store
afterwards and the pair `(*DrillSessionSummary, error)`. -/
def EndSession (db : Store) (fault streakFault updateFault : Option Error) (now : Time)
    (sessionID : ObjectID) : Store × Except Error DrillSessionSummary :=
  match AttemptRepository.GetSessionSummary db fault streakFault sessionID with
  | .error err => (db, .error err)
  | .ok summary =>
    match DrillSessionRepository.EndSession db updateFault now sessionID summary with
    | (db1, some err) => (db1, .error err)
    | (db1, none) => (db1, .ok summary)

/-! ## Overall statistics (`StatsService.GetOverallStats`) -/

/-- The drill types enumerated by `StatsService.GetOverallStats`. -/
def drillTypes : List DrillType :=
  [DrillTypeNameSquare, DrillTypeFindSquare, DrillTypePieceMovement, DrillTypeMoveNotation]

/-- One iteration of the loop over the drill types: a failed fetch is skipped,
a result without attempts is left out. -/
def appendDrillStats (db : Store) (drillFault : DrillType → Option Error) (userID : ObjectID)
    (stats : OverallStats) (dt : DrillType) : OverallStats :=
  match AttemptRepository.GetDrillStats db (drillFault dt) userID dt with
  | .error _ => stats
  | .ok drillStats =>
    if drillStats.TotalAttempts > 0 then
      { stats with DrillStats := stats.DrillStats ++ [drillStats] }
    else stats

/-- `StatsService.GetOverallStats`: `fault` is the failure of the overall
aggregation, `countFault` of the session count, `drillFault dt` of the
aggregation for the drill type `dt`. -/
def StatsService.GetOverallStats (db : Store) (fault countFault : Option Error)
    (drillFault : DrillType → Option Error) (userID : ObjectID) : Except Error OverallStats :=
  match AttemptRepository.GetOverallStats db fault userID with
  | .error err => .error err
  | .ok stats =>
    match DrillSessionRepository.CountByUserID db countFault userID with
    | .error err => .error err
    | .ok sessionCount =>
      let stats : OverallStats := { stats with TotalSessions := sessionCount }
      .ok (drillTypes.foldl (appendDrillStats db drillFault userID) stats)

/-! ## Heat-map entries (used to state the heat-map theorems) -/

/-- The entry that `GetSquareAccuracy` builds from the group of the key `key`
among the documents `docs`. -/
def squareEntry (docs : List Attempt) (key : String) : SquareAccuracy :=
  { Square := key
    Total := docs.countP (fun a => a.CorrectAnswer = key)
    Correct := docs.countP (fun a => a.CorrectAnswer = key ∧ a.Correct = true)
    Accuracy :=
      if ((docs.countP (fun a => a.CorrectAnswer = key) : Nat) : Int) > 0 then
        F64.mul (F64.div
          (F64.ofInt (docs.countP (fun a => a.CorrectAnswer = key ∧ a.Correct = true)))
          (F64.ofInt (docs.countP (fun a => a.CorrectAnswer = key)))) (.finite 100)
      else .finite 0 }

/-- The entry that `GetHeatmapData` adds for a square without data. -/
def emptySquareEntry (square : String) : SquareAccuracy :=
  { Square := square, Total := 0, Correct := 0, Accuracy := .finite 0 }

/-! ## Per-drill-type records (used to state the overall-statistics theorems) -/

/-- The record that `GetDrillStats` builds for the drill type `drillType` from
the non-empty list `docs` of the matching documents. -/
def drillStatsOf (docs : List Attempt) (drillType : DrillType) : DrillStats :=
  { DrillType := drillType
    TotalAttempts := docs.length
    CorrectAttempts := docs.countP (fun a => a.Correct)
    Accuracy :=
      F64.mul (F64.div (F64.ofInt (docs.countP (fun a => a.Correct))) (F64.ofInt docs.length))
        (.finite 100)
    AvgResponseMs := (mongoAvg (docs.map (fun a => a.ResponseMs))).toInt
    BestStreak := 0
    CurrentStreak := 0 }

/-! ## The board encoding as the specification words it -/

/-- The decimal digit of a number below ten. -/
def digitChar (n : Nat) : Char := Char.ofNat (48 + n)

/-- The encoding of a board with the single piece `piece` on the square with
file index `file` and rank index `rank`, after the specification: eight rank
fields from rank 8 down to rank 1, joined by `/`; the field of rank `rank + 1`
is the digit `file` (if `file > 0`), the piece letter, the digit `7 - file` (if
`file < 7`); every other field is `8`; the trailer ` w - - 0 1` follows. -/
def specSinglePieceFEN (piece : Char) (file rank : Nat) : String :=
  String.intercalate "/" ((List.range 8).map (fun i =>
    if 7 - i = rank then
      String.mk ((if file > 0 then [digitChar file] else []) ++ [piece] ++
        (if file < 7 then [digitChar (7 - file)] else []))
    else "8")) ++ " w - - 0 1"

/-! ## Concrete stores used in examples -/

/-- The store reached from the empty one by a single `CheckAnswer` call of user
`1` in session `1` whose expected answer, `"zz"`, is not a square name. -/
def offBoardStore : Store :=
  (CheckAnswer id { attempts := [], drillSessions := [] } none 1 0 ⟨0, 0, 0⟩ 1 1
    DrillTypeNameSquare "zz" "zz" "e4" 1500).1

/-- The store reached from the empty one by a single `CheckAnswer` call of user
`1` in session `1` with expected answer `"E4"` and submitted answer `" e4 "`. -/
def oneAttemptStore : Store :=
  (CheckAnswer id { attempts := [], drillSessions := [] } none 1 0 ⟨0, 0, 0⟩ 1 1
    DrillTypeNameSquare "E4" "E4" " e4 " 1500).1

/-- The store reached from the empty one by a single `CheckAnswer` call of user
`1` in session `1` whose response time is `2 ^ 53 + 1` milliseconds. -/
def hugeLatencyStore : Store :=
  (CheckAnswer id { attempts := [], drillSessions := [] } none 1 0 ⟨0, 0, 0⟩ 1 1
    DrillTypeNameSquare "e4" "e4" "e4" 9007199254740993).1

/-- The store reached from the empty one when user `7` starts a `name_square`
session at time `5`; the session gets the identifier `1`. -/
def startedStore : Store :=
  (StartSession { attempts := [], drillSessions := [] } none 1 5 ⟨0, 0, 0⟩ 7
    DrillTypeNameSquare "type" "white").1

/-- The store after session `1` of `startedStore` is ended at time `10`. -/
def endedOnceStore : Store := (EndSession startedStore none none none 10 1).1

/-- The store after user `7` records, at time `12`, a correct answer for the
already ended session `1`. -/
def answeredAfterEndStore : Store :=
  (CheckAnswer id endedOnceStore none 1 12 ⟨0, 0, 0⟩ 1 7 DrillTypeNameSquare "a1" "a1" "a1"
    1500).1

/-- The store after session `1` is ended a second time, at time `20`. -/
def endedTwiceStore : Store := (EndSession answeredAfterEndStore none none none 20 1).1

/-- The store `oneAttemptStore` after another user, `2`, records a wrong answer
in session `5`. -/
def twoUsersStore : Store :=
  (CheckAnswer id oneAttemptStore none 2 3 ⟨0, 0, 0⟩ 5 2 DrillTypeFindSquare "h8" "h8" "a1"
    900).1

/-- The store after user `1` answers four `name_square` questions in session
`1`: correct, correct, wrong, correct. -/
def fourAttemptsStore : Store :=
  let db0 : Store := { attempts := [], drillSessions := [] }
  let db1 := (CheckAnswer id db0 none 1 10 ⟨0, 0, 0⟩ 1 1 DrillTypeNameSquare "e4" "e4" "e4" 900).1
  let db2 := (CheckAnswer id db1 none 2 20 ⟨0, 0, 0⟩ 1 1 DrillTypeNameSquare "a1" "a1" "A1" 800).1
  let db3 := (CheckAnswer id db2 none 3 30 ⟨0, 0, 0⟩ 1 1 DrillTypeNameSquare "h8" "h8" "h7" 700).1
  (CheckAnswer id db3 none 4 40 ⟨0, 0, 0⟩ 1 1 DrillTypeNameSquare "c3" "c3" "c3" 600).1

/-- The store after user `7` answers, at time `12`, the question of the running
session `1` of `startedStore` with its target `a1`. -/
def answeredStore : Store :=
  (CheckAnswer id startedStore none 1 12 ⟨0, 0, 0⟩ 1 7 DrillTypeNameSquare "a1" "a1" "a1"
    1500).1

/-! ## The exact mean latency (used to state the averaging theorems) -/

/-- The response times of a list of attempts. -/
def latencies (docs : List Attempt) : List Int := docs.map (fun a => a.ResponseMs)

/-- The arithmetic mean of a list of integers, truncated toward zero. -/
def truncatedMean (values : List Int) : Int := truncQ ((values.sum : ℚ) / (values.length : ℚ))

/-- A non-empty list of fewer than `2 ^ 53` integers whose sum is below `2 ^ 53`
in absolute value. -/
def ExactlyAveraged (values : List Int) : Prop :=
  values ≠ [] ∧ |values.sum| < 2 ^ 53 ∧ values.length < 2 ^ 53

/-! ## Runs of correct attempts (used to state the streak theorems) -/

/-- The number of correct attempts at the head of the list. -/
def leadingCorrect (l : List Attempt) : Nat := (l.takeWhile (fun a => a.Correct)).length

/-- The length of the longest block of adjacent correct attempts. -/
def longestCorrectRun : List Attempt → Nat
  | [] => 0
  | a :: l => max (leadingCorrect (a :: l)) (longestCorrectRun l)

/-! ## Lemmas on the question generator -/

theorem byteAt_RandomSquare (f r : Fin 8) :
    byteAt (RandomSquare f r) 0 = some (97 + f.val) ∧
      byteAt (RandomSquare f r) 1 = some (49 + r.val) := by
  revert f r
  decide

theorem RandomSquare_eq (f r : Fin 8) :
    RandomSquare f r = String.mk [Char.ofNat (97 + f.val), Char.ofNat (49 + r.val)] := by
  revert f r
  decide

theorem RandomSquare_shape (f r : Fin 8) :
    ∃ c1 c2 : Char, RandomSquare f r = String.mk [c1, c2] ∧
      c1 ∈ ['a', 'b', 'c', 'd', 'e', 'f', 'g', 'h'] ∧
      c2 ∈ ['1', '2', '3', '4', '5', '6', '7', '8'] := by
  refine ⟨_, _, RandomSquare_eq f r, ?_, ?_⟩
  · revert f
    decide
  · revert r
    decide

theorem generateSinglePieceFEN_RandomSquare (pieceType : String) (f r : Fin 8) :
    generateSinglePieceFEN pieceType (RandomSquare f r) =
      some (String.intercalate "/"
        (fenRowsLoop (if pieceMap pieceType = Char.ofNat 0 then 'N' else pieceMap pieceType)
          f.val r.val 8 []) ++ " w - - 0 1") := by
  obtain ⟨h0, h1⟩ := byteAt_RandomSquare f r
  have hf : (97 + f.val + 256 - 97) % 256 = f.val := by omega
  have hr : (49 + r.val + 256 - 49) % 256 = r.val := by omega
  simp only [generateSinglePieceFEN, h0, h1, hf, hr]

theorem generatePieceMovementQuestion_some (d : Draws) (pieceType : String) :
    ∃ q, generatePieceMovementQuestion d pieceType = some q ∧
      q.Target = RandomSquare d.fileIdx d.rankIdx := by
  simp only [generatePieceMovementQuestion, generateSinglePieceFEN_RandomSquare]
  exact ⟨_, rfl, rfl⟩

theorem GenerateQuestion_some (d : Draws) (drillType : DrillType) (pieceType : String) :
    ∃ q, GenerateQuestion d drillType pieceType = some q ∧
      q.Target = RandomSquare d.fileIdx d.rankIdx := by
  unfold GenerateQuestion
  split_ifs
  · exact ⟨_, rfl, rfl⟩
  · exact ⟨_, rfl, rfl⟩
  · exact generatePieceMovementQuestion_some d pieceType
  · exact generatePieceMovementQuestion_some d "knight"
  · exact ⟨_, rfl, rfl⟩

/-! ## Theorems: answer evaluation -/

theorem CheckAnswer_inserted (caseRanges : Char → Char) (db : Store) (newID : ObjectID)
    (now : Time) (d : Draws) (sessionID userID : ObjectID) (drillType : DrillType)
    (question e s : String) (responseMs : Int) :
    ∃ q, GenerateQuestion d drillType "" = some q ∧
      CheckAnswer caseRanges db none newID now d sessionID userID drillType question e s
          responseMs =
        ({ attempts := db.attempts ++
              [{ CheckAnswer.attempt caseRanges now sessionID userID drillType question e s
                  responseMs with ID := newID }],
           drillSessions := db.drillSessions },
         some ⟨(CheckAnswer.attempt caseRanges now sessionID userID drillType question e s
                  responseMs).Correct, some q, none⟩) := by
  obtain ⟨q, hq, -⟩ := GenerateQuestion_some d drillType ""
  exact ⟨q, hq, by simp only [CheckAnswer, AttemptRepository.Create, hq]⟩

/-- C1: when the attempt store accepts the insert, `CheckAnswer` returns
normally, without error, and its boolean is `true` exactly when the trimmed,
lower-cased expected string equals the trimmed, lower-cased submitted string; in
particular expected `"E4"` with submitted `" e4 "` gives `true`. -/
theorem CheckAnswer_correct_iff_normalized_eq (caseRanges : Char → Char) (db : Store)
    (newID : ObjectID) (now : Time) (d : Draws) (sessionID userID : ObjectID)
    (drillType : DrillType) (question : String) (responseMs : Int) :
    (∀ e s : String, ∃ ret,
      (CheckAnswer caseRanges db none newID now d sessionID userID drillType question e s
          responseMs).2 = some ret ∧
        ret.err = none ∧
        (ret.correct = true ↔
          ToLower caseRanges (TrimSpace e) = ToLower caseRanges (TrimSpace s))) ∧
    (∃ ret,
      (CheckAnswer caseRanges db none newID now d sessionID userID drillType question "E4" " e4 "
          responseMs).2 = some ret ∧
        ret.err = none ∧ ret.correct = true) := by
  have key : ∀ e s : String, ∃ ret,
      (CheckAnswer caseRanges db none newID now d sessionID userID drillType question e s
          responseMs).2 = some ret ∧
        ret.err = none ∧
        (ret.correct = true ↔
          ToLower caseRanges (TrimSpace e) = ToLower caseRanges (TrimSpace s)) := by
    intro e s
    obtain ⟨q, -, h⟩ :=
      CheckAnswer_inserted caseRanges db newID now d sessionID userID drillType question e s
        responseMs
    refine ⟨_, by rw [h], rfl, ?_⟩
    simp [CheckAnswer.attempt, NewAttempt]
  refine ⟨key, ?_⟩
  obtain ⟨ret, h1, h2, h3⟩ := key "E4" " e4 "
  exact ⟨ret, h1, h2, h3.2 rfl⟩

/-- C2: the record `CheckAnswer` hands to the attempt store has
`Correct = (CorrectAnswer == UserAnswer)` with both answers the trimmed,
lower-cased inputs; on a successful insert exactly that record (with the
generated identifier) is stored and its `Correct` flag is the boolean returned;
on a failed insert nothing is stored and `false` is returned with the error. -/
theorem CheckAnswer_correct_flag_derived (caseRanges : Char → Char) (db : Store)
    (newID : ObjectID) (now : Time) (d : Draws) (sessionID userID : ObjectID)
    (drillType : DrillType) (question e s : String) (responseMs : Int) :
    let a := CheckAnswer.attempt caseRanges now sessionID userID drillType question e s responseMs
    a.CorrectAnswer = ToLower caseRanges (TrimSpace e) ∧
    a.UserAnswer = ToLower caseRanges (TrimSpace s) ∧
    a.Correct = decide (a.CorrectAnswer = a.UserAnswer) ∧
    (∃ q, CheckAnswer caseRanges db none newID now d sessionID userID drillType question e s
        responseMs =
      ({ db with attempts := db.attempts ++ [{ a with ID := newID }] },
        some ⟨a.Correct, some q, none⟩)) ∧
    (∀ err, CheckAnswer caseRanges db (some err) newID now d sessionID userID drillType question
        e s responseMs = (db, some ⟨false, none, some err⟩)) := by
  intro a
  refine ⟨rfl, rfl, ?_, ?_, ?_⟩
  · rfl
  · obtain ⟨q, -, h⟩ :=
      CheckAnswer_inserted caseRanges db newID now d sessionID userID drillType question e s
        responseMs
    exact ⟨q, h⟩
  · intro err
    simp only [CheckAnswer, AttemptRepository.Create]

/-- C3: a `CheckAnswer` call whose insert succeeds appends exactly one attempt
to the attempt collection, keeps every earlier attempt and the whole
drill-session collection as they were, and returns without error, whatever the
answers, drill type, response time and session identifier are. -/
theorem CheckAnswer_adds_exactly_one_attempt (caseRanges : Char → Char) (db : Store)
    (newID : ObjectID) (now : Time) (d : Draws) (sessionID userID : ObjectID)
    (drillType : DrillType) (question e s : String) (responseMs : Int) :
    ∃ a ret,
      CheckAnswer caseRanges db none newID now d sessionID userID drillType question e s
          responseMs =
        ({ attempts := db.attempts ++ [a], drillSessions := db.drillSessions }, some ret) ∧
      ret.err = none ∧
      a.SessionID = sessionID ∧ a.UserID = userID ∧ a.DrillType = drillType ∧
      a.ResponseMs = responseMs := by
  obtain ⟨q, -, h⟩ :=
    CheckAnswer_inserted caseRanges db newID now d sessionID userID drillType question e s
      responseMs
  exact ⟨_, _, h, rfl, rfl, rfl, rfl, rfl⟩

/-! ## Theorems: question generation -/

/-- C4: for every drill type string, every piece-type hint and every outcome of
the random draws, `GenerateQuestion` returns a question whose `Target` consists
of exactly two characters, a letter in `a..h` followed by a digit in `1..8`. -/
theorem GenerateQuestion_target_is_square (d : Draws) (drillType : DrillType)
    (pieceType : String) :
    ∃ q, GenerateQuestion d drillType pieceType = some q ∧
      ∃ c1 c2 : Char, q.Target = String.mk [c1, c2] ∧
        c1 ∈ ['a', 'b', 'c', 'd', 'e', 'f', 'g', 'h'] ∧
        c2 ∈ ['1', '2', '3', '4', '5', '6', '7', '8'] := by
  obtain ⟨q, hq, ht⟩ := GenerateQuestion_some d drillType pieceType
  exact ⟨q, hq, by rw [ht]; exact RandomSquare_shape d.fileIdx d.rankIdx⟩

/-- C5: for each of the 64 squares and each piece type among knight, bishop,
rook, queen and king, `generateSinglePieceFEN` returns an encoding whose
placement part contains exactly one piece letter and decodes, rank by rank, to
the board whose only occupied square is the requested one (holding the letter
of the requested piece). -/
theorem generateSinglePieceFEN_single_piece (pieceType : String) (f r : Fin 8)
    (hp : pieceType ∈ pieceTypes) :
    ∃ fen, generateSinglePieceFEN pieceType (RandomSquare f r) = some fen ∧
      pieceLetterCount (placementPart fen) = 1 ∧
      decodePlacement (placementPart fen) = singlePieceBoard (pieceMap pieceType) f.val r.val := by
  refine ⟨_, generateSinglePieceFEN_RandomSquare pieceType f r, ?_⟩
  simp only [pieceTypes, List.mem_cons, List.mem_singleton, List.not_mem_nil, or_false] at hp
  rcases hp with rfl | rfl | rfl | rfl | rfl <;>
  · revert f r
    decide

theorem generateSinglePieceFEN_single_piece_witness :
    "rook" ∈ pieceTypes ∧
      ∃ fen, generateSinglePieceFEN "rook" (RandomSquare 4 3) = some fen ∧
        pieceLetterCount (placementPart fen) = 1 ∧
        decodePlacement (placementPart fen) = singlePieceBoard (pieceMap "rook") 4 3 :=
  ⟨by decide, generateSinglePieceFEN_single_piece "rook" 4 3 (by decide)⟩

/-! ## Lemmas on the streak scan -/

theorem leadingCorrect_cons (a : Attempt) (l : List Attempt) :
    leadingCorrect (a :: l) = if a.Correct then leadingCorrect l + 1 else 0 := by
  unfold leadingCorrect
  by_cases h : a.Correct <;> simp [List.takeWhile_cons, h]

theorem leadingCorrect_le_longest (l : List Attempt) :
    leadingCorrect l ≤ longestCorrectRun l := by
  cases l with
  | nil => simp [leadingCorrect, longestCorrectRun]
  | cons a l => exact le_max_left _ _

theorem streakLoop_eq (l : List Attempt) :
    ∀ best cur : Int, 0 ≤ cur → cur ≤ best →
      streakLoop l best cur =
        max best (max (cur + (leadingCorrect l : Int)) (longestCorrectRun l : Int)) := by
  induction l with
  | nil =>
    intro best cur h0 h1
    simp [streakLoop, leadingCorrect, longestCorrectRun]
    omega
  | cons a l ih =>
    intro best cur h0 h1
    have hle := leadingCorrect_le_longest l
    by_cases h : a.Correct
    · simp only [streakLoop, h, if_true]
      rw [ih _ _ (by omega) (by split_ifs <;> omega)]
      simp only [longestCorrectRun, leadingCorrect_cons, h, if_true]
      push_cast
      split_ifs <;> omega
    · simp only [streakLoop, h]
      rw [ih _ _ (le_refl 0) (by omega)]
      simp only [longestCorrectRun, leadingCorrect_cons, h]
      push_cast
      omega

theorem prefix_correct_length_le (run l : List Attempt) (hpre : run <+: l)
    (hall : ∀ a ∈ run, a.Correct = true) : run.length ≤ leadingCorrect l := by
  induction l generalizing run with
  | nil =>
    have : run = [] := List.prefix_nil.mp hpre
    simp [this]
  | cons b l ih =>
    rcases List.prefix_cons_iff.mp hpre with rfl | ⟨t, rfl, ht⟩
    · simp
    · have hb : b.Correct = true := hall b (List.mem_cons_self _ _)
      have := ih t ht (fun a ha => hall a (List.mem_cons_of_mem _ ha))
      rw [leadingCorrect_cons, hb]
      simp
      omega

theorem infix_correct_length_le (run l : List Attempt) (hin : run <:+: l)
    (hall : ∀ a ∈ run, a.Correct = true) : run.length ≤ longestCorrectRun l := by
  induction l with
  | nil =>
    have : run = [] := List.infix_nil.mp hin
    simp [this]
  | cons b l ih =>
    rcases List.infix_cons_iff.mp hin with hpre | hin2
    · exact le_trans (prefix_correct_length_le run _ hpre hall) (le_max_left _ _)
    · exact le_trans (ih hin2) (le_max_right _ _)

theorem exists_longest_correct_run (l : List Attempt) :
    ∃ run, run <:+: l ∧ (∀ a ∈ run, a.Correct = true) ∧ run.length = longestCorrectRun l := by
  induction l with
  | nil => exact ⟨[], List.infix_refl _, by simp, rfl⟩
  | cons b l ih =>
    obtain ⟨run, hin, hall, hlen⟩ := ih
    by_cases h : longestCorrectRun l ≤ leadingCorrect (b :: l)
    · refine ⟨(b :: l).takeWhile (fun a => a.Correct), (List.takeWhile_prefix _).isInfix, ?_, ?_⟩
      · intro a ha
        exact List.mem_takeWhile_imp ha
      · simp only [longestCorrectRun]
        rw [max_eq_left h]
        rfl
    · refine ⟨run, List.infix_cons hin, hall, ?_⟩
      simp only [longestCorrectRun]
      rw [max_eq_right (by omega)]
      exact hlen

theorem calculateBestStreak_eq (db : Store) (sessionID : ObjectID) :
    AttemptRepository.calculateBestStreak db none sessionID =
      (longestCorrectRun (db.attempts.filter (fun a => a.SessionID = sessionID)) : Int) := by
  simp only [AttemptRepository.calculateBestStreak, driverCall]
  rw [streakLoop_eq _ 0 0 (le_refl 0) (le_refl 0)]
  have := leadingCorrect_le_longest (db.attempts.filter (fun a => a.SessionID = sessionID))
  omega

/-- C6: with the query succeeding, the best streak computed by
`calculateBestStreak` is the length of a block of adjacent correct attempts of
the session (in stored order), and no block of adjacent correct attempts is
longer; it is 0 when the session has no correct attempt (in particular no
attempt), and 2 for the sequence correct, correct, wrong, correct. -/
theorem calculateBestStreak_eq_longest_run (db : Store) (sessionID : ObjectID) :
    (∃ run, run <:+: db.attempts.filter (fun a => a.SessionID = sessionID) ∧
        (∀ a ∈ run, a.Correct = true) ∧
        AttemptRepository.calculateBestStreak db none sessionID = (run.length : Int)) ∧
    (∀ run, run <:+: db.attempts.filter (fun a => a.SessionID = sessionID) →
        (∀ a ∈ run, a.Correct = true) →
        (run.length : Int) ≤ AttemptRepository.calculateBestStreak db none sessionID) ∧
    ((∀ a ∈ db.attempts.filter (fun a => a.SessionID = sessionID), a.Correct = false) →
        AttemptRepository.calculateBestStreak db none sessionID = 0) ∧
    (∀ (a1 a2 a3 a4 : Attempt) (sessions : List DrillSession),
        AttemptRepository.calculateBestStreak
          { attempts :=
              [{ a1 with SessionID := sessionID, Correct := true },
               { a2 with SessionID := sessionID, Correct := true },
               { a3 with SessionID := sessionID, Correct := false },
               { a4 with SessionID := sessionID, Correct := true }],
            drillSessions := sessions } none sessionID = 2) := by
  refine ⟨?_, ?_, ?_, ?_⟩
  · obtain ⟨run, hin, hall, hlen⟩ :=
      exists_longest_correct_run (db.attempts.filter (fun a => a.SessionID = sessionID))
    exact ⟨run, hin, hall, by rw [calculateBestStreak_eq, hlen]⟩
  · intro run hin hall
    rw [calculateBestStreak_eq]
    exact_mod_cast infix_correct_length_le run _ hin hall
  · intro hnone
    obtain ⟨run, hin, hall, hlen⟩ :=
      exists_longest_correct_run (db.attempts.filter (fun a => a.SessionID = sessionID))
    rw [calculateBestStreak_eq, ← hlen]
    cases run with
    | nil => rfl
    | cons a t =>
      have h1 := hall a (List.mem_cons_self _ _)
      have h2 := hnone a (hin.subset (List.mem_cons_self _ _))
      rw [h1] at h2
      exact absurd h2 (by decide)
  · intro a1 a2 a3 a4 sessions
    simp [AttemptRepository.calculateBestStreak, driverCall, streakLoop]

/-! ## Lemmas on the aggregation pipelines -/

theorem groupTotals_eq_nil_iff (docs : List Attempt) : groupTotals docs = [] ↔ docs = [] := by
  cases docs <;> simp [groupTotals]

theorem groupTotals_of_ne_nil (docs : List Attempt) (h : docs ≠ []) :
    groupTotals docs =
      [{ TotalAttempts := docs.length
         Correct := docs.countP (fun a => a.Correct)
         AvgResponseMs := mongoAvg (docs.map (fun a => a.ResponseMs)) }] := by
  cases docs with
  | nil => exact absurd rfl h
  | cons a l => rfl

theorem GetSessionSummary_of_nil (db : Store) (streakFault : Option Error) (sessionID : ObjectID)
    (h : db.attempts.filter (fun a => a.SessionID = sessionID) = []) :
    AttemptRepository.GetSessionSummary db none streakFault sessionID =
      .ok { TotalAttempts := 0, Correct := 0, AvgResponseMs := 0, StreakBest := 0 } := by
  simp only [AttemptRepository.GetSessionSummary, h, groupTotals, driverCall]

theorem GetSessionSummary_of_ne_nil (db : Store) (streakFault : Option Error)
    (sessionID : ObjectID)
    (h : db.attempts.filter (fun a => a.SessionID = sessionID) ≠ []) :
    AttemptRepository.GetSessionSummary db none streakFault sessionID =
      .ok { TotalAttempts := (db.attempts.filter (fun a => a.SessionID = sessionID)).length
            Correct :=
              (db.attempts.filter (fun a => a.SessionID = sessionID)).countP (fun a => a.Correct)
            AvgResponseMs :=
              (mongoAvg ((db.attempts.filter (fun a => a.SessionID = sessionID)).map
                (fun a => a.ResponseMs))).toInt
            StreakBest := AttemptRepository.calculateBestStreak db streakFault sessionID } := by
  simp only [AttemptRepository.GetSessionSummary, groupTotals_of_ne_nil _ h, driverCall]

/-- C7: with the aggregation succeeding, `GetSessionSummary` returns a summary
whose `TotalAttempts` is the number of stored attempts of the session and whose
`Correct` is the number of those marked correct; when no stored attempt has the
session identifier it returns the all-zero summary and no error. -/
theorem GetSessionSummary_counts (db : Store) (streakFault : Option Error)
    (sessionID : ObjectID) :
    (∃ summary, AttemptRepository.GetSessionSummary db none streakFault sessionID = .ok summary ∧
        summary.TotalAttempts = (db.attempts.countP (fun a => a.SessionID = sessionID) : Int) ∧
        summary.Correct =
          (db.attempts.countP (fun a => a.SessionID = sessionID ∧ a.Correct = true) : Int)) ∧
    ((∀ a ∈ db.attempts, a.SessionID ≠ sessionID) →
        AttemptRepository.GetSessionSummary db none streakFault sessionID =
          .ok { TotalAttempts := 0, Correct := 0, AvgResponseMs := 0, StreakBest := 0 }) := by
  constructor
  · by_cases h : db.attempts.filter (fun a => a.SessionID = sessionID) = []
    · refine ⟨_, GetSessionSummary_of_nil db streakFault sessionID h, ?_, ?_⟩
      · have : db.attempts.countP (fun a => a.SessionID = sessionID) = 0 := by
          rw [List.countP_eq_length_filter, h]; rfl
        simp [this]
      · have : db.attempts.countP (fun a => a.SessionID = sessionID ∧ a.Correct = true) = 0 := by
          rw [List.countP_eq_zero]
          intro a ha
          have hn : a ∉ db.attempts.filter (fun a => a.SessionID = sessionID) := by
            rw [h]; exact List.not_mem_nil _
          simp only [List.mem_filter, ha, true_and, decide_eq_true_eq] at hn
          simp [hn]
        rw [this]; rfl
    · refine ⟨_, GetSessionSummary_of_ne_nil db streakFault sessionID h, ?_, ?_⟩
      · simp [List.countP_eq_length_filter]
      · simp only [List.countP_filter]
        congr 2
        funext a
        simp [Bool.and_comm]
  · intro hnone
    apply GetSessionSummary_of_nil
    rw [List.filter_eq_nil_iff]
    intro a ha
    simpa using hnone a ha

/-! ## Lemmas on the heat map -/

theorem foldl_append_if {α β : Type} (p : α → Prop) [DecidablePred p] (g : α → β)
    (l : List α) (acc : List β) :
    l.foldl (fun acc x => if p x then acc ++ [g x] else acc) acc =
      acc ++ (l.filter (fun x => decide (p x))).map g := by
  induction l generalizing acc with
  | nil => simp
  | cons x l ih =>
    by_cases h : p x <;> simp [List.foldl_cons, ih, h, List.filter_cons]

theorem fillMissingSquares_eq (allSquares : List String) (accuracies : List SquareAccuracy) :
    fillMissingSquares allSquares accuracies =
      accuracies ++ (boardSquares.filter (fun sq => decide (¬ (sq ∈ allSquares)))).map
        (fun sq => { Square := sq, Total := 0, Correct := 0, Accuracy := .finite 0 }) := by
  have inner : ∀ (file : String) (acc : List SquareAccuracy),
      ["1", "2", "3", "4", "5", "6", "7", "8"].foldl (fun accuracies rank =>
        let square := file ++ rank
        if ¬ (square ∈ allSquares) then
          accuracies ++ [{ Square := square, Total := 0, Correct := 0, Accuracy := .finite 0 }]
        else accuracies) acc =
      acc ++ ((["1", "2", "3", "4", "5", "6", "7", "8"].map (fun rank => file ++ rank)).filter
          (fun sq => decide (¬ (sq ∈ allSquares)))).map
        (fun sq => { Square := sq, Total := 0, Correct := 0, Accuracy := .finite 0 }) := by
    intro file acc
    have := foldl_append_if (fun rank : String => ¬ (file ++ rank ∈ allSquares))
      (fun rank => ({ Square := file ++ rank, Total := 0, Correct := 0,
                      Accuracy := .finite 0 } : SquareAccuracy))
      ["1", "2", "3", "4", "5", "6", "7", "8"] acc
    rw [this, List.filter_map, List.map_map]
    rfl
  unfold fillMissingSquares
  simp only [inner, List.foldl_cons, List.foldl_nil, boardSquares, List.flatMap_cons,
    List.flatMap_nil, List.filter_append, List.map_append, List.append_assoc, List.append_nil]

theorem nodup_filter_mem_length_eq {α : Type} [DecidableEq α] (k s : List α) (hk : k.Nodup)
    (hs : s.Nodup) :
    (k.filter (fun x => decide (x ∈ s))).length = (s.filter (fun x => decide (x ∈ k))).length := by
  apply List.Perm.length_eq
  rw [List.perm_ext_iff_of_nodup (hk.filter _) (hs.filter _)]
  intro a
  simp [List.mem_filter, and_comm]

theorem length_add_filter_not_mem {α : Type} [DecidableEq α] (k s : List α) (hk : k.Nodup)
    (hs : s.Nodup) :
    k.length + (s.filter (fun x => decide (¬ (x ∈ k)))).length =
      s.length + (k.filter (fun x => decide (¬ (x ∈ s)))).length := by
  have h1 := List.length_eq_countP_add_countP (p := fun x => decide (x ∈ s)) k
  have h2 := List.length_eq_countP_add_countP (p := fun x => decide (x ∈ k)) s
  have h3 := nodup_filter_mem_length_eq k s hk hs
  simp only [List.countP_eq_length_filter] at h1 h2
  have e1 : (k.filter (fun x => decide (¬ (x ∈ s)))) =
      k.filter (fun a => decide (¬ (decide (a ∈ s) = true))) := by
    congr 1; funext x; simp
  have e2 : (s.filter (fun x => decide (¬ (x ∈ k)))) =
      s.filter (fun a => decide (¬ (decide (a ∈ k) = true))) := by
    congr 1; funext x; simp
  rw [e1, e2]
  omega

theorem boardSquares_nodup : boardSquares.Nodup := by decide

theorem boardSquares_length : boardSquares.length = 64 := by decide

theorem GetSquareAccuracy_keys (db : Store) (userID : ObjectID) :
    ∃ accuracies, AttemptRepository.GetSquareAccuracy db none userID = .ok accuracies ∧
      accuracies.map (fun acc => acc.Square) =
        ((db.attempts.filter (fun a => a.UserID = userID)).map (fun a => a.CorrectAnswer)).dedup := by
  refine ⟨_, rfl, ?_⟩
  simp [groupBySquare, List.map_map, Function.comp_def]

/-- The size of the heat map: 64 plus the number of distinct stored expected
answers of the user that are not square names. -/
theorem GetHeatmapData_length (db : Store) (userID : ObjectID) :
    ∃ heatmap, StatsService.GetHeatmapData db none userID = .ok heatmap ∧
      heatmap.Squares.length =
        64 + ((((db.attempts.filter (fun a => a.UserID = userID)).map
          (fun a => a.CorrectAnswer)).dedup).filter
            (fun key => decide (¬ (key ∈ boardSquares)))).length := by
  obtain ⟨accuracies, hacc, hkeys⟩ := GetSquareAccuracy_keys db userID
  have hget : StatsService.GetHeatmapData db none userID =
      .ok { Squares := fillMissingSquares (accuracies.map (fun acc => acc.Square)) accuracies } := by
    simp only [StatsService.GetHeatmapData, hacc]
  refine ⟨_, hget, ?_⟩
  simp only [fillMissingSquares_eq, List.length_append, List.length_map, hkeys]
  have hlen : accuracies.length =
      (((db.attempts.filter (fun a => a.UserID = userID)).map
        (fun a => a.CorrectAnswer)).dedup).length := by
    rw [← hkeys, List.length_map]
  rw [hlen, length_add_filter_not_mem _ _ (List.nodup_dedup _) boardSquares_nodup,
    boardSquares_length]

/-- C10 (as amended): when every stored expected answer of the user is the name
of one of the 64 squares (in particular when the user has no attempt), the
`Squares` list returned by `GetHeatmapData` has exactly 64 entries. -/
theorem GetHeatmapData_length_64_of_square_keys (db : Store) (userID : ObjectID)
    (hkeys : ∀ a ∈ db.attempts, a.UserID = userID → a.CorrectAnswer ∈ boardSquares) :
    ∃ heatmap, StatsService.GetHeatmapData db none userID = .ok heatmap ∧
      heatmap.Squares.length = 64 := by
  obtain ⟨heatmap, hget, hlen⟩ := GetHeatmapData_length db userID
  refine ⟨heatmap, hget, ?_⟩
  rw [hlen, List.filter_eq_nil_iff.mpr]
  · rfl
  · intro key hkey
    rw [List.mem_dedup, List.mem_map] at hkey
    obtain ⟨a, ha, rfl⟩ := hkey
    rw [List.mem_filter] at ha
    have := hkeys a ha.1 (by simpa using ha.2)
    simpa using this

theorem GetHeatmapData_length_64_of_square_keys_witness :
    (∀ a ∈ oneAttemptStore.attempts, a.UserID = 1 → a.CorrectAnswer ∈ boardSquares) ∧
      ∃ heatmap, StatsService.GetHeatmapData oneAttemptStore none 1 = .ok heatmap ∧
        heatmap.Squares.length = 64 :=
  ⟨by decide, GetHeatmapData_length_64_of_square_keys oneAttemptStore 1 (by decide)⟩

/-- C10 (counterexample): after one answer whose expected value is `"zz"`, the
heat map of that user has 65 entries, not 64. -/
theorem GetHeatmapData_length_65_offBoard :
    ∃ heatmap, StatsService.GetHeatmapData offBoardStore none 1 = .ok heatmap ∧
      heatmap.Squares.length = 65 := by
  obtain ⟨heatmap, hget, hlen⟩ := GetHeatmapData_length offBoardStore 1
  refine ⟨heatmap, hget, ?_⟩
  rw [hlen]
  decide

/-! ## Theorems: accuracy percentages -/

theorem GetDrillStats_of_nil (db : Store) (userID : ObjectID) (drillType : DrillType)
    (h : db.attempts.filter (fun a => a.UserID = userID ∧ a.DrillType = drillType) = []) :
    AttemptRepository.GetDrillStats db none userID drillType =
      .ok { DrillType := drillType, TotalAttempts := 0, CorrectAttempts := 0,
            Accuracy := .finite 0, AvgResponseMs := 0, BestStreak := 0, CurrentStreak := 0 } := by
  simp only [AttemptRepository.GetDrillStats, h, groupTotals, driverCall]

theorem GetDrillStats_of_ne_nil (db : Store) (userID : ObjectID) (drillType : DrillType)
    (h : db.attempts.filter (fun a => a.UserID = userID ∧ a.DrillType = drillType) ≠ []) :
    AttemptRepository.GetDrillStats db none userID drillType =
      .ok { DrillType := drillType
            TotalAttempts :=
              (db.attempts.filter (fun a => a.UserID = userID ∧ a.DrillType = drillType)).length
            CorrectAttempts :=
              (db.attempts.filter (fun a => a.UserID = userID ∧ a.DrillType = drillType)).countP
                (fun a => a.Correct)
            Accuracy :=
              F64.mul (F64.div
                (F64.ofInt ((db.attempts.filter
                  (fun a => a.UserID = userID ∧ a.DrillType = drillType)).countP
                    (fun a => a.Correct)))
                (F64.ofInt (db.attempts.filter
                  (fun a => a.UserID = userID ∧ a.DrillType = drillType)).length))
                (.finite 100)
            AvgResponseMs :=
              (mongoAvg ((db.attempts.filter
                (fun a => a.UserID = userID ∧ a.DrillType = drillType)).map
                  (fun a => a.ResponseMs))).toInt
            BestStreak := 0
            CurrentStreak := 0 } := by
  have hpos : (0 : Int) <
      ((db.attempts.filter (fun a => a.UserID = userID ∧ a.DrillType = drillType)).length : Int) := by
    have := List.length_pos.mpr h
    exact_mod_cast this
  simp only [AttemptRepository.GetDrillStats, groupTotals_of_ne_nil _ h, driverCall, gt_iff_lt,
    hpos, if_true]

theorem GetOverallStats_of_nil (db : Store) (userID : ObjectID)
    (h : db.attempts.filter (fun a => a.UserID = userID) = []) :
    AttemptRepository.GetOverallStats db none userID =
      .ok { TotalSessions := 0, TotalAttempts := 0, OverallAccuracy := .finite 0,
            AvgResponseMs := 0, BestStreak := 0, DrillStats := [] } := by
  simp only [AttemptRepository.GetOverallStats, h, groupTotals, driverCall]

theorem GetOverallStats_of_ne_nil (db : Store) (userID : ObjectID)
    (h : db.attempts.filter (fun a => a.UserID = userID) ≠ []) :
    AttemptRepository.GetOverallStats db none userID =
      .ok { TotalSessions := 0
            TotalAttempts := (db.attempts.filter (fun a => a.UserID = userID)).length
            OverallAccuracy :=
              F64.mul (F64.div
                (F64.ofInt ((db.attempts.filter (fun a => a.UserID = userID)).countP
                  (fun a => a.Correct)))
                (F64.ofInt (db.attempts.filter (fun a => a.UserID = userID)).length))
                (.finite 100)
            AvgResponseMs :=
              (mongoAvg ((db.attempts.filter (fun a => a.UserID = userID)).map
                (fun a => a.ResponseMs))).toInt
            BestStreak := 0
            DrillStats := [] } := by
  have hpos : (0 : Int) < ((db.attempts.filter (fun a => a.UserID = userID)).length : Int) := by
    have := List.length_pos.mpr h
    exact_mod_cast this
  simp only [AttemptRepository.GetOverallStats, groupTotals_of_ne_nil _ h, driverCall, gt_iff_lt,
    hpos, if_true]

/-- C9: with the aggregation succeeding, the accuracy reported by
`GetDrillStats`, `GetOverallStats` and `GetSquareAccuracy` is the `float64`
value of `correct / total * 100` when the total is positive and is exactly `0`
when the total is `0`; `GetDrillStats` for a user and drill type without
attempts returns, without error, the record carrying the requested drill type
and `0` in every numeric field. -/
theorem accuracy_is_percentage_or_zero (db : Store) (userID : ObjectID)
    (drillType : DrillType) :
    (∃ stats, AttemptRepository.GetDrillStats db none userID drillType = .ok stats ∧
        stats.DrillType = drillType ∧
        stats.TotalAttempts =
          (db.attempts.countP (fun a => a.UserID = userID ∧ a.DrillType = drillType) : Int) ∧
        stats.Accuracy =
          (if 0 < stats.TotalAttempts then
            F64.mul (F64.div (F64.ofInt stats.CorrectAttempts) (F64.ofInt stats.TotalAttempts))
              (.finite 100)
          else .finite 0) ∧
        (stats.TotalAttempts = 0 →
          stats = { DrillType := drillType, TotalAttempts := 0, CorrectAttempts := 0,
                    Accuracy := .finite 0, AvgResponseMs := 0, BestStreak := 0,
                    CurrentStreak := 0 })) ∧
    (∃ stats, AttemptRepository.GetOverallStats db none userID = .ok stats ∧
        stats.TotalAttempts = (db.attempts.countP (fun a => a.UserID = userID) : Int) ∧
        stats.OverallAccuracy =
          (if 0 < stats.TotalAttempts then
            F64.mul (F64.div
              (F64.ofInt (db.attempts.countP (fun a => a.UserID = userID ∧ a.Correct = true)))
              (F64.ofInt stats.TotalAttempts)) (.finite 100)
          else .finite 0)) ∧
    (∃ accuracies, AttemptRepository.GetSquareAccuracy db none userID = .ok accuracies ∧
        ∀ acc ∈ accuracies,
          acc.Accuracy =
            (if 0 < acc.Total then
              F64.mul (F64.div (F64.ofInt acc.Correct) (F64.ofInt acc.Total)) (.finite 100)
            else .finite 0)) := by
  refine ⟨?_, ?_, ?_⟩
  · by_cases h : db.attempts.filter (fun a => a.UserID = userID ∧ a.DrillType = drillType) = []
    · refine ⟨_, GetDrillStats_of_nil db userID drillType h, rfl, ?_, ?_, fun _ => rfl⟩
      · rw [List.countP_eq_length_filter, h]; rfl
      · simp
    · refine ⟨_, GetDrillStats_of_ne_nil db userID drillType h, rfl, ?_, ?_, ?_⟩
      · simp only [List.countP_eq_length_filter]
      · have hpos : (0 : Int) < ((db.attempts.filter
            (fun a => a.UserID = userID ∧ a.DrillType = drillType)).length : Int) := by
          have := List.length_pos.mpr h
          exact_mod_cast this
        simp only [hpos, if_true]
      · intro h0
        have hpos := List.length_pos.mpr h
        simp only at h0
        omega
  · by_cases h : db.attempts.filter (fun a => a.UserID = userID) = []
    · refine ⟨_, GetOverallStats_of_nil db userID h, ?_, ?_⟩
      · rw [List.countP_eq_length_filter, h]; rfl
      · simp
    · refine ⟨_, GetOverallStats_of_ne_nil db userID h, ?_, ?_⟩
      · simp only [List.countP_eq_length_filter]
      · have hpos : (0 : Int) < ((db.attempts.filter (fun a => a.UserID = userID)).length : Int) := by
          have := List.length_pos.mpr h
          exact_mod_cast this
        simp only [hpos, if_true]
        congr 4
        simp only [List.countP_filter]
        congr 1
        funext a
        simp [Bool.and_comm]
  · refine ⟨_, rfl, ?_⟩
    intro acc hacc
    simp only [driverCall, List.mem_map] at hacc
    obtain ⟨r, -, rfl⟩ := hacc
    simp only [gt_iff_lt]

/-! ## Lemmas on `float64` rounding -/

theorem roundHalfEven_cases (x : ℚ) :
    (roundHalfEven x = ⌊x⌋ ∧ x - ⌊x⌋ ≤ 1 / 2) ∨ (roundHalfEven x = ⌊x⌋ + 1 ∧ 1 / 2 ≤ x - ⌊x⌋) := by
  unfold roundHalfEven
  simp only
  split_ifs with h1 h2 h3
  · exact Or.inl ⟨rfl, le_of_lt h1⟩
  · exact Or.inr ⟨rfl, le_of_lt h2⟩
  · exact Or.inl ⟨rfl, not_lt.mp h2⟩
  · exact Or.inr ⟨rfl, not_lt.mp h1⟩

theorem roundHalfEven_intCast (z : ℤ) : roundHalfEven (z : ℚ) = z := by
  unfold roundHalfEven
  simp

theorem roundHalfEven_ge (A : ℤ) (x : ℚ) (h : (A : ℚ) ≤ x) : A ≤ roundHalfEven x := by
  have hf : A ≤ ⌊x⌋ := Int.le_floor.mpr h
  rcases roundHalfEven_cases x with ⟨e, -⟩ | ⟨e, -⟩ <;> omega

theorem roundHalfEven_lt (B : ℤ) (x : ℚ) (h : x < (B : ℚ) - 1 / 2) : roundHalfEven x < B := by
  rcases roundHalfEven_cases x with ⟨e, -⟩ | ⟨e, hd⟩
  · rw [e]
    apply Int.floor_lt.mpr
    linarith
  · rw [e]
    have : ((⌊x⌋ + 1 : ℤ) : ℚ) < (B : ℚ) := by
      push_cast
      linarith
    exact_mod_cast this

theorem roundHalfEven_neg (x : ℚ) : roundHalfEven (-x) = -roundHalfEven x := by
  by_cases hint : (⌊x⌋ : ℚ) = x
  · rw [← hint, ← Int.cast_neg, roundHalfEven_intCast, roundHalfEven_intCast]
  · have hlt : (⌊x⌋ : ℚ) < x := lt_of_le_of_ne (Int.floor_le x) hint
    have hfl : ⌊-x⌋ = -⌊x⌋ - 1 := by
      rw [Int.floor_eq_iff]
      have := Int.lt_floor_add_one x
      constructor <;> push_cast <;> linarith
    unfold roundHalfEven
    simp only [hfl]
    push_cast
    split_ifs <;> first | omega | (exfalso; linarith)

theorem roundHalfEven_le (B : ℤ) (x : ℚ) (h : x ≤ (B : ℚ)) : roundHalfEven x ≤ B := by
  have hneg := roundHalfEven_ge (-B) (-x) (by push_cast; linarith)
  rw [roundHalfEven_neg] at hneg
  omega

theorem two_zpow_pos (e : ℤ) : (0 : ℚ) < (2 : ℚ) ^ e := zpow_pos (by norm_num) e

theorem log_two_eq (q : ℚ) (j : ℤ) (hlo : (2 : ℚ) ^ j ≤ q) (hhi : q < (2 : ℚ) ^ (j + 1)) :
    Int.log 2 q = j := by
  have hq : 0 < q := lt_of_lt_of_le (two_zpow_pos j) hlo
  apply le_antisymm
  · have := (Int.lt_zpow_iff_log_lt (b := 2) (by norm_num) hq (x := j + 1)).mp
      (by simpa using hhi)
    omega
  · exact (Int.zpow_le_iff_le_log (b := 2) (by norm_num) hq).mp (by simpa using hlo)

theorem F64.round_pos (q : ℚ) (j : ℤ) (hlo : (2 : ℚ) ^ j ≤ q) (hhi : q < (2 : ℚ) ^ (j + 1))
    (hj1 : -1022 ≤ j) (hj2 : j ≤ 1022) :
    F64.round q = .finite ((roundHalfEven (q / 2 ^ (j - 52)) : ℚ) * 2 ^ (j - 52)) := by
  have hq : 0 < q := lt_of_lt_of_le (two_zpow_pos j) hlo
  have hlog : Int.log 2 |q| = j := by rw [abs_of_pos hq]; exact log_two_eq q j hlo hhi
  have he : F64.ulpExp q = j - 52 := by
    unfold F64.ulpExp
    rw [hlog, max_eq_left hj1]
  have hpe := two_zpow_pos (j - 52)
  have hx0 : (0 : ℚ) ≤ q / 2 ^ (j - 52) := le_of_lt (div_pos hq hpe)
  have hx1 : q / 2 ^ (j - 52) ≤ ((2 ^ 53 : ℤ) : ℚ) := by
    rw [div_le_iff₀ hpe]
    have : ((2 ^ 53 : ℤ) : ℚ) * 2 ^ (j - 52) = 2 ^ (j + 1) := by
      have h53 : ((2 ^ 53 : ℤ) : ℚ) = (2 : ℚ) ^ (53 : ℤ) := by norm_num
      rw [h53, ← zpow_add₀ (by norm_num : (2 : ℚ) ≠ 0)]
      congr 1
      omega
    rw [this]
    exact le_of_lt hhi
  have hm0 : (0 : ℤ) ≤ roundHalfEven (q / 2 ^ (j - 52)) :=
    roundHalfEven_ge 0 _ (by simpa using hx0)
  have hm1 : roundHalfEven (q / 2 ^ (j - 52)) ≤ 2 ^ 53 := roundHalfEven_le _ _ hx1
  have hr : |(roundHalfEven (q / 2 ^ (j - 52)) : ℚ) * 2 ^ (j - 52)| < (2 : ℚ) ^ (1024 : ℕ) := by
    rw [abs_of_nonneg (mul_nonneg (by exact_mod_cast hm0) (le_of_lt hpe))]
    have h1 : (roundHalfEven (q / 2 ^ (j - 52)) : ℚ) ≤ (2 : ℚ) ^ (53 : ℤ) := by
      have : ((roundHalfEven (q / 2 ^ (j - 52)) : ℤ) : ℚ) ≤ ((2 ^ 53 : ℤ) : ℚ) := by
        exact_mod_cast hm1
      have h53 : ((2 ^ 53 : ℤ) : ℚ) = (2 : ℚ) ^ (53 : ℤ) := by norm_num
      rw [← h53]
      exact this
    calc (roundHalfEven (q / 2 ^ (j - 52)) : ℚ) * 2 ^ (j - 52)
        ≤ (2 : ℚ) ^ (53 : ℤ) * 2 ^ (j - 52) := mul_le_mul_of_nonneg_right h1 (le_of_lt hpe)
      _ = (2 : ℚ) ^ (j + 1) := by
          rw [← zpow_add₀ (by norm_num : (2 : ℚ) ≠ 0)]
          congr 1
          omega
      _ ≤ (2 : ℚ) ^ (1023 : ℤ) := zpow_le_zpow_right₀ (by norm_num) (by omega)
      _ < (2 : ℚ) ^ (1024 : ℕ) := by norm_num
  unfold F64.round
  simp only [ne_of_gt hq, if_false, he, not_le.mpr hr]

theorem F64.round_neg (q r : ℚ) (h : F64.round q = .finite r) :
    F64.round (-q) = .finite (-r) := by
  unfold F64.round at h ⊢
  by_cases hq : q = 0
  · simp only [hq, if_true, F64.finite.injEq] at h
    simp [hq, ← h]
  · have hnq : -q ≠ 0 := neg_ne_zero.mpr hq
    simp only [hq, if_false] at h
    simp only [hnq, if_false]
    have he : F64.ulpExp (-q) = F64.ulpExp q := by unfold F64.ulpExp; rw [abs_neg]
    rw [he, neg_div, roundHalfEven_neg]
    push_cast
    rw [neg_mul, abs_neg]
    split_ifs at h with hov
    simp only [hov, if_false]
    simp only [F64.finite.injEq] at h
    rw [h]

theorem F64.round_natCast (z : ℕ) (hz' : z < 2 ^ 53) : F64.round (z : ℚ) = .finite z := by
  rcases Nat.eq_zero_or_pos z with rfl | hz
  · simp [F64.round]
  have hlo := Nat.pow_log_le_self 2 (ne_of_gt hz)
  have hhi := Nat.lt_pow_succ_log_self (by norm_num : 1 < 2) z
  have hj : Nat.log 2 z < 53 := by
    by_contra hcon
    have : 2 ^ 53 ≤ 2 ^ Nat.log 2 z := Nat.pow_le_pow_right (by norm_num) (by omega)
    omega
  obtain ⟨k, hk⟩ : ∃ k : ℕ, Nat.log 2 z + k = 52 := ⟨52 - Nat.log 2 z, by omega⟩
  have hlo' : (2 : ℚ) ^ (Nat.log 2 z : ℤ) ≤ (z : ℚ) := by
    rw [zpow_natCast]
    exact_mod_cast hlo
  have hhi' : (z : ℚ) < (2 : ℚ) ^ ((Nat.log 2 z : ℤ) + 1) := by
    have : ((Nat.log 2 z : ℤ) + 1) = ((Nat.log 2 z + 1 : ℕ) : ℤ) := by push_cast; rfl
    rw [this, zpow_natCast]
    exact_mod_cast hhi
  rw [F64.round_pos (z : ℚ) (Nat.log 2 z : ℤ) hlo' hhi' (by omega) (by omega)]
  have he : ((Nat.log 2 z : ℤ) - 52) = -(k : ℤ) := by omega
  rw [he, zpow_neg, zpow_natCast]
  have hx : (z : ℚ) / ((2 : ℚ) ^ k)⁻¹ = ((z * 2 ^ k : ℤ) : ℚ) := by
    push_cast
    rw [div_inv_eq_mul]
  rw [hx, roundHalfEven_intCast]
  congr 1
  push_cast
  field_simp

theorem F64.round_div_floor (S n : ℕ) (hS : 0 < S) (hS' : S < 2 ^ 53) (hn : 0 < n)
    (hn' : n < 2 ^ 53) :
    ∃ r : ℚ, F64.round ((S : ℚ) / n) = .finite r ∧ 0 < r ∧ ⌊r⌋ = ((S / n : ℕ) : ℤ) := by
  have hSq : (0 : ℚ) < S := by exact_mod_cast hS
  have hnq : (0 : ℚ) < n := by exact_mod_cast hn
  have h53 : ((2 ^ 53 : ℕ) : ℚ) = (2 : ℚ) ^ (53 : ℤ) := by norm_num
  have hS53 : (S : ℚ) < (2 : ℚ) ^ (53 : ℤ) := by
    rw [← h53]
    exact_mod_cast hS'
  have hn53 : (n : ℚ) < (2 : ℚ) ^ (53 : ℤ) := by
    rw [← h53]
    exact_mod_cast hn'
  have hq : (0 : ℚ) < (S : ℚ) / n := div_pos hSq hnq
  obtain ⟨j, hj⟩ : ∃ j : ℤ, Int.log 2 ((S : ℚ) / n) = j := ⟨_, rfl⟩
  have hlo : (2 : ℚ) ^ j ≤ (S : ℚ) / n := by
    have := Int.zpow_log_le_self (b := 2) (by norm_num) hq
    rw [hj] at this
    simpa using this
  have hhi : (S : ℚ) / n < (2 : ℚ) ^ (j + 1) := by
    have := Int.lt_zpow_succ_log_self (b := 2) (by norm_num) ((S : ℚ) / n)
    rw [hj] at this
    simpa using this
  have hnj : (n : ℚ) * 2 ^ j ≤ S := by
    have := (le_div_iff₀ hnq).mp hlo
    linarith
  have hj2 : j ≤ 52 := by
    by_contra hcon
    have h1 : (2 : ℚ) ^ (53 : ℤ) ≤ (2 : ℚ) ^ j := zpow_le_zpow_right₀ (by norm_num) (by omega)
    have h2 : (1 : ℚ) ≤ n := by exact_mod_cast hn
    have h3 : (2 : ℚ) ^ j ≤ (n : ℚ) * 2 ^ j := le_mul_of_one_le_left (le_of_lt (two_zpow_pos j)) h2
    linarith
  have hj1 : -53 ≤ j := by
    by_contra hcon
    have h1 : (2 : ℚ) ^ (j + 1) ≤ (2 : ℚ) ^ (-53 : ℤ) := zpow_le_zpow_right₀ (by norm_num) (by omega)
    have h2 : (S : ℚ) < n * (2 : ℚ) ^ (-53 : ℤ) := by
      have := (div_lt_iff₀ hnq).mp (lt_of_lt_of_le hhi h1)
      linarith
    have h3 : (n : ℚ) * (2 : ℚ) ^ (-53 : ℤ) < 1 := by
      have : (2 : ℚ) ^ (53 : ℤ) * (2 : ℚ) ^ (-53 : ℤ) = 1 := by
        rw [← zpow_add₀ (by norm_num : (2 : ℚ) ≠ 0)]; norm_num
      have := mul_lt_mul_of_pos_right hn53 (two_zpow_pos (-53))
      linarith
    have h4 : (1 : ℚ) ≤ S := by exact_mod_cast hS
    linarith
  obtain ⟨s, hs⟩ : ∃ s : ℕ, (s : ℤ) = 52 - j := ⟨(52 - j).toNat, Int.toNat_of_nonneg (by omega)⟩
  have hps : (0 : ℚ) < (2 : ℚ) ^ s := pow_pos (by norm_num) s
  have hjs : (2 : ℚ) ^ j * (2 * (2 : ℚ) ^ s) = (2 : ℚ) ^ (53 : ℤ) := by
    have : (2 * (2 : ℚ) ^ s) = (2 : ℚ) ^ ((s : ℤ) + 1) := by
      rw [zpow_add₀ (by norm_num : (2 : ℚ) ≠ 0), zpow_natCast, zpow_one, mul_comm]
    rw [this, ← zpow_add₀ (by norm_num : (2 : ℚ) ≠ 0)]
    congr 1
    omega
  have hj52 : (2 : ℚ) ^ j * (2 : ℚ) ^ s = (2 : ℚ) ^ (52 : ℤ) := by
    rw [← zpow_natCast, ← zpow_add₀ (by norm_num : (2 : ℚ) ≠ 0)]
    congr 1
    omega
  have hn2 : (n : ℚ) < 2 * (2 : ℚ) ^ s := by
    have h1 : (n : ℚ) * 2 ^ j < (2 : ℚ) ^ j * (2 * (2 : ℚ) ^ s) := by rw [hjs]; linarith
    have h2 : (2 : ℚ) ^ j * (n : ℚ) < (2 : ℚ) ^ j * (2 * (2 : ℚ) ^ s) := by linarith
    exact lt_of_mul_lt_mul_left h2 (le_of_lt (two_zpow_pos j))
  rw [F64.round_pos ((S : ℚ) / n) j hlo hhi (by omega) (by omega)]
  have he : j - 52 = -(s : ℤ) := by omega
  rw [he, zpow_neg, zpow_natCast, div_inv_eq_mul]
  -- the scaled quotient lies between two consecutive multiples of `2 ^ s`
  have ht1n : S / n * n ≤ S := Nat.div_mul_le_self S n
  have ht2n : S + 1 ≤ (S / n + 1) * n := by
    have := Nat.lt_div_mul_add hn (a := S)
    rw [Nat.add_mul, Nat.one_mul]
    omega
  generalize S / n = t at ht1n ht2n ⊢
  have ht1 : (t : ℚ) * n ≤ S := by exact_mod_cast ht1n
  have ht2 : (S : ℚ) + 1 ≤ ((t : ℚ) + 1) * n := by exact_mod_cast ht2n
  have hxeq : (S : ℚ) / n * 2 ^ s * n = S * 2 ^ s := by field_simp
  have hA : (((t : ℤ) * 2 ^ s : ℤ) : ℚ) ≤ (S : ℚ) / n * 2 ^ s := by
    push_cast
    apply le_of_mul_le_mul_right _ hnq
    rw [hxeq]
    nlinarith
  have hB : (S : ℚ) / n * 2 ^ s < ((((t : ℤ) + 1) * 2 ^ s : ℤ) : ℚ) - 1 / 2 := by
    push_cast
    apply lt_of_mul_lt_mul_right _ (le_of_lt hnq)
    rw [hxeq]
    nlinarith
  have hone : ((1 : ℤ) : ℚ) ≤ (S : ℚ) / n * 2 ^ s := by
    have h1 : (2 : ℚ) ^ j * 2 ^ s ≤ (S : ℚ) / n * 2 ^ s :=
      mul_le_mul_of_nonneg_right hlo (le_of_lt hps)
    have h2 : (1 : ℚ) ≤ (2 : ℚ) ^ (52 : ℤ) := by norm_num
    push_cast
    linarith
  have hmA := roundHalfEven_ge _ _ hA
  have hmB := roundHalfEven_lt _ _ hB
  have hm1 := roundHalfEven_ge _ _ hone
  refine ⟨_, rfl, ?_, ?_⟩
  · apply mul_pos _ (inv_pos.mpr hps)
    exact_mod_cast (by omega : (0 : ℤ) < roundHalfEven ((S : ℚ) / n * 2 ^ s))
  · rw [Int.floor_eq_iff]
    have hmAq : (((t : ℤ) * 2 ^ s : ℤ) : ℚ) ≤ (roundHalfEven ((S : ℚ) / n * 2 ^ s) : ℚ) := by
      exact_mod_cast hmA
    have hmBq : (roundHalfEven ((S : ℚ) / n * 2 ^ s) : ℚ) < ((((t : ℤ) + 1) * 2 ^ s : ℤ) : ℚ) := by
      exact_mod_cast hmB
    push_cast at hmAq hmBq ⊢
    constructor
    · rw [le_mul_inv_iff₀ hps]
      exact hmAq
    · rw [mul_inv_lt_iff₀ hps]
      exact hmBq

theorem F64.ofInt_natCast (n : ℕ) (hn : n < 2 ^ 53) : F64.ofInt (n : ℤ) = .finite n := by
  unfold F64.ofInt
  rw [Int.cast_natCast]
  exact F64.round_natCast n hn

theorem F64.ofInt_neg_natCast (n : ℕ) (hn : n < 2 ^ 53) :
    F64.ofInt (-(n : ℤ)) = .finite (-(n : ℚ)) := by
  unfold F64.ofInt
  rw [Int.cast_neg, Int.cast_natCast]
  exact F64.round_neg _ _ (F64.round_natCast n hn)

theorem avg_toInt (S : ℤ) (n : ℕ) (hn : 0 < n) (hS : |S| < 2 ^ 53) (hn' : n < 2 ^ 53) :
    (F64.div (F64.ofInt S) (F64.ofInt n)).toInt = Int.tdiv S n := by
  have hnq : (n : ℚ) ≠ 0 := by exact_mod_cast (ne_of_gt hn)
  obtain ⟨k, rfl | rfl⟩ := Int.eq_nat_or_neg S
  · have hk : k < 2 ^ 53 := by
      have := abs_lt.mp hS
      omega
    rw [F64.ofInt_natCast k hk, F64.ofInt_natCast n hn']
    simp only [F64.div, hnq, if_false]
    rcases Nat.eq_zero_or_pos k with rfl | hkpos
    · simp [F64.round, F64.toInt, truncQ]
    · obtain ⟨r, hr, hr0, hfl⟩ := F64.round_div_floor k n hkpos hk hn hn'
      rw [hr, ← Int.ofNat_tdiv k n]
      have hle : k / n ≤ k := Nat.div_le_self k n
      generalize k / n = t at hfl hle ⊢
      simp only [F64.toInt, truncQ, le_of_lt hr0, if_true, hfl]
      rw [if_pos (by constructor <;> omega)]
  · have hk : k < 2 ^ 53 := by
      have := abs_lt.mp hS
      omega
    rw [F64.ofInt_neg_natCast k hk, F64.ofInt_natCast n hn']
    simp only [F64.div, hnq, if_false]
    rcases Nat.eq_zero_or_pos k with rfl | hkpos
    · simp [F64.round, F64.toInt, truncQ]
    · obtain ⟨r, hr, hr0, hfl⟩ := F64.round_div_floor k n hkpos hk hn hn'
      rw [neg_div, F64.round_neg _ _ hr, Int.neg_tdiv, ← Int.ofNat_tdiv k n]
      have hle : k / n ≤ k := Nat.div_le_self k n
      have hneg : ¬ (0 ≤ -r) := by linarith
      generalize k / n = t at hfl hle ⊢
      simp only [F64.toInt, truncQ, hneg, if_false, neg_neg, hfl]
      rw [if_pos (by constructor <;> omega)]

theorem mongoAvg_toInt (values : List ℤ) (hne : values ≠ []) (hS : |values.sum| < 2 ^ 53)
    (hn : values.length < 2 ^ 53) :
    (mongoAvg values).toInt = Int.tdiv values.sum values.length :=
  avg_toInt values.sum values.length (List.length_pos.mpr hne) hS hn

theorem truncatedMean_eq_tdiv (values : List Int) :
    truncatedMean values = Int.tdiv values.sum values.length := by
  unfold truncatedMean truncQ
  generalize values.sum = S
  generalize values.length = n
  obtain ⟨k, rfl | rfl⟩ := Int.eq_nat_or_neg S
  · have h0 : (0 : ℚ) ≤ ((k : ℤ) : ℚ) / (n : ℚ) := by positivity
    rw [if_pos h0, Rat.floor_intCast_div_natCast, ← Int.ofNat_tdiv]
    rfl
  · rcases Nat.eq_zero_or_pos k with rfl | hk
    · simp
    rcases Nat.eq_zero_or_pos n with rfl | hn
    · simp
    have hneg : ¬ ((0 : ℚ) ≤ ((-(k : ℤ) : ℤ) : ℚ) / (n : ℚ)) := by
      rw [not_le]
      apply div_neg_of_neg_of_pos
      · exact_mod_cast (by omega : -(k : ℤ) < 0)
      · exact_mod_cast hn
    rw [if_neg hneg, Int.neg_tdiv, ← Int.ofNat_tdiv]
    congr 1
    rw [Int.cast_neg, neg_div, neg_neg, Rat.floor_intCast_div_natCast]
    rfl

theorem toInt_mongoAvg_eq_truncatedMean (docs : List Attempt)
    (h : ExactlyAveraged (latencies docs)) :
    (mongoAvg (docs.map (fun a => a.ResponseMs))).toInt = truncatedMean (latencies docs) := by
  rw [truncatedMean_eq_tdiv]
  exact mongoAvg_toInt _ h.1 h.2.1 h.2.2

theorem ne_nil_of_exactlyAveraged (docs : List Attempt) (h : ExactlyAveraged (latencies docs)) :
    docs ≠ [] := by
  intro hnil
  exact h.1 (by rw [hnil]; rfl)

/-- C8 (as amended): for a non-empty set of matching attempts that number fewer
than `2 ^ 53` and whose response times sum to less than `2 ^ 53` in absolute
value, the `AvgResponseMs` reported by `GetSessionSummary`, `GetDrillStats` and
`GetOverallStats` is the arithmetic mean of the response times truncated toward
zero; latencies 1 and 2 give 1, and latencies 100, 101, 101 give 100. -/
theorem AvgResponseMs_eq_truncatedMean (db : Store) (streakFault : Option Error)
    (sessionID userID : ObjectID) (drillType : DrillType) :
    (ExactlyAveraged (latencies (db.attempts.filter (fun a => a.SessionID = sessionID))) →
      ∃ summary,
        AttemptRepository.GetSessionSummary db none streakFault sessionID = .ok summary ∧
        summary.AvgResponseMs =
          truncatedMean (latencies (db.attempts.filter (fun a => a.SessionID = sessionID)))) ∧
    (ExactlyAveraged (latencies
        (db.attempts.filter (fun a => a.UserID = userID ∧ a.DrillType = drillType))) →
      ∃ stats, AttemptRepository.GetDrillStats db none userID drillType = .ok stats ∧
        stats.AvgResponseMs =
          truncatedMean (latencies
            (db.attempts.filter (fun a => a.UserID = userID ∧ a.DrillType = drillType)))) ∧
    (ExactlyAveraged (latencies (db.attempts.filter (fun a => a.UserID = userID))) →
      ∃ stats, AttemptRepository.GetOverallStats db none userID = .ok stats ∧
        stats.AvgResponseMs =
          truncatedMean (latencies (db.attempts.filter (fun a => a.UserID = userID)))) ∧
    (∀ (a1 a2 : Attempt) (sessions : List DrillSession), ∃ summary,
      AttemptRepository.GetSessionSummary
        { attempts :=
            [{ a1 with SessionID := sessionID, ResponseMs := 1 },
             { a2 with SessionID := sessionID, ResponseMs := 2 }],
          drillSessions := sessions } none streakFault sessionID = .ok summary ∧
      summary.AvgResponseMs = 1) ∧
    (∀ (a1 a2 a3 : Attempt) (sessions : List DrillSession), ∃ summary,
      AttemptRepository.GetSessionSummary
        { attempts :=
            [{ a1 with SessionID := sessionID, ResponseMs := 100 },
             { a2 with SessionID := sessionID, ResponseMs := 101 },
             { a3 with SessionID := sessionID, ResponseMs := 101 }],
          drillSessions := sessions } none streakFault sessionID = .ok summary ∧
      summary.AvgResponseMs = 100) := by
  refine ⟨?_, ?_, ?_, ?_, ?_⟩
  · intro h
    refine ⟨_, GetSessionSummary_of_ne_nil db streakFault sessionID
      (ne_nil_of_exactlyAveraged _ h), ?_⟩
    exact toInt_mongoAvg_eq_truncatedMean _ h
  · intro h
    refine ⟨_, GetDrillStats_of_ne_nil db userID drillType (ne_nil_of_exactlyAveraged _ h), ?_⟩
    exact toInt_mongoAvg_eq_truncatedMean _ h
  · intro h
    refine ⟨_, GetOverallStats_of_ne_nil db userID (ne_nil_of_exactlyAveraged _ h), ?_⟩
    exact toInt_mongoAvg_eq_truncatedMean _ h
  · intro a1 a2 sessions
    refine ⟨_, GetSessionSummary_of_ne_nil _ streakFault sessionID (by simp), ?_⟩
    have h := mongoAvg_toInt [1, 2] (by simp) (by norm_num) (by norm_num)
    simpa using h
  · intro a1 a2 a3 sessions
    refine ⟨_, GetSessionSummary_of_ne_nil _ streakFault sessionID (by simp), ?_⟩
    have h := mongoAvg_toInt [100, 101, 101] (by simp) (by norm_num) (by norm_num)
    simpa using h

theorem oneAttemptStore_exactlyAveraged :
    ExactlyAveraged (latencies (oneAttemptStore.attempts.filter (fun a => a.SessionID = 1))) := by
  refine ⟨by decide, ?_, by decide⟩
  have : (latencies (oneAttemptStore.attempts.filter (fun a => a.SessionID = 1))).sum = 1500 := by
    decide
  rw [this]
  norm_num

theorem AvgResponseMs_eq_truncatedMean_witness :
    ExactlyAveraged (latencies (oneAttemptStore.attempts.filter (fun a => a.SessionID = 1))) ∧
      ∃ summary,
        AttemptRepository.GetSessionSummary oneAttemptStore none none 1 = .ok summary ∧
        summary.AvgResponseMs =
          truncatedMean (latencies (oneAttemptStore.attempts.filter (fun a => a.SessionID = 1))) :=
  ⟨oneAttemptStore_exactlyAveraged,
    (AvgResponseMs_eq_truncatedMean oneAttemptStore none 1 1 DrillTypeNameSquare).1
      oneAttemptStore_exactlyAveraged⟩

theorem roundHalfEven_tie_example :
    roundHalfEven ((9007199254740993 : ℚ) / 2) = 4503599627370496 := by
  have hf : ⌊((9007199254740993 : ℚ) / 2)⌋ = 4503599627370496 := by
    rw [Int.floor_eq_iff]
    norm_num
  unfold roundHalfEven
  simp only [hf]
  norm_num

theorem F64.ofInt_two_pow_53_add_one :
    F64.ofInt 9007199254740993 = .finite 9007199254740992 := by
  unfold F64.ofInt
  rw [F64.round_pos _ 53 (by norm_num) (by norm_num) (by norm_num) (by norm_num)]
  have he : ((2 : ℚ) ^ ((53 : ℤ) - 52)) = 2 := by norm_num
  rw [he]
  have hx : (((9007199254740993 : ℤ) : ℚ) / 2) = (9007199254740993 : ℚ) / 2 := by norm_num
  rw [hx, roundHalfEven_tie_example]
  norm_num

theorem F64.round_two_pow_53 : F64.round 9007199254740992 = .finite 9007199254740992 := by
  rw [F64.round_pos _ 53 (by norm_num) (by norm_num) (by norm_num) (by norm_num)]
  have he : ((2 : ℚ) ^ ((53 : ℤ) - 52)) = 2 := by norm_num
  rw [he]
  have hx : ((9007199254740992 : ℚ) / 2) = ((4503599627370496 : ℤ) : ℚ) := by norm_num
  rw [hx, roundHalfEven_intCast]
  norm_num

theorem F64.ofInt_one : F64.ofInt 1 = .finite 1 := by
  have := F64.ofInt_natCast 1 (by norm_num)
  simpa using this

theorem floor_two_pow_53 : ⌊(9007199254740992 : ℚ)⌋ = 9007199254740992 := by
  rw [Int.floor_eq_iff]
  norm_num

theorem div_huge :
    F64.div (.finite 9007199254740992) (.finite 1) = .finite 9007199254740992 := by
  simp only [F64.div, one_ne_zero, if_false, div_one, F64.round_two_pow_53]

theorem toInt_huge : F64.toInt (.finite 9007199254740992) = 9007199254740992 := by
  simp only [F64.toInt, truncQ, floor_two_pow_53]
  norm_num

theorem mongoAvg_huge : (mongoAvg [9007199254740993]).toInt = 9007199254740992 := by
  have hsum : ([9007199254740993] : List ℤ).sum = 9007199254740993 := by simp
  have hlen : ((([9007199254740993] : List ℤ).length : ℕ) : ℤ) = 1 := by simp
  unfold mongoAvg
  rw [hlen, F64.ofInt_one, hsum, F64.ofInt_two_pow_53_add_one, div_huge, toInt_huge]

/-- C8 (counterexample): after one answer with a response time of `2 ^ 53 + 1`
milliseconds the session summary reports the average `2 ^ 53`, while the mean
of the stored response times, truncated toward zero, is `2 ^ 53 + 1`. -/
theorem AvgResponseMs_ne_truncatedMean_huge :
    AttemptRepository.GetSessionSummary hugeLatencyStore none none 1 =
        .ok { TotalAttempts := 1, Correct := 1, AvgResponseMs := 9007199254740992,
              StreakBest := 1 } ∧
      truncatedMean (latencies (hugeLatencyStore.attempts.filter (fun a => a.SessionID = 1))) =
        9007199254740993 := by
  constructor
  · rw [GetSessionSummary_of_ne_nil hugeLatencyStore none 1 (by decide)]
    have hl : (hugeLatencyStore.attempts.filter (fun a => a.SessionID = 1)).map
        (fun a => a.ResponseMs) = [9007199254740993] := rfl
    rw [hl, mongoAvg_huge]
    have hs : AttemptRepository.calculateBestStreak hugeLatencyStore none 1 = 1 := by decide
    rw [hs]
    have hlen : (hugeLatencyStore.attempts.filter (fun a => a.SessionID = 1)).length = 1 := by
      decide
    have hc : (hugeLatencyStore.attempts.filter (fun a => a.SessionID = 1)).countP
        (fun a => a.Correct) = 1 := by decide
    rw [hlen, hc]
    rfl
  · rw [truncatedMean_eq_tdiv]
    have hl : latencies (hugeLatencyStore.attempts.filter (fun a => a.SessionID = 1)) =
        [9007199254740993] := rfl
    rw [hl]
    simp

/-! ## Theorems: the four generators -/

theorem generatePieceMovementQuestion_of_hint (d : Draws) (pieceType : String)
    (h : pieceType ≠ "") :
    generatePieceMovementQuestion d pieceType =
      some { Typ := DrillTypePieceMovement
             Target := RandomSquare d.fileIdx d.rankIdx
             Prompt := "Where can the " ++ pieceType ++ " move?"
             FEN := String.intercalate "/"
               (fenRowsLoop (if pieceMap pieceType = Char.ofNat 0 then 'N' else pieceMap pieceType)
                 d.fileIdx.val d.rankIdx.val 8 []) ++ " w - - 0 1"
             Metadata := [("piece_type", pieceType)] } := by
  simp only [generatePieceMovementQuestion, generateSinglePieceFEN_RandomSquare, h, if_false]

theorem rook_encoding_letters (f r : Fin 8) :
    (String.intercalate "/" (fenRowsLoop 'R' f.val r.val 8 []) ++ " w - - 0 1").data.count 'R' = 1 ∧
      (placementPart (String.intercalate "/" (fenRowsLoop 'R' f.val r.val 8 []) ++
        " w - - 0 1")).filter Char.isAlpha = ['R'] := by
  revert f r
  decide

theorem knight_encoding_letters (f r : Fin 8) :
    (String.intercalate "/" (fenRowsLoop 'N' f.val r.val 8 []) ++ " w - - 0 1").data.count 'N' = 1 ∧
      (placementPart (String.intercalate "/" (fenRowsLoop 'N' f.val r.val 8 []) ++
        " w - - 0 1")).filter Char.isAlpha = ['N'] := by
  revert f r
  decide

/-- C17: for every outcome of the draws, `GenerateQuestion` for `piece_movement`
with the hint `"rook"` returns a question whose metadata entry `piece_type` is
`"rook"`, whose board encoding contains the letter `R` exactly once, and whose
placement part has that `R` as its only piece letter. -/
theorem GenerateQuestion_piece_movement_rook (d : Draws) :
    ∃ q, GenerateQuestion d DrillTypePieceMovement "rook" = some q ∧
      q.Metadata.lookup "piece_type" = some "rook" ∧
      q.FEN.data.count 'R' = 1 ∧
      (placementPart q.FEN).filter Char.isAlpha = ['R'] := by
  have hq : GenerateQuestion d DrillTypePieceMovement "rook" =
      generatePieceMovementQuestion d "rook" := by
    simp [GenerateQuestion, DrillTypePieceMovement, DrillTypeNameSquare, DrillTypeFindSquare]
  rw [hq, generatePieceMovementQuestion_of_hint d "rook" (by decide)]
  have hpiece : (if pieceMap "rook" = Char.ofNat 0 then 'N' else pieceMap "rook") = 'R' := by
    decide
  rw [hpiece]
  exact ⟨_, rfl, rfl, (rook_encoding_letters d.fileIdx d.rankIdx).1,
    (rook_encoding_letters d.fileIdx d.rankIdx).2⟩

/-- C18: for a drill type that is none of `name_square`, `find_square`,
`piece_movement`, `move_notation`, and any hint, `GenerateQuestion` does not
fail and returns what `generateNameSquareQuestion` returns for the same draws:
type `name_square`, the drawn square as target, an empty prompt, the
empty-board encoding and no metadata. -/
theorem GenerateQuestion_unknown_drill_type (d : Draws) (drillType : DrillType)
    (pieceType : String) (h1 : drillType ≠ DrillTypeNameSquare)
    (h2 : drillType ≠ DrillTypeFindSquare) (h3 : drillType ≠ DrillTypePieceMovement)
    (h4 : drillType ≠ DrillTypeMoveNotation) :
    GenerateQuestion d drillType pieceType = some (generateNameSquareQuestion d) ∧
      GenerateQuestion d drillType pieceType = GenerateQuestion d DrillTypeNameSquare pieceType ∧
      generateNameSquareQuestion d =
        { Typ := "name_square", Target := RandomSquare d.fileIdx d.rankIdx, Prompt := "",
          FEN := "8/8/8/8/8/8/8/8 w - - 0 1", Metadata := [] } := by
  refine ⟨?_, ?_, rfl⟩
  · simp only [GenerateQuestion, h1, h2, h3, h4, if_false]
  · simp only [GenerateQuestion, h1, h2, h3, h4, if_false, if_true]

theorem GenerateQuestion_unknown_drill_type_witness :
    (("" : DrillType) ≠ DrillTypeNameSquare ∧ ("" : DrillType) ≠ DrillTypeFindSquare ∧
        ("" : DrillType) ≠ DrillTypePieceMovement ∧ ("" : DrillType) ≠ DrillTypeMoveNotation) ∧
      GenerateQuestion ⟨0, 4, 3⟩ "" "rook" = some (generateNameSquareQuestion ⟨0, 4, 3⟩) :=
  ⟨by decide,
    (GenerateQuestion_unknown_drill_type ⟨0, 4, 3⟩ "" "rook" (by decide) (by decide) (by decide)
      (by decide)).1⟩

/-- C19: for every outcome of the draws and every hint, the `find_square`
question has its prompt equal to its target, the `name_square` question has an
empty prompt, and both carry the encoding `8/8/8/8/8/8/8/8 w - - 0 1`, which
decodes to eight ranks of eight empty squares and has no piece letter. -/
theorem find_and_name_square_questions (d : Draws) (pieceType : String) :
    (∃ q, GenerateQuestion d DrillTypeFindSquare pieceType = some q ∧
        q.Prompt = q.Target ∧ q.FEN = "8/8/8/8/8/8/8/8 w - - 0 1") ∧
    (∃ q, GenerateQuestion d DrillTypeNameSquare pieceType = some q ∧
        q.Prompt = "" ∧ q.FEN = "8/8/8/8/8/8/8/8 w - - 0 1") ∧
    decodePlacement (placementPart "8/8/8/8/8/8/8/8 w - - 0 1") =
      List.replicate 8 (List.replicate 8 none) ∧
    pieceLetterCount (placementPart "8/8/8/8/8/8/8/8 w - - 0 1") = 0 := by
  refine ⟨⟨generateFindSquareQuestion d, ?_, rfl, rfl⟩,
    ⟨generateNameSquareQuestion d, ?_, rfl, rfl⟩, by decide, by decide⟩
  · simp [GenerateQuestion, DrillTypeFindSquare, DrillTypeNameSquare]
  · simp [GenerateQuestion]

/-- C20: for every hint and every outcome of the draws, `GenerateQuestion` for
`move_notation` returns the same question as without a hint; its metadata entry
`piece_type` is `"knight"`, its board encoding contains the letter `N` exactly
once, and its placement part has that `N` as its only piece letter. -/
theorem GenerateQuestion_move_notation_knight (d : Draws) (pieceType : String) :
    GenerateQuestion d DrillTypeMoveNotation pieceType =
        GenerateQuestion d DrillTypeMoveNotation "" ∧
      ∃ q, GenerateQuestion d DrillTypeMoveNotation pieceType = some q ∧
        q.Metadata.lookup "piece_type" = some "knight" ∧
        q.FEN.data.count 'N' = 1 ∧
        (placementPart q.FEN).filter Char.isAlpha = ['N'] := by
  have hq : ∀ hint : String, GenerateQuestion d DrillTypeMoveNotation hint =
      generatePieceMovementQuestion d "knight" := by
    intro hint
    simp [GenerateQuestion, generateMoveNotationQuestion, DrillTypeMoveNotation,
      DrillTypePieceMovement, DrillTypeNameSquare, DrillTypeFindSquare]
  refine ⟨by rw [hq, hq], ?_⟩
  rw [hq, generatePieceMovementQuestion_of_hint d "knight" (by decide)]
  have hpiece : (if pieceMap "knight" = Char.ofNat 0 then 'N' else pieceMap "knight") = 'N' := by
    decide
  rw [hpiece]
  exact ⟨_, rfl, rfl, (knight_encoding_letters d.fileIdx d.rankIdx).1,
    (knight_encoding_letters d.fileIdx d.rankIdx).2⟩

/-! ## Theorems: heat-map entries -/

theorem GetSquareAccuracy_eq (db : Store) (userID : ObjectID) :
    AttemptRepository.GetSquareAccuracy db none userID =
      .ok (((db.attempts.filter (fun a => a.UserID = userID)).map
          (fun a => a.CorrectAnswer)).dedup.map
        (squareEntry (db.attempts.filter (fun a => a.UserID = userID)))) := by
  simp only [AttemptRepository.GetSquareAccuracy, driverCall, groupBySquare, List.map_map]
  rfl

theorem map_Square_squareEntry (docs : List Attempt) (keys : List String) :
    (keys.map (squareEntry docs)).map (fun acc => acc.Square) = keys := by
  rw [List.map_map]
  exact List.map_id _

theorem GetHeatmapData_eq (db : Store) (userID : ObjectID) :
    StatsService.GetHeatmapData db none userID =
      .ok { Squares :=
        (((db.attempts.filter (fun a => a.UserID = userID)).map
            (fun a => a.CorrectAnswer)).dedup.map
          (squareEntry (db.attempts.filter (fun a => a.UserID = userID)))) ++
        (boardSquares.filter (fun sq => decide (¬ (sq ∈
            ((db.attempts.filter (fun a => a.UserID = userID)).map
              (fun a => a.CorrectAnswer)).dedup)))).map emptySquareEntry } := by
  simp only [StatsService.GetHeatmapData, GetSquareAccuracy_eq, fillMissingSquares_eq,
    map_Square_squareEntry]
  rfl

theorem countP_user_key (db : Store) (userID : ObjectID) (k : String) :
    (db.attempts.filter (fun a => a.UserID = userID)).countP (fun a => a.CorrectAnswer = k) =
      db.attempts.countP (fun a => a.UserID = userID ∧ a.CorrectAnswer = k) := by
  rw [List.countP_filter]
  congr 1
  funext a
  simp [Bool.and_comm]

theorem countP_user_key_correct (db : Store) (userID : ObjectID) (k : String) :
    (db.attempts.filter (fun a => a.UserID = userID)).countP
        (fun a => a.CorrectAnswer = k ∧ a.Correct = true) =
      db.attempts.countP
        (fun a => a.UserID = userID ∧ a.CorrectAnswer = k ∧ a.Correct = true) := by
  rw [List.countP_filter]
  congr 1
  funext a
  simp [Bool.and_comm, Bool.and_assoc]

/-- C11: with the aggregation succeeding, for every key `k` that is the stored
expected answer of at least one attempt of the user the heat map has an entry
for `k`, and every entry for `k` has `Total` the number of the user's attempts
with expected answer `k`, `Correct` the number of those marked correct and
`Accuracy` the `float64` value of `Correct / Total * 100`; for every board
square without such an attempt the heat map has an entry, and every entry for
it has `Total`, `Correct` and `Accuracy` equal to 0. -/
theorem GetHeatmapData_entries (db : Store) (userID : ObjectID) :
    ∃ heatmap, StatsService.GetHeatmapData db none userID = .ok heatmap ∧
      (∀ k, (∃ a ∈ db.attempts, a.UserID = userID ∧ a.CorrectAnswer = k) →
        (∃ acc ∈ heatmap.Squares, acc.Square = k) ∧
        ∀ acc ∈ heatmap.Squares, acc.Square = k →
          acc.Total =
            (db.attempts.countP (fun a => a.UserID = userID ∧ a.CorrectAnswer = k) : Int) ∧
          acc.Correct =
            (db.attempts.countP
              (fun a => a.UserID = userID ∧ a.CorrectAnswer = k ∧ a.Correct = true) : Int) ∧
          0 < acc.Total ∧
          acc.Accuracy =
            F64.mul (F64.div (F64.ofInt acc.Correct) (F64.ofInt acc.Total)) (.finite 100)) ∧
      (∀ sq ∈ boardSquares, (∀ a ∈ db.attempts, a.UserID = userID → a.CorrectAnswer ≠ sq) →
        (∃ acc ∈ heatmap.Squares, acc.Square = sq) ∧
        ∀ acc ∈ heatmap.Squares, acc.Square = sq →
          acc = { Square := sq, Total := 0, Correct := 0, Accuracy := .finite 0 }) := by
  refine ⟨_, GetHeatmapData_eq db userID, ?_, ?_⟩
  · intro k hk
    obtain ⟨a0, ha0, hu0, hk0⟩ := hk
    have hmem : k ∈ ((db.attempts.filter (fun a => a.UserID = userID)).map
        (fun a => a.CorrectAnswer)).dedup := by
      rw [List.mem_dedup, List.mem_map]
      exact ⟨a0, List.mem_filter.mpr ⟨ha0, by simpa using hu0⟩, hk0⟩
    have hpos : 0 < (db.attempts.filter (fun a => a.UserID = userID)).countP
        (fun a => a.CorrectAnswer = k) := by
      rw [List.countP_pos_iff]
      exact ⟨a0, List.mem_filter.mpr ⟨ha0, by simpa using hu0⟩, by simpa using hk0⟩
    constructor
    · refine ⟨squareEntry (db.attempts.filter (fun a => a.UserID = userID)) k, ?_, rfl⟩
      exact List.mem_append_left _ (List.mem_map.mpr ⟨k, hmem, rfl⟩)
    · intro acc hacc hsq
      simp only at hacc
      rcases List.mem_append.mp hacc with h | h
      · obtain ⟨key, -, rfl⟩ := List.mem_map.mp h
        have hkey : key = k := hsq
        subst hkey
        have hposI : (0 : Int) < ((db.attempts.filter (fun a => a.UserID = userID)).countP
            (fun a => a.CorrectAnswer = key) : Nat) := by exact_mod_cast hpos
        refine ⟨?_, ?_, hposI, ?_⟩
        · simp only [squareEntry, countP_user_key]
        · simp only [squareEntry, countP_user_key_correct]
        · simp only [squareEntry, gt_iff_lt, hposI, if_true]
      · obtain ⟨sq, hsqmem, rfl⟩ := List.mem_map.mp h
        have hk' : sq = k := hsq
        subst hk'
        rw [List.mem_filter] at hsqmem
        exact absurd hmem (by simpa using hsqmem.2)
  · intro sq hsq hnone
    have hnot : ¬ (sq ∈ ((db.attempts.filter (fun a => a.UserID = userID)).map
        (fun a => a.CorrectAnswer)).dedup) := by
      rw [List.mem_dedup, List.mem_map]
      rintro ⟨a, ha, hka⟩
      rw [List.mem_filter] at ha
      exact hnone a ha.1 (by simpa using ha.2) hka
    constructor
    · refine ⟨emptySquareEntry sq, ?_, rfl⟩
      apply List.mem_append_right
      exact List.mem_map.mpr ⟨sq, List.mem_filter.mpr ⟨hsq, by simpa using hnot⟩, rfl⟩
    · intro acc hacc hsq2
      simp only at hacc
      rcases List.mem_append.mp hacc with h | h
      · obtain ⟨key, hkey, rfl⟩ := List.mem_map.mp h
        have : key = sq := hsq2
        subst this
        exact absurd hkey hnot
      · obtain ⟨sq2, -, rfl⟩ := List.mem_map.mp h
        have : sq2 = sq := hsq2
        subst this
        rfl

/-! ## Theorems: overall statistics -/

/-- What one iteration of the loop of `StatsService.GetOverallStats` contributes
for the drill type `dt`. -/
theorem foldl_appendDrillStats (db : Store) (drillFault : DrillType → Option Error)
    (userID : ObjectID) (l : List DrillType) (stats : OverallStats) :
    l.foldl (appendDrillStats db drillFault userID) stats =
      { stats with
        DrillStats := stats.DrillStats ++ l.filterMap (fun dt =>
          match AttemptRepository.GetDrillStats db (drillFault dt) userID dt with
          | .error _ => none
          | .ok drillStats => if drillStats.TotalAttempts > 0 then some drillStats else none) } := by
  induction l generalizing stats with
  | nil => simp
  | cons dt l ih =>
    rw [List.foldl_cons, ih]
    unfold appendDrillStats
    cases h : AttemptRepository.GetDrillStats db (drillFault dt) userID dt with
    | error e => simp [List.filterMap_cons, h]
    | ok ds =>
      by_cases hpos : ds.TotalAttempts > 0
      · simp [List.filterMap_cons, h, hpos]
      · simp [List.filterMap_cons, h, hpos]

theorem GetDrillStats_selected (db : Store) (userID : ObjectID) (dt : DrillType) :
    (match AttemptRepository.GetDrillStats db none userID dt with
      | .error _ => none
      | .ok drillStats => if drillStats.TotalAttempts > 0 then some drillStats else none) =
    if (∃ a ∈ db.attempts, a.UserID = userID ∧ a.DrillType = dt) then
      some (drillStatsOf
        (db.attempts.filter (fun a => a.UserID = userID ∧ a.DrillType = dt)) dt)
    else none := by
  by_cases h : db.attempts.filter (fun a => a.UserID = userID ∧ a.DrillType = dt) = []
  · have hno : ¬ (∃ a ∈ db.attempts, a.UserID = userID ∧ a.DrillType = dt) := by
      rintro ⟨a, ha, hp⟩
      have : a ∈ db.attempts.filter (fun a => a.UserID = userID ∧ a.DrillType = dt) :=
        List.mem_filter.mpr ⟨ha, by simpa using hp⟩
      rw [h] at this
      exact List.not_mem_nil _ this
    rw [GetDrillStats_of_nil db userID dt h, if_neg hno]
    simp
  · have hyes : ∃ a ∈ db.attempts, a.UserID = userID ∧ a.DrillType = dt := by
      obtain ⟨a, ha⟩ := List.exists_mem_of_ne_nil _ h
      rw [List.mem_filter] at ha
      exact ⟨a, ha.1, by simpa using ha.2⟩
    have hpos : (0 : Int) <
        ((db.attempts.filter (fun a => a.UserID = userID ∧ a.DrillType = dt)).length : Int) := by
      have := List.length_pos.mpr h
      exact_mod_cast this
    rw [GetDrillStats_of_ne_nil db userID dt h, if_pos hyes]
    simp only [gt_iff_lt, hpos, if_true]
    rfl

theorem filterMap_ite_some {α β : Type} (P : α → Prop) [DecidablePred P] (g : α → β)
    (l : List α) :
    l.filterMap (fun x => if P x then some (g x) else none) =
      (l.filter (fun x => decide (P x))).map g := by
  induction l with
  | nil => rfl
  | cons x l ih =>
    by_cases h : P x <;> simp [List.filterMap_cons, List.filter_cons, h, ih]

theorem AttemptRepository_GetOverallStats_ok (db : Store) (userID : ObjectID) :
    ∃ stats, AttemptRepository.GetOverallStats db none userID = .ok stats ∧
      stats.DrillStats = [] := by
  by_cases h : db.attempts.filter (fun a => a.UserID = userID) = []
  · exact ⟨_, GetOverallStats_of_nil db userID h, rfl⟩
  · exact ⟨_, GetOverallStats_of_ne_nil db userID h, rfl⟩

/-- C12: when all persistence calls succeed, the `DrillStats` list returned by
`StatsService.GetOverallStats` lists, in the order `name_square`,
`find_square`, `piece_movement`, `move_notation`, exactly the drill types for
which the user has at least one attempt, once each; every entry is the result of
`GetDrillStats` for its drill type and has `TotalAttempts > 0`. -/
theorem StatsService_GetOverallStats_DrillStats (db : Store) (userID : ObjectID) :
    ∃ stats, StatsService.GetOverallStats db none none (fun _ => none) userID = .ok stats ∧
      stats.DrillStats.map (fun ds => ds.DrillType) =
        ["name_square", "find_square", "piece_movement", "move_notation"].filter
          (fun dt => decide (∃ a ∈ db.attempts, a.UserID = userID ∧ a.DrillType = dt)) ∧
      ∀ ds ∈ stats.DrillStats,
        0 < ds.TotalAttempts ∧
        AttemptRepository.GetDrillStats db none userID ds.DrillType = .ok ds := by
  obtain ⟨stats0, h0, hnil⟩ := AttemptRepository_GetOverallStats_ok db userID
  have hsel := fun dt => GetDrillStats_selected db userID dt
  have hget : StatsService.GetOverallStats db none none (fun _ => none) userID =
      .ok { stats0 with
            TotalSessions := (db.drillSessions.countP (fun s => s.UserID = userID) : Nat)
            DrillStats :=
              (drillTypes.filter (fun dt =>
                decide (∃ a ∈ db.attempts, a.UserID = userID ∧ a.DrillType = dt))).map
                (fun dt => drillStatsOf
                  (db.attempts.filter (fun a => a.UserID = userID ∧ a.DrillType = dt)) dt) } := by
    simp only [StatsService.GetOverallStats, h0, DrillSessionRepository.CountByUserID,
      foldl_appendDrillStats, hnil, List.nil_append, hsel, filterMap_ite_some]
  refine ⟨_, hget, ?_, ?_⟩
  · simp only [List.map_map]
    exact List.map_id _
  · intro ds hds
    simp only [List.mem_map, List.mem_filter, decide_eq_true_eq] at hds
    obtain ⟨dt, ⟨-, hex⟩, rfl⟩ := hds
    have hne : db.attempts.filter (fun a => a.UserID = userID ∧ a.DrillType = dt) ≠ [] := by
      obtain ⟨a, ha, hp⟩ := hex
      intro hnil'
      have : a ∈ db.attempts.filter (fun a => a.UserID = userID ∧ a.DrillType = dt) :=
        List.mem_filter.mpr ⟨ha, by simpa using hp⟩
      rw [hnil'] at this
      exact List.not_mem_nil _ this
    constructor
    · have := List.length_pos.mpr hne
      show (0 : Int) < ((db.attempts.filter
        (fun a => a.UserID = userID ∧ a.DrillType = dt)).length : Int)
      exact_mod_cast this
    · exact GetDrillStats_of_ne_nil db userID dt hne

/-! ## Lemmas on the session update -/

theorem updateByID_of_no_match (id : ObjectID) (t : Time) (summary : DrillSessionSummary)
    (l : List DrillSession) (h : ∀ s ∈ l, s.ID ≠ id) : updateByID id t summary l = (l, 0) := by
  induction l with
  | nil => rfl
  | cons s rest ih =>
    have hs : s.ID ≠ id := h s (List.mem_cons_self _ _)
    have hrest := ih (fun x hx => h x (List.mem_cons_of_mem _ hx))
    simp only [updateByID, hs, if_false, hrest]

theorem updateByID_of_split (id : ObjectID) (t : Time) (summary : DrillSessionSummary)
    (pre post : List DrillSession) (s : DrillSession) (hpre : ∀ x ∈ pre, x.ID ≠ id)
    (hs : s.ID = id) :
    updateByID id t summary (pre ++ s :: post) =
      (pre ++ { s with EndedAt := some t, Summary := summary } :: post, 1) := by
  induction pre with
  | nil => simp only [List.nil_append, updateByID, hs, if_true]
  | cons x pre ih =>
    have hx : x.ID ≠ id := hpre x (List.mem_cons_self _ _)
    have := ih (fun y hy => hpre y (List.mem_cons_of_mem _ hy))
    show updateByID id t summary (x :: (pre ++ s :: post)) = _
    simp only [updateByID, hx, if_false, this, List.cons_append]

theorem updateByID_matched_eq_zero_iff (id : ObjectID) (t : Time) (summary : DrillSessionSummary)
    (l : List DrillSession) :
    (updateByID id t summary l).2 = 0 ↔ ∀ s ∈ l, s.ID ≠ id := by
  induction l with
  | nil => simp [updateByID]
  | cons s rest ih =>
    by_cases hs : s.ID = id
    · simp [updateByID, hs]
    · simp [updateByID, hs, ih]

theorem updateByID_map_ID (id : ObjectID) (t : Time) (summary : DrillSessionSummary)
    (l : List DrillSession) :
    (updateByID id t summary l).1.map (fun s => s.ID) = l.map (fun s => s.ID) := by
  induction l with
  | nil => rfl
  | cons s rest ih =>
    by_cases hs : s.ID = id
    · simp [updateByID, hs]
    · simp [updateByID, hs, ih]

theorem updateByID_filter_ne (id : ObjectID) (t : Time) (summary : DrillSessionSummary)
    (l : List DrillSession) :
    (updateByID id t summary l).1.filter (fun s => decide (s.ID ≠ id)) =
      l.filter (fun s => decide (s.ID ≠ id)) := by
  induction l with
  | nil => rfl
  | cons s rest ih =>
    by_cases hs : s.ID = id
    · simp [updateByID, hs, List.filter_cons]
    · simp only [updateByID, hs, if_false, List.filter_cons, ih]

theorem exists_split_of_mem_ID (id : ObjectID) (l : List DrillSession)
    (h : ∃ s ∈ l, s.ID = id) :
    ∃ pre s post, l = pre ++ s :: post ∧ (∀ x ∈ pre, x.ID ≠ id) ∧ s.ID = id := by
  induction l with
  | nil =>
    obtain ⟨s, hs, -⟩ := h
    exact absurd hs (List.not_mem_nil _)
  | cons x rest ih =>
    by_cases hx : x.ID = id
    · exact ⟨[], x, rest, rfl, fun _ h => absurd h (List.not_mem_nil _), hx⟩
    · obtain ⟨s, hs, hsid⟩ := h
      have hrest : ∃ s ∈ rest, s.ID = id := by
        rcases List.mem_cons.mp hs with rfl | hmem
        · exact absurd hsid hx
        · exact ⟨s, hmem, hsid⟩
      obtain ⟨pre, s', post, hl, hpre, hs'⟩ := ih hrest
      refine ⟨x :: pre, s', post, by rw [hl]; rfl, ?_, hs'⟩
      intro y hy
      rcases List.mem_cons.mp hy with rfl | hmem
      · exact hx
      · exact hpre y hmem

/-! ## Lemmas on `StartSession` and `EndSession` -/

theorem GetSessionSummary_ok (db : Store) (streakFault : Option Error) (sessionID : ObjectID) :
    ∃ summary, AttemptRepository.GetSessionSummary db none streakFault sessionID = .ok summary := by
  by_cases h : db.attempts.filter (fun a => a.SessionID = sessionID) = []
  · exact ⟨_, GetSessionSummary_of_nil db streakFault sessionID h⟩
  · exact ⟨_, GetSessionSummary_of_ne_nil db streakFault sessionID h⟩

theorem GetSessionSummary_of_fault (db : Store) (err : Error) (streakFault : Option Error)
    (sessionID : ObjectID) :
    AttemptRepository.GetSessionSummary db (some err) streakFault sessionID = .error err := by
  simp only [AttemptRepository.GetSessionSummary, driverCall]

theorem EndSession_of_exists (db : Store) (streakFault : Option Error) (now : Time)
    (id : ObjectID) (summary : DrillSessionSummary)
    (hsum : AttemptRepository.GetSessionSummary db none streakFault id = .ok summary)
    (hex : ∃ s ∈ db.drillSessions, s.ID = id) :
    EndSession db none streakFault none now id =
      ({ db with drillSessions := (updateByID id now summary db.drillSessions).1 },
        .ok summary) := by
  have hm : ¬ ((updateByID id now summary db.drillSessions).2 = 0) := by
    rw [updateByID_matched_eq_zero_iff]
    obtain ⟨s, hs, hid⟩ := hex
    exact fun hall => hall s hs hid
  simp only [EndSession, hsum, DrillSessionRepository.EndSession, hm, if_false]

theorem EndSession_of_no_match (db : Store) (streakFault : Option Error) (now : Time)
    (id : ObjectID) (hno : ∀ s ∈ db.drillSessions, s.ID ≠ id) :
    EndSession db none streakFault none now id = (db, .error Error.ErrDrillSessionNotFound) := by
  obtain ⟨summary, hsum⟩ := GetSessionSummary_ok db streakFault id
  simp only [EndSession, hsum, DrillSessionRepository.EndSession,
    updateByID_of_no_match id now summary db.drillSessions hno, if_true]

theorem EndSession_ok_inv (db db1 : Store) (fault streakFault updateFault : Option Error)
    (now : Time) (id : ObjectID) (summary : DrillSessionSummary)
    (h : EndSession db fault streakFault updateFault now id = (db1, .ok summary)) :
    AttemptRepository.GetSessionSummary db fault streakFault id = .ok summary ∧
      (∃ s ∈ db.drillSessions, s.ID = id) ∧
      db1 = { db with drillSessions := (updateByID id now summary db.drillSessions).1 } := by
  unfold EndSession at h
  cases hsum : AttemptRepository.GetSessionSummary db fault streakFault id with
  | error e =>
    rw [hsum] at h
    simp at h
  | ok summary0 =>
    rw [hsum] at h
    cases updateFault with
    | some e => simp [DrillSessionRepository.EndSession] at h
    | none =>
      by_cases hm : (updateByID id now summary0 db.drillSessions).2 = 0
      · simp [DrillSessionRepository.EndSession, hm] at h
      · simp only [DrillSessionRepository.EndSession, hm, if_false, Prod.mk.injEq,
          Except.ok.injEq] at h
        obtain ⟨hdb, hs⟩ := h
        subst hs
        refine ⟨rfl, ?_, hdb.symm⟩
        by_contra hne
        apply hm
        rw [updateByID_matched_eq_zero_iff]
        intro s hs hid
        exact hne ⟨s, hs, hid⟩

theorem mem_ID_of_updateByID (id id2 : ObjectID) (t : Time) (summary : DrillSessionSummary)
    (l : List DrillSession) (h : ∃ s ∈ l, s.ID = id2) :
    ∃ s ∈ (updateByID id t summary l).1, s.ID = id2 := by
  obtain ⟨s, hs, hid⟩ := h
  have h1 : id2 ∈ l.map (fun s => s.ID) := List.mem_map.mpr ⟨s, hs, hid⟩
  rw [← updateByID_map_ID id t summary l] at h1
  obtain ⟨s', hs', hid'⟩ := List.mem_map.mp h1
  exact ⟨s', hs', hid'⟩

/-! ## Theorems: ending a session -/

/-- C15: for a session identifier that matches no stored drill session,
`EndSession` with working persistence returns `ErrDrillSessionNotFound` and no
summary; whatever the driver does, it returns an error and no summary, and it
leaves the drill-session collection and the attempt collection as they were. -/
theorem EndSession_unknown_session (db : Store) (sessionID : ObjectID)
    (hno : ∀ s ∈ db.drillSessions, s.ID ≠ sessionID) :
    (∀ (streakFault : Option Error) (now : Time),
      EndSession db none streakFault none now sessionID =
        (db, .error Error.ErrDrillSessionNotFound)) ∧
    (∀ (fault streakFault updateFault : Option Error) (now : Time),
      ∃ err, EndSession db fault streakFault updateFault now sessionID = (db, .error err)) := by
  constructor
  · intro streakFault now
    exact EndSession_of_no_match db streakFault now sessionID hno
  · intro fault streakFault updateFault now
    cases fault with
    | some e =>
      exact ⟨e, by simp only [EndSession, GetSessionSummary_of_fault]⟩
    | none =>
      cases updateFault with
      | some e =>
        obtain ⟨summary, hsum⟩ := GetSessionSummary_ok db streakFault sessionID
        exact ⟨e, by simp only [EndSession, hsum, DrillSessionRepository.EndSession]⟩
      | none => exact ⟨_, EndSession_of_no_match db streakFault now sessionID hno⟩

theorem EndSession_unknown_session_witness :
    (∀ s ∈ startedStore.drillSessions, s.ID ≠ 2) ∧
      EndSession startedStore none none none 10 2 =
        (startedStore, .error Error.ErrDrillSessionNotFound) :=
  ⟨by decide, (EndSession_unknown_session startedStore 2 (by decide)).1 none 10⟩

/-- C13 (as amended): after an `EndSession` call that succeeded, a second
`EndSession` call with the same session identifier whose persistence calls
succeed does not fail: it returns the summary recomputed from the stored
attempts of the session and writes it, with the new end time, onto the session
record. -/
theorem EndSession_again_succeeds (db db1 : Store) (fault streakFault updateFault : Option Error)
    (now : Time) (sessionID : ObjectID) (summary : DrillSessionSummary)
    (hfirst : EndSession db fault streakFault updateFault now sessionID = (db1, .ok summary))
    (streakFault2 : Option Error) (now2 : Time) :
    ∃ summary2 db2,
      AttemptRepository.GetSessionSummary db1 none streakFault2 sessionID = .ok summary2 ∧
      EndSession db1 none streakFault2 none now2 sessionID = (db2, .ok summary2) ∧
      db2.attempts = db1.attempts ∧
      ∃ s ∈ db2.drillSessions,
        s.ID = sessionID ∧ s.EndedAt = some now2 ∧ s.Summary = summary2 := by
  obtain ⟨-, hex, hdb1⟩ := EndSession_ok_inv db db1 fault streakFault updateFault now sessionID
    summary hfirst
  have hex1 : ∃ s ∈ db1.drillSessions, s.ID = sessionID := by
    rw [hdb1]
    exact mem_ID_of_updateByID sessionID sessionID now summary db.drillSessions hex
  obtain ⟨summary2, hsum2⟩ := GetSessionSummary_ok db1 streakFault2 sessionID
  refine ⟨summary2, _, hsum2, EndSession_of_exists db1 streakFault2 now2 sessionID summary2 hsum2
    hex1, rfl, ?_⟩
  obtain ⟨pre, s, post, hl, hpre, hs⟩ := exists_split_of_mem_ID sessionID db1.drillSessions hex1
  refine ⟨{ s with EndedAt := some now2, Summary := summary2 }, ?_, hs, rfl, rfl⟩
  simp only [hl, updateByID_of_split sessionID now2 summary2 pre post s hpre hs]
  exact List.mem_append_right _ (List.mem_cons_self _ _)

theorem EndSession_again_succeeds_witness :
    EndSession startedStore none none none 10 1 =
        (endedOnceStore, .ok { TotalAttempts := 0, Correct := 0, AvgResponseMs := 0,
                               StreakBest := 0 }) ∧
      ∃ summary2 db2,
        AttemptRepository.GetSessionSummary endedOnceStore none none 1 = .ok summary2 ∧
        EndSession endedOnceStore none none none 20 1 = (db2, .ok summary2) ∧
        db2.attempts = endedOnceStore.attempts ∧
        ∃ s ∈ db2.drillSessions, s.ID = 1 ∧ s.EndedAt = some 20 ∧ s.Summary = summary2 :=
  ⟨rfl, EndSession_again_succeeds startedStore endedOnceStore none none none 10 1 _ rfl none 20⟩

/-- C13 (counterexample): session `1` is ended successfully at time `10`; the
second `EndSession` call for it, at time `20`, succeeds as well instead of
returning an error. -/
theorem EndSession_twice_no_error :
    EndSession startedStore none none none 10 1 =
        (endedOnceStore, .ok { TotalAttempts := 0, Correct := 0, AvgResponseMs := 0,
                               StreakBest := 0 }) ∧
      (EndSession endedOnceStore none none none 20 1).2 =
        .ok { TotalAttempts := 0, Correct := 0, AvgResponseMs := 0, StreakBest := 0 } := by
  constructor <;> rfl

theorem EndSession_frame (db : Store) (fault streakFault updateFault : Option Error) (now : Time)
    (id : ObjectID) :
    (EndSession db fault streakFault updateFault now id).1.attempts = db.attempts ∧
      (EndSession db fault streakFault updateFault now id).1.drillSessions.map (fun s => s.ID) =
        db.drillSessions.map (fun s => s.ID) ∧
      (EndSession db fault streakFault updateFault now id).1.drillSessions.filter
          (fun s => decide (s.ID ≠ id)) =
        db.drillSessions.filter (fun s => decide (s.ID ≠ id)) := by
  unfold EndSession
  cases hsum : AttemptRepository.GetSessionSummary db fault streakFault id with
  | error e => exact ⟨rfl, rfl, rfl⟩
  | ok summary =>
    cases updateFault with
    | some e => exact ⟨rfl, rfl, rfl⟩
    | none =>
      by_cases hm : (updateByID id now summary db.drillSessions).2 = 0
      · have hE : DrillSessionRepository.EndSession db none now id summary =
            ({ db with drillSessions := (updateByID id now summary db.drillSessions).1 },
              some Error.ErrDrillSessionNotFound) := by
          simp only [DrillSessionRepository.EndSession, hm, if_true]
        dsimp only
        rw [hE]
        exact ⟨rfl, updateByID_map_ID _ _ _ _, updateByID_filter_ne _ _ _ _⟩
      · have hE : DrillSessionRepository.EndSession db none now id summary =
            ({ db with drillSessions := (updateByID id now summary db.drillSessions).1 },
              none) := by
          simp only [DrillSessionRepository.EndSession, hm, if_false]
        dsimp only
        rw [hE]
        exact ⟨rfl, updateByID_map_ID _ _ _ _, updateByID_filter_ne _ _ _ _⟩

theorem EndSession_of_split (db : Store) (streakFault : Option Error) (now : Time)
    (id : ObjectID) (pre post : List DrillSession) (s : DrillSession)
    (summary : DrillSessionSummary)
    (hsum : AttemptRepository.GetSessionSummary db none streakFault id = .ok summary)
    (hsplit : db.drillSessions = pre ++ s :: post) (hpre : ∀ x ∈ pre, x.ID ≠ id)
    (hs : s.ID = id) :
    EndSession db none streakFault none now id =
      ({ attempts := db.attempts
         drillSessions := pre ++ { s with EndedAt := some now, Summary := summary } :: post },
        .ok summary) := by
  have hex : ∃ x ∈ db.drillSessions, x.ID = id := by
    rw [hsplit]
    exact ⟨s, List.mem_append_right _ (List.mem_cons_self _ _), hs⟩
  rw [EndSession_of_exists db streakFault now id summary hsum hex, hsplit,
    updateByID_of_split id now summary pre post s hpre hs]

/-- C14 (as amended): `StartSession` only appends to the drill-session
collection and `CheckAnswer` does not touch it, so neither changes a stored
session; `EndSession` leaves every session with another identifier exactly as it
was. An `EndSession` call with the identifier of a stored session, ended or
not, that succeeds overwrites the end time and the summary of that session with
the current time and the recomputed summary. -/
theorem ended_session_frame (db : Store) :
    (∀ (fault : Option Error) (newID : ObjectID) (now : Time) (d : Draws) (userID : ObjectID)
        (drillType : DrillType) (inputMethod : InputMethod) (perspective : String),
      db.drillSessions <+:
          (StartSession db fault newID now d userID drillType inputMethod
            perspective).1.drillSessions ∧
        (StartSession db fault newID now d userID drillType inputMethod perspective).1.attempts =
          db.attempts) ∧
    (∀ (caseRanges : Char → Char) (fault : Option Error) (newID : ObjectID) (now : Time)
        (d : Draws) (sessionID userID : ObjectID) (drillType : DrillType)
        (question e s : String) (responseMs : Int),
      (CheckAnswer caseRanges db fault newID now d sessionID userID drillType question e s
        responseMs).1.drillSessions = db.drillSessions) ∧
    (∀ (fault streakFault updateFault : Option Error) (now : Time) (id : ObjectID),
      (EndSession db fault streakFault updateFault now id).1.drillSessions.filter
          (fun s => decide (s.ID ≠ id)) =
        db.drillSessions.filter (fun s => decide (s.ID ≠ id))) ∧
    (∀ (streakFault : Option Error) (now : Time) (id : ObjectID) (pre post : List DrillSession)
        (s : DrillSession) (summary : DrillSessionSummary),
      AttemptRepository.GetSessionSummary db none streakFault id = .ok summary →
      db.drillSessions = pre ++ s :: post → (∀ x ∈ pre, x.ID ≠ id) → s.ID = id →
      (EndSession db none streakFault none now id).1.drillSessions =
        pre ++ { s with EndedAt := some now, Summary := summary } :: post) := by
  refine ⟨?_, ?_, ?_, ?_⟩
  · intro fault newID now d userID drillType inputMethod perspective
    unfold StartSession DrillSessionRepository.Create
    cases fault with
    | some e => exact ⟨List.prefix_refl _, rfl⟩
    | none =>
      cases hq : GenerateQuestion d drillType "" with
      | none => exact ⟨List.prefix_append _ _, rfl⟩
      | some q => exact ⟨List.prefix_append _ _, rfl⟩
  · intro caseRanges fault newID now d sessionID userID drillType question e s responseMs
    unfold CheckAnswer AttemptRepository.Create
    cases fault with
    | some e => rfl
    | none =>
      cases hq : GenerateQuestion d drillType "" with
      | none => rfl
      | some q => rfl
  · intro fault streakFault updateFault now id
    exact (EndSession_frame db fault streakFault updateFault now id).2.2
  · intro streakFault now id pre post s summary hsum hsplit hpre hs
    rw [EndSession_of_split db streakFault now id pre post s summary hsum hsplit hpre hs]

/-- C14 (counterexample): session `1` is ended at time `10` with the all-zero
summary; after one more recorded answer and a second `EndSession` call at time
`20` its stored end time is `20` and its stored summary counts one attempt. -/
theorem ended_session_overwritten :
    endedOnceStore.drillSessions.map (fun s => (s.ID, s.EndedAt, s.Summary.TotalAttempts)) =
        [(1, some 10, 0)] ∧
      endedTwiceStore.drillSessions.map (fun s => (s.ID, s.EndedAt, s.Summary.TotalAttempts)) =
        [(1, some 20, 1)] := by
  constructor <;> decide

theorem StartSession_inserted (db : Store) (newID : ObjectID) (now : Time) (d : Draws)
    (userID : ObjectID) (drillType : DrillType) (inputMethod : InputMethod)
    (perspective : String) :
    ∃ q, GenerateQuestion d drillType "" = some q ∧
      StartSession db none newID now d userID drillType inputMethod perspective =
        ({ attempts := db.attempts
           drillSessions := db.drillSessions ++
             [{ NewDrillSession userID drillType inputMethod perspective now with ID := newID }] },
         some ⟨some { NewDrillSession userID drillType inputMethod perspective now with
                      ID := newID }, some q, none⟩) := by
  obtain ⟨q, hq, -⟩ := GenerateQuestion_some d drillType ""
  exact ⟨q, hq, by simp only [StartSession, DrillSessionRepository.Create, hq]⟩

theorem calculateBestStreak_of_fault (db : Store) (err : Error) (sessionID : ObjectID) :
    AttemptRepository.calculateBestStreak db (some err) sessionID = 0 := by
  simp only [AttemptRepository.calculateBestStreak, driverCall]

theorem summary_of_single_correct_attempt (db : Store) (streakFault : Option Error)
    (sessionID : ObjectID) (a : Attempt)
    (hfilter : db.attempts.filter (fun x => x.SessionID = sessionID) = [a])
    (hcorrect : a.Correct = true) :
    ∃ summary, AttemptRepository.GetSessionSummary db none streakFault sessionID = .ok summary ∧
      summary.TotalAttempts = 1 ∧ summary.Correct = 1 ∧
      (streakFault = none → summary.StreakBest = 1) ∧
      (streakFault ≠ none → summary.StreakBest = 0) := by
  have hne : db.attempts.filter (fun x => x.SessionID = sessionID) ≠ [] := by
    rw [hfilter]
    exact List.cons_ne_nil _ _
  refine ⟨_, GetSessionSummary_of_ne_nil db streakFault sessionID hne, ?_, ?_, ?_, ?_⟩
  · simp only [hfilter, List.length_singleton, Nat.cast_one]
  · simp [hfilter, hcorrect]
  · intro hnone
    subst hnone
    simp [AttemptRepository.calculateBestStreak, driverCall, hfilter, streakLoop, hcorrect]
  · intro hsome
    cases streakFault with
    | none => exact absurd rfl hsome
    | some err => exact calculateBestStreak_of_fault db err sessionID

theorem EndSession_ok_split (db db1 : Store) (fault streakFault updateFault : Option Error)
    (now : Time) (id : ObjectID) (summary : DrillSessionSummary)
    (h : EndSession db fault streakFault updateFault now id = (db1, .ok summary)) :
    AttemptRepository.GetSessionSummary db fault streakFault id = .ok summary ∧
      ∃ pre s post, db.drillSessions = pre ++ s :: post ∧ (∀ x ∈ pre, x.ID ≠ id) ∧ s.ID = id ∧
        db1 = { attempts := db.attempts
                drillSessions :=
                  pre ++ { s with EndedAt := some now, Summary := summary } :: post } := by
  obtain ⟨hsum, hex, hdb1⟩ := EndSession_ok_inv db db1 fault streakFault updateFault now id summary h
  obtain ⟨pre, s, post, hl, hpre, hs⟩ := exists_split_of_mem_ID id db.drillSessions hex
  refine ⟨hsum, pre, s, post, hl, hpre, hs, ?_⟩
  rw [hdb1, hl, updateByID_of_split id now summary pre post s hpre hs]

theorem EndSession_ok_faults (db db1 : Store) (fault streakFault updateFault : Option Error)
    (now : Time) (id : ObjectID) (summary : DrillSessionSummary)
    (h : EndSession db fault streakFault updateFault now id = (db1, .ok summary)) :
    fault = none ∧ updateFault = none := by
  unfold EndSession at h
  cases fault with
  | some err =>
    rw [GetSessionSummary_of_fault] at h
    simp at h
  | none =>
    refine ⟨rfl, ?_⟩
    cases updateFault with
    | none => rfl
    | some err =>
      cases hsum : AttemptRepository.GetSessionSummary db none streakFault id with
      | error e =>
        rw [hsum] at h
        simp at h
      | ok summary0 =>
        rw [hsum] at h
        simp [DrillSessionRepository.EndSession] at h

/-- C16 (as amended): every `EndSession` call that succeeds had its aggregation
and its update succeed, returns the summary that `GetSessionSummary` computes
from the stored attempts of the session, and leaves a store in which the first
record with the given identifier has its end time set to the current time and
its `Summary` equal to the returned summary, the other fields of that record,
the other sessions and the attempts being unchanged; the call does succeed when
a session with the identifier is stored and aggregation and update succeed,
whether or not the streak query succeeds. In the scenario start a
`name_square` session (whose new identifier no stored session or attempt
refers to), submit the returned target as answer, end the session, the
summary has `TotalAttempts = 1` and `Correct = 1`; its `StreakBest` is `1` when
the streak query succeeds and `0` when it fails. -/
theorem EndSession_writes_summary (db : Store) (streakFault : Option Error) (now : Time)
    (sessionID : ObjectID) :
    (∀ (fault updateFault : Option Error) (db1 : Store) (summary : DrillSessionSummary),
      EndSession db fault streakFault updateFault now sessionID = (db1, .ok summary) →
      fault = none ∧ updateFault = none ∧
      AttemptRepository.GetSessionSummary db fault streakFault sessionID = .ok summary ∧
      ∃ pre s post, db.drillSessions = pre ++ s :: post ∧
        (∀ x ∈ pre, x.ID ≠ sessionID) ∧ s.ID = sessionID ∧
        db1 = { attempts := db.attempts
                drillSessions :=
                  pre ++ { s with EndedAt := some now, Summary := summary } :: post }) ∧
    ((∃ s ∈ db.drillSessions, s.ID = sessionID) →
      ∃ db1 summary, EndSession db none streakFault none now sessionID = (db1, .ok summary)) ∧
    (∀ (caseRanges : Char → Char) (attemptID : ObjectID) (t0 t1 : Time) (d0 d1 : Draws)
        (userID : ObjectID) (inputMethod : InputMethod) (perspective question : String)
        (responseMs : Int),
      (∀ x ∈ db.drillSessions, x.ID ≠ sessionID) →
      (∀ a ∈ db.attempts, a.SessionID ≠ sessionID) →
      ∃ session q a ret summary,
        StartSession db none sessionID t0 d0 userID DrillTypeNameSquare inputMethod perspective =
          ({ attempts := db.attempts, drillSessions := db.drillSessions ++ [session] },
            some ⟨some session, some q, none⟩) ∧
        session.ID = sessionID ∧ session.DrillType = DrillTypeNameSquare ∧
        session.EndedAt = none ∧
        CheckAnswer caseRanges
            { attempts := db.attempts, drillSessions := db.drillSessions ++ [session] } none
            attemptID t1 d1 sessionID userID DrillTypeNameSquare question q.Target q.Target
            responseMs =
          ({ attempts := db.attempts ++ [a], drillSessions := db.drillSessions ++ [session] },
            some ret) ∧
        ret.correct = true ∧ ret.err = none ∧
        EndSession
            { attempts := db.attempts ++ [a], drillSessions := db.drillSessions ++ [session] }
            none streakFault none now sessionID =
          ({ attempts := db.attempts ++ [a]
             drillSessions := db.drillSessions ++
               [{ session with EndedAt := some now, Summary := summary }] },
            .ok summary) ∧
        summary.TotalAttempts = 1 ∧ summary.Correct = 1 ∧
        (streakFault = none → summary.StreakBest = 1) ∧
        (streakFault ≠ none → summary.StreakBest = 0)) := by
  refine ⟨?_, ?_, ?_⟩
  · intro fault updateFault db1 summary h
    obtain ⟨hf, hu⟩ := EndSession_ok_faults db db1 fault streakFault updateFault now sessionID
      summary h
    obtain ⟨hsum, hsplit⟩ := EndSession_ok_split db db1 fault streakFault updateFault now
      sessionID summary h
    exact ⟨hf, hu, hsum, hsplit⟩
  · intro hex
    obtain ⟨summary, hsum⟩ := GetSessionSummary_ok db streakFault sessionID
    exact ⟨_, summary, EndSession_of_exists db streakFault now sessionID summary hsum hex⟩
  · intro caseRanges attemptID t0 t1 d0 d1 userID inputMethod perspective question responseMs
      hnew hfresh
    obtain ⟨q, -, hstart⟩ :=
      StartSession_inserted db sessionID t0 d0 userID DrillTypeNameSquare inputMethod perspective
    obtain ⟨session, hsession⟩ : ∃ session : DrillSession, session =
        { NewDrillSession userID DrillTypeNameSquare inputMethod perspective t0 with
          ID := sessionID } := ⟨_, rfl⟩
    rw [← hsession] at hstart
    obtain ⟨q2, -, hcheck⟩ :=
      CheckAnswer_inserted caseRanges
        { attempts := db.attempts, drillSessions := db.drillSessions ++ [session] } attemptID t1
        d1 sessionID userID DrillTypeNameSquare question q.Target q.Target responseMs
    obtain ⟨a', ha'⟩ : ∃ a' : Attempt, a' =
        { CheckAnswer.attempt caseRanges t1 sessionID userID DrillTypeNameSquare question
            q.Target q.Target responseMs with ID := attemptID } := ⟨_, rfl⟩
    rw [← ha'] at hcheck
    have hsid : a'.SessionID = sessionID := by rw [ha']; rfl
    have hcorrect : (CheckAnswer.attempt caseRanges t1 sessionID userID DrillTypeNameSquare
        question q.Target q.Target responseMs).Correct = true := by
      simp [CheckAnswer.attempt, NewAttempt]
    have hcorrect' : a'.Correct = true := by rw [ha']; exact hcorrect
    have hfilter : (db.attempts ++ [a']).filter (fun x => x.SessionID = sessionID) = [a'] := by
      rw [List.filter_append, List.filter_eq_nil_iff.mpr]
      · simp [hsid]
      · intro a ha
        simpa using hfresh a ha
    obtain ⟨summary, hsum, h1, h2, h3, h4⟩ :=
      summary_of_single_correct_attempt
        { attempts := db.attempts ++ [a'], drillSessions := db.drillSessions ++ [session] }
        streakFault sessionID a' hfilter hcorrect'
    have hend := EndSession_of_split
      { attempts := db.attempts ++ [a'], drillSessions := db.drillSessions ++ [session] }
      streakFault now sessionID db.drillSessions [] session summary hsum rfl hnew
      (by rw [hsession])
    exact ⟨session, q, a', _, summary, hstart, by rw [hsession], by rw [hsession]; rfl,
      by rw [hsession]; rfl, hcheck, hcorrect, rfl, hend, h1, h2, h3, h4⟩

theorem EndSession_writes_summary_witness :
    (EndSession startedStore none none none 10 1 =
        (endedOnceStore,
          .ok { TotalAttempts := 0, Correct := 0, AvgResponseMs := 0, StreakBest := 0 }) ∧
      ∃ pre s post, startedStore.drillSessions = pre ++ s :: post ∧
        (∀ x ∈ pre, x.ID ≠ 1) ∧ s.ID = 1 ∧
        endedOnceStore =
          { attempts := startedStore.attempts
            drillSessions :=
              pre ++ { s with
                       EndedAt := some 10
                       Summary := { TotalAttempts := 0, Correct := 0, AvgResponseMs := 0,
                                    StreakBest := 0 } } :: post }) ∧
    ((∃ s ∈ startedStore.drillSessions, s.ID = 1) ∧
      ∃ db1 summary, EndSession startedStore none none none 10 1 = (db1, .ok summary)) ∧
    (((∀ x ∈ ([] : List DrillSession), x.ID ≠ 1) ∧ (∀ a ∈ ([] : List Attempt), a.SessionID ≠ 1)) ∧
      ∃ session q a ret summary,
        StartSession { attempts := [], drillSessions := [] } none 1 5 ⟨0, 0, 0⟩ 7
            DrillTypeNameSquare "type" "white" =
          ({ attempts := [], drillSessions := [] ++ [session] },
            some ⟨some session, some q, none⟩) ∧
        session.ID = 1 ∧ session.DrillType = DrillTypeNameSquare ∧ session.EndedAt = none ∧
        CheckAnswer id { attempts := [], drillSessions := [] ++ [session] } none 1 12
            ⟨0, 0, 0⟩ 1 7 DrillTypeNameSquare "a1" q.Target q.Target 1500 =
          ({ attempts := [] ++ [a], drillSessions := [] ++ [session] }, some ret) ∧
        ret.correct = true ∧ ret.err = none ∧
        EndSession { attempts := [] ++ [a], drillSessions := [] ++ [session] } none none none
            20 1 =
          ({ attempts := [] ++ [a]
             drillSessions := [] ++ [{ session with EndedAt := some 20, Summary := summary }] },
            .ok summary) ∧
        summary.TotalAttempts = 1 ∧ summary.Correct = 1 ∧ summary.StreakBest = 1) := by
  refine ⟨⟨rfl, ?_⟩, ⟨⟨_, List.mem_singleton_self _, rfl⟩, ?_⟩, ⟨by simp, by simp⟩, ?_⟩
  · exact ((EndSession_writes_summary startedStore none 10 1).1 none none endedOnceStore _
      rfl).2.2.2
  · exact (EndSession_writes_summary startedStore none 10 1).2.1
      ⟨_, List.mem_singleton_self _, rfl⟩
  · obtain ⟨session, q, a, ret, summary, h1, h2, h3, h4, h5, h6, h7, h8, h9, h10, h11, -⟩ :=
      (EndSession_writes_summary { attempts := [], drillSessions := [] } none 20 1).2.2 id 1 5
        12 ⟨0, 0, 0⟩ ⟨0, 0, 0⟩ 7 "type" "white" "a1" 1500 (by simp) (by simp)
    exact ⟨session, q, a, ret, summary, h1, h2, h3, h4, h5, h6, h7, h8, h9, h10, h11 rfl⟩

/-- C16 (counterexample): user `7` starts a `name_square` session on the empty
store (it gets the identifier `1`, the question has target `a1`), submits `a1`
and is told the answer is correct; the session is active and has exactly this
one recorded attempt. `EndSession` with the aggregation and the update
succeeding and the streak query failing succeeds, writes the end time and the
summary onto the session, and the summary has `TotalAttempts = 1`,
`Correct = 1` and `StreakBest = 0`, not `1`. -/
theorem EndSession_single_correct_attempt_streak_zero :
    ∃ session q a ret db1 summary,
      StartSession { attempts := [], drillSessions := [] } none 1 5 ⟨0, 0, 0⟩ 7
          DrillTypeNameSquare "type" "white" =
        (startedStore, some ⟨some session, some q, none⟩) ∧
      q.Target = "a1" ∧
      CheckAnswer id startedStore none 1 12 ⟨0, 0, 0⟩ 1 7 DrillTypeNameSquare "a1" q.Target
          "a1" 1500 = (answeredStore, some ret) ∧
      ret.correct = true ∧ ret.err = none ∧
      answeredStore.attempts = [a] ∧ a.SessionID = 1 ∧ a.UserAnswer = a.CorrectAnswer ∧
      a.Correct = true ∧
      answeredStore.drillSessions = [session] ∧ session.ID = 1 ∧
      session.DrillType = DrillTypeNameSquare ∧ session.EndedAt = none ∧
      EndSession answeredStore none (some (Error.driver "find failed")) none 20 1 =
        (db1, .ok summary) ∧
      db1.attempts = [a] ∧
      db1.drillSessions = [{ session with EndedAt := some 20, Summary := summary }] ∧
      summary.TotalAttempts = 1 ∧ summary.Correct = 1 ∧ summary.StreakBest = 0 ∧
      summary.StreakBest ≠ 1 := by
  obtain ⟨summary, hsum, h1, h2, -, h4⟩ :=
    summary_of_single_correct_attempt answeredStore (some (Error.driver "find failed")) 1
      { CheckAnswer.attempt id 12 1 7 DrillTypeNameSquare "a1" "a1" "a1" 1500 with ID := 1 }
      rfl rfl
  have h0 : summary.StreakBest = 0 := h4 (by simp)
  have hend := EndSession_of_split answeredStore (some (Error.driver "find failed")) 20 1 [] []
    { NewDrillSession 7 DrillTypeNameSquare "type" "white" 5 with ID := 1 } summary hsum rfl
    (by simp) rfl
  refine ⟨_, _, _, _, _, summary, rfl, rfl, rfl, rfl, rfl, rfl, rfl, rfl, rfl, rfl, rfl, rfl,
    rfl, hend, rfl, rfl, h1, h2, h0, ?_⟩
  rw [h0]
  decide

/-! ## Theorems: the draws cover squares and pieces evenly -/

theorem RandomSquare_injective :
    ∀ f r f2 r2 : Fin 8, RandomSquare f r = RandomSquare f2 r2 → f = f2 ∧ r = r2 := by
  decide

theorem RandomSquare_mem_boardSquares : ∀ f r : Fin 8, RandomSquare f r ∈ boardSquares := by
  decide

theorem boardSquares_subset_RandomSquare :
    ∀ sq ∈ boardSquares, ∃ f r : Fin 8, RandomSquare f r = sq := by
  decide

theorem RandomSquare_preimage_card :
    ∀ sq ∈ boardSquares,
      (Finset.univ.filter (fun p : Fin 8 × Fin 8 => RandomSquare p.1 p.2 = sq)).card = 1 := by
  intro sq hsq
  obtain ⟨f, r, rfl⟩ := boardSquares_subset_RandomSquare sq hsq
  rw [Finset.card_eq_one]
  refine ⟨(f, r), ?_⟩
  ext p
  simp only [Finset.mem_filter, Finset.mem_univ, true_and, Finset.mem_singleton]
  constructor
  · intro h
    obtain ⟨h1, h2⟩ := RandomSquare_injective p.1 p.2 f r h
    exact Prod.ext h1 h2
  · rintro rfl
    rfl

theorem pieceTypes_preimage_card :
    ∀ name ∈ ["knight", "bishop", "rook", "queen", "king"],
      (Finset.univ.filter (fun i : Fin 5 => pieceTypes.get? i.val = some name)).card = 1 := by
  decide

theorem generatePieceMovementQuestion_no_hint (d : Draws) :
    ∃ q, generatePieceMovementQuestion d "" = some q ∧
      q.Metadata.lookup "piece_type" = pieceTypes.get? d.pieceIdx.val := by
  obtain ⟨p, f, r⟩ := d
  simp only [generatePieceMovementQuestion, generateSinglePieceFEN_RandomSquare, if_true]
  refine ⟨_, rfl, ?_⟩
  have hp : ∀ p : Fin 5, some (pieceTypes.get (Fin.cast (by decide) p)) = pieceTypes.get? p.val := by
    decide
  exact hp p

/-- C21: `RandomSquare` maps the 64 pairs of a file index and a rank index
one-to-one onto the 64 squares `a1..h8`, and the piece choice made without a
hint maps the indices `0..4` one-to-one onto knight, bishop, rook, queen, king;
so every square is the image of exactly one of the 64 pairs (a share of 1/64
of the equally likely draws) and every piece kind of exactly one of the 5
indices (a share of 1/5). -/
theorem draws_cover_squares_and_pieces_evenly :
    Function.Injective (fun p : Fin 8 × Fin 8 => RandomSquare p.1 p.2) ∧
    (∀ sq, sq ∈ boardSquares ↔ ∃ f r : Fin 8, RandomSquare f r = sq) ∧
    boardSquares.length = 64 ∧ boardSquares.Nodup ∧
    (∀ sq ∈ boardSquares,
      ((Finset.univ.filter (fun p : Fin 8 × Fin 8 => RandomSquare p.1 p.2 = sq)).card : ℚ) /
        (Fintype.card (Fin 8 × Fin 8) : ℚ) = 1 / 64) ∧
    (∀ d : Draws, ∃ q, generatePieceMovementQuestion d "" = some q ∧
      q.Metadata.lookup "piece_type" = pieceTypes.get? d.pieceIdx.val) ∧
    Function.Injective (fun i : Fin 5 => pieceTypes.get? i.val) ∧
    (∀ name, name ∈ ["knight", "bishop", "rook", "queen", "king"] ↔
      ∃ i : Fin 5, pieceTypes.get? i.val = some name) ∧
    (∀ name ∈ ["knight", "bishop", "rook", "queen", "king"],
      ((Finset.univ.filter (fun i : Fin 5 => pieceTypes.get? i.val = some name)).card : ℚ) /
        (Fintype.card (Fin 5) : ℚ) = 1 / 5) := by
  refine ⟨?_, ?_, boardSquares_length, boardSquares_nodup, ?_, generatePieceMovementQuestion_no_hint,
    ?_, ?_, ?_⟩
  · intro p q h
    obtain ⟨h1, h2⟩ := RandomSquare_injective p.1 p.2 q.1 q.2 h
    exact Prod.ext h1 h2
  · intro sq
    constructor
    · exact boardSquares_subset_RandomSquare sq
    · rintro ⟨f, r, rfl⟩
      exact RandomSquare_mem_boardSquares f r
  · intro sq hsq
    rw [RandomSquare_preimage_card sq hsq]
    simp
  · intro i j h
    revert i j
    decide
  · intro name
    constructor
    · revert name
      decide
    · rintro ⟨i, hi⟩
      have hall : ∀ i : Fin 5, ∃ n ∈ ["knight", "bishop", "rook", "queen", "king"],
          pieceTypes.get? i.val = some n := by decide
      obtain ⟨n, hn, hget⟩ := hall i
      rw [hget] at hi
      rw [← Option.some.inj hi]
      exact hn
  · intro name hname
    rw [pieceTypes_preimage_card name hname]
    simp

/-! ## Theorems: starting a session -/

/-- C22: if persisting the session succeeds, `StartSession` returns a session
carrying the given user, drill type, input method and perspective, the start
time, an unset end time and the all-zero summary, appends exactly that session
to the drill-session collection (the attempts being untouched), and returns a
question generated for the drill type; if persisting fails it returns the
persistence error with no session and no question, and the store is unchanged. -/
theorem StartSession_result (db : Store) (newID : ObjectID) (now : Time) (d : Draws)
    (userID : ObjectID) (drillType : DrillType) (inputMethod : InputMethod)
    (perspective : String) :
    (∃ session q,
      StartSession db none newID now d userID drillType inputMethod perspective =
        ({ attempts := db.attempts, drillSessions := db.drillSessions ++ [session] },
          some ⟨some session, some q, none⟩) ∧
      session =
        { ID := newID, UserID := userID, DrillType := drillType, InputMethod := inputMethod,
          Perspective := perspective, StartedAt := now, EndedAt := none,
          Summary := { TotalAttempts := 0, Correct := 0, AvgResponseMs := 0, StreakBest := 0 } } ∧
      GenerateQuestion d drillType "" = some q) ∧
    (∀ err,
      StartSession db (some err) newID now d userID drillType inputMethod perspective =
        (db, some ⟨none, none, some err⟩)) := by
  constructor
  · obtain ⟨q, hq, h⟩ :=
      StartSession_inserted db newID now d userID drillType inputMethod perspective
    exact ⟨_, q, h, rfl, hq⟩
  · intro err
    simp only [StartSession, DrillSessionRepository.Create]

/-! ## Theorems: the type tag of a question -/

/-- C26: the question returned for `name_square`, `find_square` and
`piece_movement` is tagged with the requested drill type; the question returned
for `move_notation` is tagged `piece_movement` and its prompt is
`Where can the knight move?`, for every hint and every outcome of the draws. -/
theorem GenerateQuestion_type_tag (d : Draws) (pieceType : String) :
    (∃ q, GenerateQuestion d "name_square" pieceType = some q ∧ q.Typ = "name_square") ∧
    (∃ q, GenerateQuestion d "find_square" pieceType = some q ∧ q.Typ = "find_square") ∧
    (∃ q, GenerateQuestion d "piece_movement" pieceType = some q ∧ q.Typ = "piece_movement") ∧
    (∃ q, GenerateQuestion d "move_notation" pieceType = some q ∧ q.Typ = "piece_movement" ∧
      q.Typ ≠ "move_notation" ∧ q.Prompt = "Where can the knight move?") := by
  refine ⟨⟨generateNameSquareQuestion d, by simp [GenerateQuestion, DrillTypeNameSquare], rfl⟩,
    ⟨generateFindSquareQuestion d, by
      simp [GenerateQuestion, DrillTypeNameSquare, DrillTypeFindSquare], rfl⟩, ?_, ?_⟩
  · have hq : GenerateQuestion d "piece_movement" pieceType =
        generatePieceMovementQuestion d pieceType := by
      simp [GenerateQuestion, DrillTypePieceMovement, DrillTypeNameSquare, DrillTypeFindSquare]
    rw [hq]
    simp only [generatePieceMovementQuestion, generateSinglePieceFEN_RandomSquare]
    exact ⟨_, rfl, rfl⟩
  · have hq : GenerateQuestion d "move_notation" pieceType =
        generatePieceMovementQuestion d "knight" := by
      simp [GenerateQuestion, generateMoveNotationQuestion, DrillTypeMoveNotation,
        DrillTypePieceMovement, DrillTypeNameSquare, DrillTypeFindSquare]
    rw [hq, generatePieceMovementQuestion_of_hint d "knight" (by decide)]
    have h1 : DrillTypePieceMovement ≠ "move_notation" := by decide
    have h2 : "Where can the " ++ "knight" ++ " move?" = "Where can the knight move?" := by
      decide
    exact ⟨_, rfl, rfl, h1, h2⟩

/-! ## Theorems: the exact board encoding -/

theorem fenRows_eq_spec (piece : Char) (f r : Fin 8) :
    String.intercalate "/" (fenRowsLoop piece f.val r.val 8 []) ++ " w - - 0 1" =
      specSinglePieceFEN piece f.val r.val := by
  fin_cases f <;> fin_cases r <;> rfl

/-- C24: for every piece type and every square with file index `f` and rank
index `r` in `0..7`, `generateSinglePieceFEN` returns exactly the string of the
specification: eight rank fields from rank 8 down to rank 1 joined by `/`,
where the field of rank `r + 1` is the digit `f` (if `f > 0`), the piece letter,
the digit `7 - f` (if `f < 7`) and every other field is `8`, followed by
` w - - 0 1`; the same holds for the rows built for an arbitrary piece letter.
A rook on a1 gives `8/8/8/8/8/8/8/R7 w - - 0 1`, a knight on e4
`8/8/8/8/4N3/8/8/8 w - - 0 1`. -/
theorem generateSinglePieceFEN_eq_spec (pieceType : String) (f r : Fin 8) :
    generateSinglePieceFEN pieceType (RandomSquare f r) =
        some (specSinglePieceFEN
          (if pieceMap pieceType = Char.ofNat 0 then 'N' else pieceMap pieceType) f.val r.val) ∧
      (∀ piece : Char,
        String.intercalate "/" (fenRowsLoop piece f.val r.val 8 []) ++ " w - - 0 1" =
          specSinglePieceFEN piece f.val r.val) ∧
      generateSinglePieceFEN "rook" "a1" = some "8/8/8/8/8/8/8/R7 w - - 0 1" ∧
      generateSinglePieceFEN "knight" "e4" = some "8/8/8/8/4N3/8/8/8 w - - 0 1" := by
  refine ⟨?_, fun piece => fenRows_eq_spec piece f r, by decide, by decide⟩
  rw [generateSinglePieceFEN_RandomSquare, fenRows_eq_spec]

theorem decode_knight_or_pawn (f r : Fin 8) :
    decodePlacement (placementPart
        (String.intercalate "/" (fenRowsLoop 'N' f.val r.val 8 []) ++ " w - - 0 1")) =
      singlePieceBoard 'N' f.val r.val ∧
    decodePlacement (placementPart
        (String.intercalate "/" (fenRowsLoop 'P' f.val r.val 8 []) ++ " w - - 0 1")) =
      singlePieceBoard 'P' f.val r.val := by
  revert f r
  decide

theorem pieceMap_of_unknown (h : String) (h1 : h ≠ "knight") (h2 : h ≠ "bishop")
    (h3 : h ≠ "rook") (h4 : h ≠ "queen") (h5 : h ≠ "king") (h6 : h ≠ "pawn") :
    pieceMap h = Char.ofNat 0 := by
  simp only [pieceMap, h1, h2, h3, h4, h5, h6, if_false]

/-- C30: for a non-empty hint `h` that is none of knight, bishop, rook, queen,
king, pawn, `GenerateQuestion` for `piece_movement` does not fail: the question
has the drawn square as target, an encoding that decodes to the board whose only
piece is the knight letter `N` on that square, and `h` unchanged in its metadata
entry `piece_type` and in its prompt. For `h = "pawn"` the encoding decodes to
the board with the letter `P` on the target square. -/
theorem GenerateQuestion_unknown_piece_hint (d : Draws) (h : String) (h0 : h ≠ "")
    (h1 : h ≠ "knight") (h2 : h ≠ "bishop") (h3 : h ≠ "rook") (h4 : h ≠ "queen")
    (h5 : h ≠ "king") (h6 : h ≠ "pawn") :
    (∃ q, GenerateQuestion d "piece_movement" h = some q ∧
      q.Target = RandomSquare d.fileIdx d.rankIdx ∧
      decodePlacement (placementPart q.FEN) =
        singlePieceBoard 'N' d.fileIdx.val d.rankIdx.val ∧
      q.Metadata.lookup "piece_type" = some h ∧
      q.Prompt = "Where can the " ++ h ++ " move?") ∧
    (∃ q, GenerateQuestion d "piece_movement" "pawn" = some q ∧
      q.Target = RandomSquare d.fileIdx d.rankIdx ∧
      decodePlacement (placementPart q.FEN) =
        singlePieceBoard 'P' d.fileIdx.val d.rankIdx.val ∧
      q.Metadata.lookup "piece_type" = some "pawn") := by
  have hq : ∀ hint : String, GenerateQuestion d "piece_movement" hint =
      generatePieceMovementQuestion d hint := by
    intro hint
    simp [GenerateQuestion, DrillTypePieceMovement, DrillTypeNameSquare, DrillTypeFindSquare]
  constructor
  · rw [hq, generatePieceMovementQuestion_of_hint d h h0, pieceMap_of_unknown h h1 h2 h3 h4 h5 h6]
    refine ⟨_, rfl, rfl, ?_, ?_, rfl⟩
    · exact (decode_knight_or_pawn d.fileIdx d.rankIdx).1
    · simp [List.lookup]
  · rw [hq, generatePieceMovementQuestion_of_hint d "pawn" (by decide)]
    have hpiece : (if pieceMap "pawn" = Char.ofNat 0 then 'N' else pieceMap "pawn") = 'P' := by
      decide
    rw [hpiece]
    exact ⟨_, rfl, rfl, (decode_knight_or_pawn d.fileIdx d.rankIdx).2, rfl⟩

theorem GenerateQuestion_unknown_piece_hint_witness :
    (("dragon" : String) ≠ "" ∧ ("dragon" : String) ≠ "knight" ∧ ("dragon" : String) ≠ "bishop" ∧
        ("dragon" : String) ≠ "rook" ∧ ("dragon" : String) ≠ "queen" ∧
        ("dragon" : String) ≠ "king" ∧ ("dragon" : String) ≠ "pawn") ∧
      ∃ q, GenerateQuestion ⟨0, 4, 3⟩ "piece_movement" "dragon" = some q ∧
        q.Target = RandomSquare 4 3 ∧
        decodePlacement (placementPart q.FEN) = singlePieceBoard 'N' 4 3 ∧
        q.Metadata.lookup "piece_type" = some "dragon" ∧
        q.Prompt = "Where can the " ++ "dragon" ++ " move?" :=
  ⟨by decide,
    (GenerateQuestion_unknown_piece_hint ⟨0, 4, 3⟩ "dragon" (by decide) (by decide) (by decide)
      (by decide) (by decide) (by decide) (by decide)).1⟩

/-! ## Theorems: the squares of the heat map -/

theorem map_Square_emptySquareEntry (squares : List String) :
    (squares.map emptySquareEntry).map (fun acc => acc.Square) = squares := by
  rw [List.map_map]
  exact List.map_id _

/-- C27: with the aggregation succeeding, each of the 64 squares `a1..h8` is
the `Square` of exactly one entry of the list returned by `GetHeatmapData`; the
length of the list is 64 plus the number of distinct stored expected answers of
the user that are not square names, so it is 64 exactly when every stored
expected answer of the user is a square name. -/
theorem GetHeatmapData_each_square_once (db : Store) (userID : ObjectID) :
    ∃ heatmap, StatsService.GetHeatmapData db none userID = .ok heatmap ∧
      (∀ sq ∈ boardSquares, (heatmap.Squares.map (fun acc => acc.Square)).count sq = 1) ∧
      heatmap.Squares.length =
        64 + ((((db.attempts.filter (fun a => a.UserID = userID)).map
          (fun a => a.CorrectAnswer)).dedup).filter
            (fun key => decide (¬ (key ∈ boardSquares)))).length ∧
      (heatmap.Squares.length = 64 ↔
        ∀ a ∈ db.attempts, a.UserID = userID → a.CorrectAnswer ∈ boardSquares) := by
  obtain ⟨heatmap, hget, hlen⟩ := GetHeatmapData_length db userID
  have heq := GetHeatmapData_eq db userID
  rw [hget] at heq
  have hsq := congrArg (fun h : HeatmapData => h.Squares.map (fun acc => acc.Square))
    (Except.ok.inj heq)
  simp only [List.map_append, map_Square_squareEntry, map_Square_emptySquareEntry] at hsq
  refine ⟨heatmap, hget, ?_, hlen, ?_⟩
  · intro sq hsq_mem
    rw [hsq, List.count_append]
    by_cases hk : sq ∈ ((db.attempts.filter (fun a => a.UserID = userID)).map
        (fun a => a.CorrectAnswer)).dedup
    · have hnot : sq ∉ boardSquares.filter (fun sq => decide (¬ (sq ∈
          ((db.attempts.filter (fun a => a.UserID = userID)).map
            (fun a => a.CorrectAnswer)).dedup))) := by
        intro hmem
        exact (of_decide_eq_true (List.mem_filter.mp hmem).2) hk
      rw [List.count_eq_one_of_mem (List.nodup_dedup _) hk, List.count_eq_zero_of_not_mem hnot]
    · have hin : sq ∈ boardSquares.filter (fun sq => decide (¬ (sq ∈
          ((db.attempts.filter (fun a => a.UserID = userID)).map
            (fun a => a.CorrectAnswer)).dedup))) :=
        List.mem_filter.mpr ⟨hsq_mem, decide_eq_true hk⟩
      rw [List.count_eq_zero_of_not_mem hk,
        List.count_eq_one_of_mem ((boardSquares_nodup).filter _) hin]
  · rw [hlen]
    constructor
    · intro h a ha hu
      have hnil : ((((db.attempts.filter (fun a => a.UserID = userID)).map
          (fun a => a.CorrectAnswer)).dedup).filter
            (fun key => decide (¬ (key ∈ boardSquares)))) = [] := by
        apply List.eq_nil_of_length_eq_zero
        omega
      rw [List.filter_eq_nil_iff] at hnil
      have hmem : a.CorrectAnswer ∈ ((db.attempts.filter (fun a => a.UserID = userID)).map
          (fun a => a.CorrectAnswer)).dedup := by
        rw [List.mem_dedup, List.mem_map]
        exact ⟨a, List.mem_filter.mpr ⟨ha, by simpa using hu⟩, rfl⟩
      simpa using hnil _ hmem
    · intro h
      rw [List.filter_eq_nil_iff.mpr]
      · rfl
      · intro key hkey
        rw [List.mem_dedup, List.mem_map] at hkey
        obtain ⟨a, ha, rfl⟩ := hkey
        rw [List.mem_filter] at ha
        have := h a ha.1 (by simpa using ha.2)
        simpa using this

/-! ## Theorems: the order of the summary fields -/

theorem longestCorrectRun_le_countP (l : List Attempt) :
    longestCorrectRun l ≤ l.countP (fun a => a.Correct) := by
  obtain ⟨run, hin, hall, hlen⟩ := exists_longest_correct_run l
  rw [← hlen]
  have h1 : run.countP (fun a => a.Correct) = run.length :=
    List.countP_eq_length.mpr (fun a ha => hall a ha)
  rw [← h1]
  exact hin.sublist.countP_le _

theorem longestCorrectRun_eq_length_iff (l : List Attempt) :
    longestCorrectRun l = l.length ↔ ∀ a ∈ l, a.Correct = true := by
  constructor
  · intro h
    obtain ⟨run, hin, hall, hlen⟩ := exists_longest_correct_run l
    have : run = l := hin.sublist.eq_of_length (by rw [hlen, h])
    rw [← this]
    exact hall
  · intro hall
    apply le_antisymm
    · exact le_trans (longestCorrectRun_le_countP l) (List.countP_le_length _)
    · exact infix_correct_length_le l l (List.infix_refl l) hall

/-- C28 (as amended): a summary is returned exactly when the aggregation
succeeds, whether or not the streak query of `calculateBestStreak` succeeds.
The summary returned, both queries reading the same store, satisfies
`0 ≤ StreakBest ≤ Correct ≤ TotalAttempts`, and `StreakBest = TotalAttempts`
implies that every stored attempt of the session is correct. The converse
holds when the streak query succeeds; when it fails `StreakBest` is `0`, so
that `StreakBest = TotalAttempts` holds exactly when the session has no stored
attempt. -/
theorem GetSessionSummary_field_order (db : Store) (streakFault : Option Error)
    (sessionID : ObjectID) :
    (∀ err, AttemptRepository.GetSessionSummary db (some err) streakFault sessionID =
      .error err) ∧
    ∃ summary, AttemptRepository.GetSessionSummary db none streakFault sessionID = .ok summary ∧
      0 ≤ summary.StreakBest ∧ summary.StreakBest ≤ summary.Correct ∧
      summary.Correct ≤ summary.TotalAttempts ∧
      (summary.StreakBest = summary.TotalAttempts →
        ∀ a ∈ db.attempts, a.SessionID = sessionID → a.Correct = true) ∧
      (streakFault = none →
        (∀ a ∈ db.attempts, a.SessionID = sessionID → a.Correct = true) →
        summary.StreakBest = summary.TotalAttempts) ∧
      (streakFault ≠ none →
        summary.StreakBest = 0 ∧
        (summary.StreakBest = summary.TotalAttempts ↔
          ∀ a ∈ db.attempts, a.SessionID ≠ sessionID)) := by
  refine ⟨fun err => GetSessionSummary_of_fault db err streakFault sessionID, ?_⟩
  by_cases h : db.attempts.filter (fun a => a.SessionID = sessionID) = []
  · have hno : ∀ a ∈ db.attempts, a.SessionID ≠ sessionID := by
      intro a ha hs
      have : a ∈ db.attempts.filter (fun a => a.SessionID = sessionID) :=
        List.mem_filter.mpr ⟨ha, by simpa using hs⟩
      rw [h] at this
      exact absurd this (List.not_mem_nil _)
    refine ⟨_, GetSessionSummary_of_nil db streakFault sessionID h, le_refl _, le_refl _,
      le_refl _, ?_, ?_, ?_⟩
    · intro _ a ha hs
      exact absurd hs (hno a ha)
    · intro _ _
      rfl
    · intro _
      exact ⟨rfl, fun _ => hno, fun _ => rfl⟩
  · have hlen : 0 < (db.attempts.filter (fun a => a.SessionID = sessionID)).length :=
      List.length_pos.mpr h
    cases streakFault with
    | none =>
      refine ⟨_, GetSessionSummary_of_ne_nil db none sessionID h, ?_, ?_, ?_, ?_, ?_, ?_⟩
      · simp only [calculateBestStreak_eq]
        exact Int.ofNat_nonneg _
      · simp only [calculateBestStreak_eq]
        exact_mod_cast longestCorrectRun_le_countP _
      · simp only
        exact_mod_cast List.countP_le_length _
      · simp only [calculateBestStreak_eq]
        rw [Nat.cast_inj, longestCorrectRun_eq_length_iff]
        intro hall a ha hs
        exact hall a (List.mem_filter.mpr ⟨ha, by simpa using hs⟩)
      · simp only [calculateBestStreak_eq]
        rw [Nat.cast_inj, longestCorrectRun_eq_length_iff]
        intro _ hall a ha
        rw [List.mem_filter] at ha
        exact hall a ha.1 (by simpa using ha.2)
      · intro hne
        exact absurd rfl hne
    | some err =>
      refine ⟨_, GetSessionSummary_of_ne_nil db (some err) sessionID h, ?_, ?_, ?_, ?_, ?_, ?_⟩
      · simp only [calculateBestStreak_of_fault]
        exact le_refl _
      · simp only [calculateBestStreak_of_fault]
        exact Int.ofNat_nonneg _
      · simp only
        exact_mod_cast List.countP_le_length _
      · simp only [calculateBestStreak_of_fault]
        intro h0
        omega
      · intro hnone
        exact absurd hnone (by simp)
      · intro _
        refine ⟨calculateBestStreak_of_fault db err sessionID, ?_, ?_⟩
        · simp only [calculateBestStreak_of_fault]
          intro h0
          omega
        · intro hno
          exfalso
          apply h
          rw [List.filter_eq_nil_iff]
          intro a ha
          simpa using hno a ha

theorem GetSessionSummary_field_order_witness :
    (some (Error.driver "find failed") ≠ (none : Option Error) ∧
      ∃ summary,
        AttemptRepository.GetSessionSummary oneAttemptStore none
          (some (Error.driver "find failed")) 1 = .ok summary ∧
        0 ≤ summary.StreakBest ∧ summary.StreakBest ≤ summary.Correct ∧
        summary.Correct ≤ summary.TotalAttempts ∧
        (summary.StreakBest = summary.TotalAttempts →
          ∀ a ∈ oneAttemptStore.attempts, a.SessionID = 1 → a.Correct = true) ∧
        summary.StreakBest = 0 ∧
        (summary.StreakBest = summary.TotalAttempts ↔
          ∀ a ∈ oneAttemptStore.attempts, a.SessionID ≠ 1)) ∧
    ((∀ a ∈ oneAttemptStore.attempts, a.SessionID = 1 → a.Correct = true) ∧
      ∃ summary,
        AttemptRepository.GetSessionSummary oneAttemptStore none none 1 = .ok summary ∧
        0 ≤ summary.StreakBest ∧ summary.StreakBest ≤ summary.Correct ∧
        summary.Correct ≤ summary.TotalAttempts ∧
        summary.StreakBest = summary.TotalAttempts) := by
  have hall : ∀ a ∈ oneAttemptStore.attempts, a.SessionID = 1 → a.Correct = true := by
    intro a ha _
    have : a = { CheckAnswer.attempt id 0 1 1 DrillTypeNameSquare "E4" "E4" " e4 " 1500 with
                 ID := 1 } := List.mem_singleton.mp ha
    rw [this]
    rfl
  refine ⟨⟨by simp, ?_⟩, hall, ?_⟩
  · obtain ⟨summary, hsum, h0, h1, h2, h3, -, h5⟩ :=
      (GetSessionSummary_field_order oneAttemptStore (some (Error.driver "find failed")) 1).2
    exact ⟨summary, hsum, h0, h1, h2, h3, h5 (by simp)⟩
  · obtain ⟨summary, hsum, h0, h1, h2, -, h4, -⟩ :=
      (GetSessionSummary_field_order oneAttemptStore none 1).2
    exact ⟨summary, hsum, h0, h1, h2, h4 rfl hall⟩

/-- C28 (counterexample): the one stored attempt of session `1` of
`oneAttemptStore` is correct. With the aggregation succeeding and the streak
query failing, `GetSessionSummary` returns, without error, a summary with
`TotalAttempts = 1`, `Correct = 1` and `StreakBest = 0`: every attempt of the
session is correct and yet `StreakBest ≠ TotalAttempts`. -/
theorem GetSessionSummary_all_correct_streak_zero :
    ∃ summary,
      AttemptRepository.GetSessionSummary oneAttemptStore none (some (Error.driver "find failed"))
        1 = .ok summary ∧
      summary.TotalAttempts = 1 ∧ summary.Correct = 1 ∧ summary.StreakBest = 0 ∧
      (∀ a ∈ oneAttemptStore.attempts, a.SessionID = 1 → a.Correct = true) ∧
      ¬ (summary.StreakBest = summary.TotalAttempts ↔
        ∀ a ∈ oneAttemptStore.attempts, a.SessionID = 1 → a.Correct = true) := by
  obtain ⟨summary, hsum, h1, h2, -, h4⟩ :=
    summary_of_single_correct_attempt oneAttemptStore (some (Error.driver "find failed")) 1
      { CheckAnswer.attempt id 0 1 1 DrillTypeNameSquare "E4" "E4" " e4 " 1500 with ID := 1 }
      rfl rfl
  have h0 : summary.StreakBest = 0 := h4 (by simp)
  have hall : ∀ a ∈ oneAttemptStore.attempts, a.SessionID = 1 → a.Correct = true := by
    intro a ha _
    have : a = { CheckAnswer.attempt id 0 1 1 DrillTypeNameSquare "E4" "E4" " e4 " 1500 with
                 ID := 1 } := List.mem_singleton.mp ha
    rw [this]
    rfl
  refine ⟨summary, hsum, h1, h2, h0, hall, ?_⟩
  intro hiff
  have := hiff.mpr hall
  rw [h0, h1] at this
  exact absurd this (by decide)

/-! ## Theorems: a user's statistics depend on that user's attempts only -/

theorem filter_user_drillType (l : List Attempt) (userID : ObjectID) (drillType : DrillType) :
    l.filter (fun a => a.UserID = userID ∧ a.DrillType = drillType) =
      (l.filter (fun a => a.UserID = userID)).filter (fun a => a.DrillType = drillType) := by
  rw [List.filter_filter]
  congr 1
  funext a
  simp [Bool.and_comm]

theorem GetDrillStats_congr (db1 db2 : Store) (userID : ObjectID)
    (h : db1.attempts.filter (fun a => a.UserID = userID) =
      db2.attempts.filter (fun a => a.UserID = userID))
    (fault : Option Error) (drillType : DrillType) :
    AttemptRepository.GetDrillStats db1 fault userID drillType =
      AttemptRepository.GetDrillStats db2 fault userID drillType := by
  simp only [AttemptRepository.GetDrillStats, filter_user_drillType, h]

theorem AttemptRepository_GetOverallStats_congr (db1 db2 : Store) (userID : ObjectID)
    (h : db1.attempts.filter (fun a => a.UserID = userID) =
      db2.attempts.filter (fun a => a.UserID = userID))
    (fault : Option Error) :
    AttemptRepository.GetOverallStats db1 fault userID =
      AttemptRepository.GetOverallStats db2 fault userID := by
  simp only [AttemptRepository.GetOverallStats, h]

theorem GetHeatmapData_congr (db1 db2 : Store) (userID : ObjectID)
    (h : db1.attempts.filter (fun a => a.UserID = userID) =
      db2.attempts.filter (fun a => a.UserID = userID))
    (fault : Option Error) :
    StatsService.GetHeatmapData db1 fault userID = StatsService.GetHeatmapData db2 fault userID := by
  simp only [StatsService.GetHeatmapData, AttemptRepository.GetSquareAccuracy, h]

theorem StatsService_GetOverallStats_congr (db1 db2 : Store) (userID : ObjectID)
    (h : db1.attempts.filter (fun a => a.UserID = userID) =
      db2.attempts.filter (fun a => a.UserID = userID))
    (hs : db1.drillSessions = db2.drillSessions)
    (fault countFault : Option Error) (drillFault : DrillType → Option Error) :
    StatsService.GetOverallStats db1 fault countFault drillFault userID =
      StatsService.GetOverallStats db2 fault countFault drillFault userID := by
  have happ : appendDrillStats db1 drillFault userID = appendDrillStats db2 drillFault userID := by
    funext stats dt
    simp only [appendDrillStats, GetDrillStats_congr db1 db2 userID h]
  simp only [StatsService.GetOverallStats, AttemptRepository_GetOverallStats_congr db1 db2 userID h,
    DrillSessionRepository.CountByUserID, hs, happ]

/-- C29: if two stores hold the same attempts of the user `u` (they may differ
in the attempts of other users), then `GetHeatmapData`, `GetDrillStats` and the
repository's `GetOverallStats` return the same result for `u` on both, whatever
the driver does; so does `StatsService.GetOverallStats` when the two stores
also hold the same drill sessions, from which only its session count comes. -/
theorem stats_depend_on_own_attempts_only (db1 db2 : Store) (userID : ObjectID)
    (h : db1.attempts.filter (fun a => a.UserID = userID) =
      db2.attempts.filter (fun a => a.UserID = userID)) :
    (∀ fault, StatsService.GetHeatmapData db1 fault userID =
      StatsService.GetHeatmapData db2 fault userID) ∧
    (∀ fault drillType, AttemptRepository.GetDrillStats db1 fault userID drillType =
      AttemptRepository.GetDrillStats db2 fault userID drillType) ∧
    (∀ fault, AttemptRepository.GetOverallStats db1 fault userID =
      AttemptRepository.GetOverallStats db2 fault userID) ∧
    (∀ fault countFault drillFault,
      StatsService.GetOverallStats db1 fault countFault drillFault userID =
        StatsService.GetOverallStats
          { attempts := db2.attempts, drillSessions := db1.drillSessions } fault countFault
          drillFault userID) :=
  ⟨GetHeatmapData_congr db1 db2 userID h, GetDrillStats_congr db1 db2 userID h,
    AttemptRepository_GetOverallStats_congr db1 db2 userID h,
    StatsService_GetOverallStats_congr db1
      { attempts := db2.attempts, drillSessions := db1.drillSessions } userID h rfl⟩

theorem stats_depend_on_own_attempts_only_witness :
    oneAttemptStore.attempts.filter (fun a => a.UserID = 1) =
        twoUsersStore.attempts.filter (fun a => a.UserID = 1) ∧
      oneAttemptStore.attempts ≠ twoUsersStore.attempts ∧
      ∀ fault, StatsService.GetHeatmapData oneAttemptStore fault 1 =
        StatsService.GetHeatmapData twoUsersStore fault 1 :=
  ⟨by decide, by decide,
    (stats_depend_on_own_attempts_only oneAttemptStore twoUsersStore 1 (by decide)).1⟩

/-! ## Theorems: failures inside the overall statistics -/

theorem filterMap_filter_of_key {α β : Type} (F G : α → Option β) (p : α → Bool) (key : β → α)
    (hG : ∀ a, G a = if p a = true then F a else none)
    (hkey : ∀ a b, F a = some b → key b = a) (l : List α) :
    l.filterMap G = (l.filterMap F).filter (fun b => p (key b)) := by
  induction l with
  | nil => rfl
  | cons a l ih =>
    rw [List.filterMap_cons, List.filterMap_cons, hG a]
    cases hF : F a with
    | none => simp [ih]
    | some b =>
      have hk := hkey a b hF
      by_cases hp : p a = true
      · simp [hp, ih, List.filter_cons, hk]
      · simp [hp, ih, List.filter_cons, hk]

theorem GetDrillStats_of_fault (db : Store) (err : Error) (userID : ObjectID)
    (drillType : DrillType) :
    AttemptRepository.GetDrillStats db (some err) userID drillType = .error err := by
  simp only [AttemptRepository.GetDrillStats, driverCall]

theorem StatsService_GetOverallStats_of_ok (db : Store) (drillFault : DrillType → Option Error)
    (userID : ObjectID) (stats0 : OverallStats)
    (h0 : AttemptRepository.GetOverallStats db none userID = .ok stats0)
    (hnil : stats0.DrillStats = []) :
    StatsService.GetOverallStats db none none drillFault userID =
      .ok { stats0 with
            TotalSessions := (db.drillSessions.countP (fun s => s.UserID = userID) : Nat)
            DrillStats := drillTypes.filterMap (fun dt =>
              match AttemptRepository.GetDrillStats db (drillFault dt) userID dt with
              | .error _ => none
              | .ok drillStats =>
                if drillStats.TotalAttempts > 0 then some drillStats else none) } := by
  simp only [StatsService.GetOverallStats, h0, DrillSessionRepository.CountByUserID,
    foldl_appendDrillStats, hnil, List.nil_append]

/-- C25: with the overall aggregation and the session count succeeding,
`StatsService.GetOverallStats` succeeds whatever happens to the per-drill-type
fetches; its `DrillStats` list is the list obtained without failures minus the
entries of the drill types whose fetch failed, and its totals (sessions,
attempts, accuracy, mean latency) are those obtained without failures. A
failure of the overall aggregation, or of the session count, makes the call
return that error. -/
theorem StatsService_GetOverallStats_failures (db : Store) (userID : ObjectID) :
    (∀ drillFault : DrillType → Option Error, ∃ stats statsAll,
      StatsService.GetOverallStats db none none drillFault userID = .ok stats ∧
      StatsService.GetOverallStats db none none (fun _ => none) userID = .ok statsAll ∧
      stats.DrillStats =
        statsAll.DrillStats.filter (fun ds => decide (drillFault ds.DrillType = none)) ∧
      stats.TotalSessions = statsAll.TotalSessions ∧
      stats.TotalAttempts = statsAll.TotalAttempts ∧
      stats.OverallAccuracy = statsAll.OverallAccuracy ∧
      stats.AvgResponseMs = statsAll.AvgResponseMs ∧
      stats.BestStreak = statsAll.BestStreak) ∧
    (∀ (err : Error) (countFault : Option Error) (drillFault : DrillType → Option Error),
      StatsService.GetOverallStats db (some err) countFault drillFault userID = .error err) ∧
    (∀ (err : Error) (drillFault : DrillType → Option Error),
      StatsService.GetOverallStats db none (some err) drillFault userID = .error err) := by
  refine ⟨?_, ?_, ?_⟩
  · intro drillFault
    obtain ⟨stats0, h0, hnil⟩ := AttemptRepository_GetOverallStats_ok db userID
    refine ⟨_, _, StatsService_GetOverallStats_of_ok db drillFault userID stats0 h0 hnil,
      StatsService_GetOverallStats_of_ok db (fun _ => none) userID stats0 h0 hnil, ?_, rfl, rfl,
      rfl, rfl, rfl⟩
    exact filterMap_filter_of_key
      (fun dt =>
        match AttemptRepository.GetDrillStats db none userID dt with
        | .error _ => none
        | .ok drillStats => if drillStats.TotalAttempts > 0 then some drillStats else none)
      (fun dt =>
        match AttemptRepository.GetDrillStats db (drillFault dt) userID dt with
        | .error _ => none
        | .ok drillStats => if drillStats.TotalAttempts > 0 then some drillStats else none)
      (fun dt => decide (drillFault dt = none)) (fun ds : DrillStats => ds.DrillType)
      (by
        intro dt
        cases hf : drillFault dt with
        | none => simp [hf]
        | some e => simp [hf, GetDrillStats_of_fault])
      (by
        intro dt ds hds
        simp only [GetDrillStats_selected] at hds
        split_ifs at hds with hex
        rw [← Option.some.inj hds]
        rfl)
      drillTypes
  · intro err countFault drillFault
    simp only [StatsService.GetOverallStats, AttemptRepository.GetOverallStats, driverCall]
  · intro err drillFault
    obtain ⟨stats0, h0, -⟩ := AttemptRepository_GetOverallStats_ok db userID
    simp only [StatsService.GetOverallStats, h0, DrillSessionRepository.CountByUserID]

/-! ## Theorems: the streak fields of the drill statistics -/

/-- C23 (as amended): the `BestStreak` and `CurrentStreak` fields of the record
returned by `GetDrillStats` are both 0 for every user and drill type:
`GetDrillStats` performs no streak scan; for attempts correct, correct, wrong,
correct it reports 4 attempts, 3 of them correct, `BestStreak` 0 and
`CurrentStreak` 0. -/
theorem GetDrillStats_streaks_zero (db : Store) (userID : ObjectID) (drillType : DrillType) :
    (∃ stats, AttemptRepository.GetDrillStats db none userID drillType = .ok stats ∧
      stats.BestStreak = 0 ∧ stats.CurrentStreak = 0) ∧
    (∀ (a1 a2 a3 a4 : Attempt) (sessions : List DrillSession), ∃ stats,
      AttemptRepository.GetDrillStats
        { attempts :=
            [{ a1 with UserID := userID, DrillType := drillType, Correct := true },
             { a2 with UserID := userID, DrillType := drillType, Correct := true },
             { a3 with UserID := userID, DrillType := drillType, Correct := false },
             { a4 with UserID := userID, DrillType := drillType, Correct := true }],
          drillSessions := sessions } none userID drillType = .ok stats ∧
      stats.TotalAttempts = 4 ∧ stats.CorrectAttempts = 3 ∧
      stats.BestStreak = 0 ∧ stats.CurrentStreak = 0) := by
  constructor
  · by_cases h : db.attempts.filter (fun a => a.UserID = userID ∧ a.DrillType = drillType) = []
    · exact ⟨_, GetDrillStats_of_nil db userID drillType h, rfl, rfl⟩
    · exact ⟨_, GetDrillStats_of_ne_nil db userID drillType h, rfl, rfl⟩
  · intro a1 a2 a3 a4 sessions
    refine ⟨_, GetDrillStats_of_ne_nil _ userID drillType (by simp), ?_, ?_, rfl, rfl⟩
    · simp
    · simp

/-- C23 (counterexample): user `1` has the `name_square` attempts correct,
correct, wrong, correct, for which the streak scan gives a best streak of 2;
the record returned by `GetDrillStats` has `BestStreak` 0 and `CurrentStreak`
0. -/
theorem GetDrillStats_streaks_not_scanned :
    (fourAttemptsStore.attempts.filter
        (fun a => a.UserID = 1 ∧ a.DrillType = DrillTypeNameSquare)).map (fun a => a.Correct) =
      [true, true, false, true] ∧
    streakLoop (fourAttemptsStore.attempts.filter
        (fun a => a.UserID = 1 ∧ a.DrillType = DrillTypeNameSquare)) 0 0 = 2 ∧
    ∃ stats, AttemptRepository.GetDrillStats fourAttemptsStore none 1 DrillTypeNameSquare =
        .ok stats ∧
      stats.TotalAttempts = 4 ∧ stats.BestStreak = 0 ∧ stats.CurrentStreak = 0 := by
  refine ⟨by decide, by decide, _,
    GetDrillStats_of_ne_nil fourAttemptsStore 1 DrillTypeNameSquare (by decide), ?_, rfl, rfl⟩
  decide

end ChessDrill
